import Mathlib

/-! FEBio: polar fluid quasi-Newton solver, solid linear system, periodic boundary, linear
constraints and math object variables.

A shallow embedding of `FEBioFluid/FEPolarFluidSolver.cpp`,
`FEBioMech/FESolidLinearSystem.cpp`, `FEBioMech/FEPeriodicBoundary2O.cpp`, the class
`FELinearConstraint` of `FEBio/fem.h` and the variable list of `FECore/MathObject.cpp`.

Conventions of the embedding:
* a C++ `double` is idealised as an exact rational (`ℚ`); the one place where the
  source inspects a non-number, `ISNAN(normR1)`, is represented by an explicit flag
  delivered together with the residual;
* a `vector<double>` is a `List ℚ`; reading outside the vector yields `0` and writing
  outside leaves the vector unchanged (the source has undefined behaviour there);
* an `int` equation number or sentinel is an `Int`;
* services of the base class `FENewtonSolver` (`QNInit`, `QNSolve`, `QNUpdate`,
  `DoAugmentations`) are inputs: the theorems hold for every answer they may give;
* an archive is a list of typed items, written at the end and read from the front;
* an `MVariable*` is a position in a list of variable objects.
-/

namespace FEBio

/-! ## Vectors -/

/-- Dot product of two vectors: `operator*` on `vector<double>`. -/
def dot (a b : List ℚ) : ℚ := (List.zipWith (fun x y => x * y) a b).sum

/-- The routine `zero(v)`: every entry becomes `0`, the size is kept. -/
def zero (v : List ℚ) : List ℚ := List.replicate v.length 0

/-- The call `v.assign(n, 0)`. -/
def assign (n : Nat) (x : ℚ) : List ℚ := List.replicate n x

/-- The loop `for (i = 0; i < n; ++i) U[i] += s*u[i]`. -/
def addScaled (n : Nat) (s : ℚ) (U u : List ℚ) : List ℚ :=
  (List.range n).foldl (fun V i => V.set i (V.getD i 0 + s * u.getD i 0)) U

/-! ## Equation numbers and sentinels -/

/-- Modelled from the spec: the sentinel the equation numbering table gives a prescribed
degree of freedom whose slot is `k` (the numbering routine of the base solver is not
part of the sources at hand). -/
def encodePrescribed (k : Int) : Int := -(k + 2)

/-- The decoding `-id - 2` used by `Residual`, `GetVelocityData` and `Assemble`. -/
def decodePrescribed (id : Int) : Int := -id - 2

/-- The value of a 32-bit `int` computation: the exact result wrapped into
`[-2^31, 2^31)`. -/
def wrapInt32 (x : Int) : Int := (x + 2147483648) % 4294967296 - 2147483648

/-- The decoding `-id - 2` as evaluated in 32-bit `int` arithmetic. -/
def decodePrescribed32 (id : Int) : Int := wrapInt32 (wrapInt32 (-id) - 2)

/-- The index selection of `GetVelocityData`: `nid = (nid < -1 ? -nid-2 : nid)`. -/
def dataIndex (nid : Int) : Int := if nid < -1 then decodePrescribed nid else nid

/-- The guard of `FESolidLinearSystem::Assemble` on a column index:
`J = -elmj[j] - 2; (J >= 0) && (J < m_nreq)`. -/
def isPrescribedColumn (nreq : Int) (cj : Int) : Bool :=
  decide (0 ≤ decodePrescribed cj ∧ decodePrescribed cj < nreq)

/-- The guard of the reaction-force recovery in `Residual`: `(n = -ID - 2) >= 0`. -/
def recoversReaction (id : Int) : Bool := decide (0 ≤ decodePrescribed id)

/-- The reaction load `Residual` stores for one degree of freedom:
`set_load(dof, 0); if ((n = -ID - 2) >= 0) set_load(dof, -m_Fr[n])`. -/
def reactionLoad (Fr : List ℚ) (id : Int) : ℚ :=
  if recoversReaction id then -(Fr.getD (decodePrescribed id).toNat 0) else 0

/-! ## The mesh and the model -/

/-- A mesh node, reduced to the equation numbers `m_ID` of the seven degrees of freedom
the polar fluid solver works with: `m_dofW[0..2]`, `m_dofG[0..2]`, `m_dofEF[0]`. -/
structure FENode where
  idW0 : Int
  idW1 : Int
  idW2 : Int
  idG0 : Int
  idG1 : Int
  idG2 : Int
  idEF : Int

/-- The part of a contact interface `PrepStep` looks at. -/
structure FEContactInterface where
  active : Bool
  m_laugon : Int

/-- The part of the model the solver reads. -/
structure FEModel where
  nodes : List FENode
  surfacePairConstraints : List FEContactInterface
  nonlinearConstraints : Nat
  bcPrepStep : List ℚ → List ℚ

/-- The equation numbers of a node in the order the solver visits them. -/
def FENode.ids (n : FENode) : List Int :=
  [n.idW0, n.idW1, n.idW2, n.idG0, n.idG1, n.idG2, n.idEF]

/-! ## The solver object -/

/-- The data members of `FEPolarFluidSolver` (with those of its base class that `Quasin`
and `Init` read). -/
structure FEPolarFluidSolver where
  m_Rtol : ℚ
  m_Etol : ℚ
  m_Vtol : ℚ
  m_Gtol : ℚ
  m_Ftol : ℚ
  m_Rmin : ℚ
  m_Rmax : ℚ
  m_minJf : ℚ
  m_rhoi : ℚ
  m_alphaf : ℚ
  m_alpham : ℚ
  m_beta : ℚ
  m_gamma : ℚ
  m_pred : Int
  m_order : Int
  m_neq : Nat
  m_nveq : Nat
  m_ngeq : Nat
  m_nfeq : Nat
  m_niter : Nat
  m_LStol : ℚ
  m_LSmin : ℚ
  m_bdivreform : Bool
  m_baugment : Bool
  m_Fn : List ℚ
  m_Fr : List ℚ
  m_Ui : List ℚ
  m_Ut : List ℚ
  m_vi : List ℚ
  m_Vi : List ℚ
  m_gi : List ℚ
  m_Gi : List ℚ
  m_fi : List ℚ
  m_Fi : List ℚ
  m_ui : List ℚ
  m_R0 : List ℚ
  m_R1 : List ℚ

/-- The constructor of `FEPolarFluidSolver`: the default values it assigns. The number of
equations and the settings owned by the base class (line search, divergence reformation)
are taken as given. -/
def FEPolarFluidSolver.construct (neq : Nat) (LStol LSmin : ℚ) (bdivreform : Bool) :
    FEPolarFluidSolver :=
  { m_Rtol := 0.001, m_Etol := 0.01, m_Vtol := 0.001, m_Gtol := 0.001, m_Ftol := 0.001,
    m_Rmin := 1.0e-20, m_Rmax := 0, m_minJf := 0,
    m_rhoi := 0, m_alphaf := 1, m_alpham := 1.5, m_beta := 0.5625, m_gamma := 1,
    m_pred := 0, m_order := 1,
    m_neq := neq, m_nveq := 0, m_ngeq := 0, m_nfeq := 0, m_niter := 0,
    m_LStol := LStol, m_LSmin := LSmin, m_bdivreform := bdivreform, m_baugment := false,
    m_Fn := [], m_Fr := [], m_Ui := [], m_Ut := [], m_vi := [], m_Vi := [], m_gi := [],
    m_Gi := [], m_fi := [], m_Fi := [], m_ui := [], m_R0 := [], m_R1 := [] }

/-- The method `FEPolarFluidSolver::Init`. `baseInit` is the value returned by
`FENewtonSolver::Init()`, `gatherUt` the effect of the seven `gather` calls on the freshly
allocated `m_Ut`. The result is the return value and the solver afterwards. -/
def FEPolarFluidSolver.Init (S : FEPolarFluidSolver) (baseInit : Bool)
    (gatherUt : List ℚ → List ℚ) : Bool × FEPolarFluidSolver :=
  if baseInit = false then (false, S)
  else if S.m_Vtol < 0 then (false, S)
  else if S.m_Gtol < 0 then (false, S)
  else if S.m_Ftol < 0 then (false, S)
  else if S.m_Etol < 0 then (false, S)
  else if S.m_Rtol < 0 then (false, S)
  else
    let params : Option (ℚ × ℚ × ℚ × ℚ) :=
      if S.m_rhoi = -1 then some (1, 1, 1, 1)
      else if 0 ≤ S.m_rhoi ∧ S.m_rhoi ≤ 1 then
        let alphaf := 1 / (1 + S.m_rhoi)
        let alpham :=
          if S.m_order = 1 then (3 - S.m_rhoi) / (1 + S.m_rhoi) / 2
          else (2 - S.m_rhoi) / (1 + S.m_rhoi)
        some (alphaf, alpham, (1 + alpham - alphaf) ^ 2 / 4, 1 / 2 + alpham - alphaf)
      else none
    match params with
    | none => (false, S)
    | some (alphaf, alpham, beta, gamma) =>
      (true,
        { S with
          m_alphaf := alphaf, m_alpham := alpham, m_beta := beta, m_gamma := gamma,
          m_Fn := assign S.m_neq 0, m_Fr := assign S.m_neq 0, m_Ui := assign S.m_neq 0,
          m_Ut := gatherUt (assign S.m_neq 0),
          m_vi := assign S.m_nveq 0, m_Vi := assign S.m_nveq 0,
          m_gi := assign S.m_ngeq 0, m_Gi := assign S.m_ngeq 0,
          m_fi := assign S.m_nfeq 0, m_Fi := assign S.m_nfeq 0 })

/-! ## Extraction of the family increments -/

/-- One block of `GetVelocityData` and its siblings:
`if (nid != -1) { nid = (nid < -1 ? -nid-2 : nid); vi[m++] = ui[nid]; }`. -/
def gatherDof (ui : List ℚ) (st : List ℚ × Nat) (nid : Int) : List ℚ × Nat :=
  if nid ≠ -1 then (st.1.set st.2 (ui.getD (dataIndex nid).toNat 0), st.2 + 1) else st

/-- The method `GetVelocityData(vi, ui)`. -/
def GetVelocityData (fem : FEModel) (vi ui : List ℚ) : List ℚ :=
  (fem.nodes.foldl
    (fun st n => [n.idW0, n.idW1, n.idW2].foldl (gatherDof ui) st) (zero vi, 0)).1

/-- The method `GetAngularVelocityData(xi, ui)`. -/
def GetAngularVelocityData (fem : FEModel) (xi ui : List ℚ) : List ℚ :=
  (fem.nodes.foldl
    (fun st n => [n.idG0, n.idG1, n.idG2].foldl (gatherDof ui) st) (zero xi, 0)).1

/-- The method `GetDilatationData(ei, ui)`. -/
def GetDilatationData (fem : FEModel) (ei ui : List ℚ) : List ℚ :=
  (fem.nodes.foldl (fun st n => gatherDof ui st n.idEF) (zero ei, 0)).1

/-! ## Update of the increments -/

/-- One statement of `UpdateIncrements`: `if ((n = node.m_ID[dof]) >= 0) Ui[n] += ui[n]`. -/
def addIncrement (ui : List ℚ) (Ui : List ℚ) (n : Int) : List ℚ :=
  if 0 ≤ n then Ui.set n.toNat (Ui.getD n.toNat 0 + ui.getD n.toNat 0) else Ui

/-- The method `UpdateIncrements(Ui, ui, emap)`: the loop over the nodes, seven statements
per node. -/
def UpdateIncrements (fem : FEModel) (Ui ui : List ℚ) : List ℚ :=
  fem.nodes.foldl (fun U node => node.ids.foldl (addIncrement ui) U) Ui

/-! ## Preparation of a step -/

/-- The vector part of `PrepStep`: the accumulated increments are zeroed, the prescribed
increments are written to `m_ui`, and the augmentation flag is computed. -/
def PrepStep (fem : FEModel) (S : FEPolarFluidSolver) : FEPolarFluidSolver :=
  let aug := fem.surfacePairConstraints.foldl
    (fun b ci => if ci.active ∧ ci.m_laugon ≠ 1 then true else b) false
  let aug := if fem.nonlinearConstraints ≠ 0 then true else aug
  { S with
    m_Ui := zero S.m_Ui, m_Vi := zero S.m_Vi, m_Gi := zero S.m_Gi, m_Fi := zero S.m_Fi,
    m_ui := fem.bcPrepStep (zero S.m_ui),
    m_baugment := aug }

/-! ## One pass of the quasi-Newton loop -/

/-- What the base class delivers during one pass of the loop of `Quasin`: the line search
step returned by `QNSolve`, the vectors `m_ui`, `m_R0`, `m_R1` it leaves behind, whether
the squared norm of `m_R1` is a NaN, and the values `QNUpdate` and `DoAugmentations`
return if they are called. -/
structure QNData where
  s : ℚ
  ui : List ℚ
  R0 : List ℚ
  R1 : List ℚ
  nanR1 : Bool
  qnUpdate : Bool
  augment : Bool

/-- The reference norms: local variables of `Quasin` that live across passes. -/
structure RefNorms where
  normRi : ℚ
  normVi : ℚ
  normGi : ℚ
  normEi : ℚ
  normEm : ℚ
  normFi : ℚ

/-- The values `Quasin` gives its reference norms at declaration. -/
def RefNorms.initial : RefNorms :=
  { normRi := 0, normVi := 0, normGi := 0, normEi := 0, normEm := 0, normFi := 0 }

/-- The norms computed in every pass. -/
structure PassNorms where
  normR1 : ℚ
  normE1 : ℚ
  normV : ℚ
  normv : ℚ
  normG : ℚ
  normg : ℚ
  normF : ℚ
  normf : ℚ

/-- The solver after `QNSolve` and the three extraction calls. -/
def afterSolve (fem : FEModel) (S : FEPolarFluidSolver) (q : QNData) : FEPolarFluidSolver :=
  { S with
    m_ui := q.ui, m_R0 := q.R0, m_R1 := q.R1,
    m_vi := GetVelocityData fem S.m_vi q.ui,
    m_gi := GetAngularVelocityData fem S.m_gi q.ui,
    m_fi := GetDilatationData fem S.m_fi q.ui }

/-- The block `if (m_niter == 0) { normRi = fabs(m_R0*m_R0); ... }`. -/
def setInitialNorms (S : FEPolarFluidSolver) (N : RefNorms) : RefNorms :=
  if S.m_niter = 0 then
    { normRi := |dot S.m_R0 S.m_R0|,
      normEi := |dot S.m_ui S.m_R0|,
      normVi := |dot S.m_vi S.m_vi|,
      normGi := |dot S.m_gi S.m_gi|,
      normFi := |dot S.m_fi S.m_fi|,
      normEm := |dot S.m_ui S.m_R0| }
  else N

/-- The four update loops `m_Ui[i] += s*m_ui[i]`, ... of a pass. -/
def accumulate (S : FEPolarFluidSolver) (s : ℚ) : FEPolarFluidSolver :=
  { S with
    m_Ui := addScaled S.m_neq s S.m_Ui S.m_ui,
    m_Vi := addScaled S.m_nveq s S.m_Vi S.m_vi,
    m_Gi := addScaled S.m_ngeq s S.m_Gi S.m_gi,
    m_Fi := addScaled S.m_nfeq s S.m_Fi S.m_fi }

/-- The block "calculate the norms". -/
def calcNorms (S : FEPolarFluidSolver) (s : ℚ) : PassNorms :=
  { normR1 := dot S.m_R1 S.m_R1,
    normv := dot S.m_vi S.m_vi * (s * s),
    normV := dot S.m_Vi S.m_Vi,
    normg := dot S.m_gi S.m_gi * (s * s),
    normG := dot S.m_Gi S.m_Gi,
    normf := dot S.m_fi S.m_fi * (s * s),
    normF := dot S.m_Fi S.m_Fi,
    normE1 := s * |dot S.m_ui S.m_R1| }

/-- The residual check: `(m_Rtol > 0) && (normR1 > m_Rtol*normRi)`. -/
def failsR (S : FEPolarFluidSolver) (N : RefNorms) (n : PassNorms) : Bool :=
  decide (S.m_Rtol > 0 ∧ n.normR1 > S.m_Rtol * N.normRi)

/-- The velocity check: `(m_Vtol > 0) && (normv > (m_Vtol*m_Vtol)*normV)`. -/
def failsV (S : FEPolarFluidSolver) (n : PassNorms) : Bool :=
  decide (S.m_Vtol > 0 ∧ n.normv > (S.m_Vtol * S.m_Vtol) * n.normV)

/-- The angular velocity check: `(m_Gtol > 0) && (normg > (m_Gtol*m_Gtol)*normG)`. -/
def failsG (S : FEPolarFluidSolver) (n : PassNorms) : Bool :=
  decide (S.m_Gtol > 0 ∧ n.normg > (S.m_Gtol * S.m_Gtol) * n.normG)

/-- The dilatation check: `(m_Ftol > 0) && (normf > (m_Ftol*m_Ftol)*normF)`. -/
def failsF (S : FEPolarFluidSolver) (n : PassNorms) : Bool :=
  decide (S.m_Ftol > 0 ∧ n.normf > (S.m_Ftol * S.m_Ftol) * n.normF)

/-- The energy check: `(m_Etol > 0) && (normE1 > m_Etol*normEi)`. -/
def failsE (S : FEPolarFluidSolver) (N : RefNorms) (n : PassNorms) : Bool :=
  decide (S.m_Etol > 0 ∧ n.normE1 > S.m_Etol * N.normEi)

/-- The line search check: `(m_LStol > 0) && (s < m_LSmin)`. -/
def failsLS (S : FEPolarFluidSolver) (s : ℚ) : Bool :=
  decide (S.m_LStol > 0 ∧ s < S.m_LSmin)

/-- The energy divergence check: `normE1 > normEm`. -/
def failsDiv (N : RefNorms) (n : PassNorms) : Bool :=
  decide (n.normE1 > N.normEm)

/-- The convergence flag after the seven checks of a pass: it starts as `true` and every
check that fires assigns `false`. -/
def convChecks (S : FEPolarFluidSolver) (N : RefNorms) (n : PassNorms) (s : ℚ) : Bool :=
  let bconv := true
  let bconv := if failsR S N n then false else bconv
  let bconv := if failsV S n then false else bconv
  let bconv := if failsG S n then false else bconv
  let bconv := if failsF S n then false else bconv
  let bconv := if failsE S N n then false else bconv
  let bconv := if failsLS S s then false else bconv
  let bconv := if failsDiv N n then false else bconv
  bconv

/-- The minimum-residual override: `if ((bconv == false) && (normR1 < m_Rmin)) bconv = true`. -/
def minResidualOverride (S : FEPolarFluidSolver) (n : PassNorms) (bconv : Bool) : Bool :=
  if bconv = false ∧ n.normR1 < S.m_Rmin then true else bconv

/-- The guard of `throw MaxResidualError()`. -/
def exceedsMaxResidual (S : FEPolarFluidSolver) (n : PassNorms) (bconv : Bool) : Bool :=
  decide (bconv = false ∧ S.m_Rmax > 0 ∧ n.normR1 ≥ S.m_Rmax)

/-- The reference norms after the divergence branch has reset them. -/
def resetNorms (N : RefNorms) (n : PassNorms) : RefNorms :=
  { N with
    normEm := n.normE1, normEi := n.normE1, normRi := n.normR1,
    normVi := n.normv, normGi := n.normg, normFi := n.normf }

/-- How a pass of the loop ends. -/
inductive PassExit where
  | nanDetected
  | maxResidualError
  | qnUpdateFailed
  | done (bconv : Bool)
  deriving DecidableEq, Repr

/-- The outcome of a pass: how it ended, the solver and the reference norms afterwards,
and whether `QNForceReform(true)` was called during the pass. -/
structure PassResult where
  exit : PassExit
  solver : FEPolarFluidSolver
  norms : RefNorms
  forceReform : Bool

/-- The solver of a pass once `QNSolve`, the extraction calls and the four update loops
have run. -/
def passSolver (fem : FEModel) (S : FEPolarFluidSolver) (q : QNData) : FEPolarFluidSolver :=
  accumulate (afterSolve fem S q) q.s

/-- The reference norms the checks of a pass compare with. -/
def passRefNorms (fem : FEModel) (S : FEPolarFluidSolver) (N : RefNorms) (q : QNData) :
    RefNorms :=
  setInitialNorms (afterSolve fem S q) N

/-- The norms a pass computes. -/
def passNorms (fem : FEModel) (S : FEPolarFluidSolver) (q : QNData) : PassNorms :=
  calcNorms (passSolver fem S q) q.s

/-- The convergence flag of a pass after the seven checks. -/
def passChecks (fem : FEModel) (S : FEPolarFluidSolver) (N : RefNorms) (q : QNData) : Bool :=
  convChecks (passSolver fem S q) (passRefNorms fem S N q) (passNorms fem S q) q.s

/-- The convergence flag of a pass after the minimum-residual override. -/
def passConverged (fem : FEModel) (S : FEPolarFluidSolver) (N : RefNorms) (q : QNData) :
    Bool :=
  minResidualOverride (passSolver fem S q) (passNorms fem S q) (passChecks fem S N q)

/-- The branch `if (s < LSmin) ... else if ((normE1 > normEm) && m_bdivreform) ...` of a
pass that has not converged: the reference norms afterwards and whether
`QNForceReform(true)` was called. -/
def reformBranch (S : FEPolarFluidSolver) (N : RefNorms) (n : PassNorms) (s : ℚ) :
    RefNorms × Bool :=
  if s < S.m_LSmin then (N, true)
  else if n.normE1 > N.normEm ∧ S.m_bdivreform = true then (resetNorms N n, true)
  else (N, false)

/-- One pass of the body of the `do ... while (bconv == false)` loop of `Quasin`. -/
def QuasinPass (fem : FEModel) (S : FEPolarFluidSolver) (N : RefNorms) (q : QNData) :
    PassResult :=
  let S2 := passSolver fem S q
  let N1 := passRefNorms fem S N q
  let n := passNorms fem S q
  if q.nanR1 then ⟨PassExit.nanDetected, S2, N1, false⟩
  else
    let bconv := passConverged fem S N q
    if exceedsMaxResidual S2 n bconv then ⟨PassExit.maxResidualError, S2, N1, false⟩
    else if bconv = false then
      let r := reformBranch S2 N1 n q.s
      if q.qnUpdate = false then ⟨PassExit.qnUpdateFailed, S2, r.1, r.2⟩
      else ⟨PassExit.done false, { S2 with m_niter := S2.m_niter + 1 }, r.1, r.2⟩
    else if S2.m_baugment then
      ⟨PassExit.done q.augment, { S2 with m_niter := S2.m_niter + 1 }, N1, false⟩
    else ⟨PassExit.done true, { S2 with m_niter := S2.m_niter + 1 }, N1, false⟩

/-! ## The whole of `Quasin` -/

/-- How a call of `Quasin` ends: it returns a flag, it leaves by one of its two
exceptions, or it is still iterating when the supplied pass data are used up. -/
inductive QuasinExit where
  | returned (bconv : Bool)
  | nanDetected
  | maxResidualError
  | iterating
  deriving DecidableEq, Repr

/-- The loop of `Quasin` run on the pass data `qs`, one entry per pass. -/
def QuasinLoop (fem : FEModel) :
    List QNData → FEPolarFluidSolver → RefNorms → QuasinExit × FEPolarFluidSolver
  | [], S, _ => (QuasinExit.iterating, S)
  | q :: qs, S, N =>
    let r := QuasinPass fem S N q
    match r.exit with
    | PassExit.nanDetected => (QuasinExit.nanDetected, r.solver)
    | PassExit.maxResidualError => (QuasinExit.maxResidualError, r.solver)
    | PassExit.qnUpdateFailed => (QuasinExit.returned false, r.solver)
    | PassExit.done true => (QuasinExit.returned true, r.solver)
    | PassExit.done false => QuasinLoop fem qs r.solver r.norms

/-- The method `Quasin`. `qnInit` is the value returned by `QNInit()`, `qs` the pass data.
On convergence the total solution is updated by `UpdateIncrements(m_Ut, m_Ui, true)`. -/
def Quasin (fem : FEModel) (S : FEPolarFluidSolver) (qnInit : Bool) (qs : List QNData) :
    QuasinExit × FEPolarFluidSolver :=
  let S0 := PrepStep fem S
  if qnInit = false then (QuasinExit.returned false, S0)
  else
    let r := QuasinLoop fem qs S0 RefNorms.initial
    match r.1 with
    | QuasinExit.returned true =>
      (QuasinExit.returned true, { r.2 with m_Ut := UpdateIncrements fem r.2.m_Ut r.2.m_Ui })
    | e => (e, r.2)

/-! ## Assembly into the solid linear system -/

/-- An element matrix with its index lists: `ke.Nodes()`, `ke.rows()`, the entries
`ke[i][j]`, `ke.RowIndices()` and `ke.ColumnsIndices()`. -/
structure FEElementMatrix where
  nodes : List Int
  rows : Nat
  val : Nat → Nat → ℚ
  RowIndices : List Int
  ColumnsIndices : List Int

/-- The linear system `FESolidLinearSystem` assembles into: the global matrix `m_K`, the
right-hand side `m_F`, the prescribed values `m_u` and the parameters `m_nreq`, `m_alpha`. -/
structure FESolidLinearSystem where
  m_K : Nat → Nat → ℚ
  m_F : List ℚ
  m_u : List ℚ
  m_nreq : Int
  m_alpha : ℚ

/-- The collaborators of `FESolidLinearSystem::Assemble` that are not part of the sources
at hand: the assembly of the base class, the scatter of `m_K.Assemble(ke)`, the linear
constraint manager and the rigid solver. -/
structure AssembleServices where
  baseAssemble : FEElementMatrix → FESolidLinearSystem → FESolidLinearSystem
  matrixAssemble : FEElementMatrix → (Nat → Nat → ℚ) → (Nat → Nat → ℚ)
  linearConstraints : Nat
  lcAssembleStiffness : FEElementMatrix → FESolidLinearSystem → FESolidLinearSystem
  rigidStiffness : FEElementMatrix → FESolidLinearSystem → FESolidLinearSystem

/-- The call `K.set(i, j, v)`. -/
def matrixSet (K : Nat → Nat → ℚ) (i j : Nat) (v : ℚ) : Nat → Nat → ℚ :=
  fun a b => if a = i ∧ b = j then v else K a b

/-- The body of the inner loop over the rows, for a prescribed column `j` with slot `J`:
`I = elmi[i]; if (I >= 0) m_F[I] -= ke[i][j] * ui[J]`. -/
def moveRow (ke : FEElementMatrix) (ui : List ℚ) (j : Nat) (J : Int) (F : List ℚ) (i : Nat) :
    List ℚ :=
  let I := ke.RowIndices.getD i (-1)
  if 0 ≤ I then F.set I.toNat (F.getD I.toNat 0 - ke.val i j * ui.getD J.toNat 0) else F

/-- The inner loop over the rows `for (i = 0; i < N; ++i)`. -/
def moveColumn (ke : FEElementMatrix) (ui : List ℚ) (j : Nat) (J : Int) (F : List ℚ) :
    List ℚ :=
  (List.range ke.rows).foldl (moveRow ke ui j J) F

/-- The body of the loop over the columns. -/
def prescribedColumn (ke : FEElementMatrix) (L : FESolidLinearSystem) (j : Nat) :
    FESolidLinearSystem :=
  let J := decodePrescribed (ke.ColumnsIndices.getD j (-1))
  if isPrescribedColumn L.m_nreq (ke.ColumnsIndices.getD j (-1)) then
    { L with m_F := moveColumn ke L.m_u j J L.m_F, m_K := matrixSet L.m_K J.toNat J.toNat 1 }
  else L

/-- The method `FESolidLinearSystem::Assemble(ke)`. -/
def FESolidLinearSystem.Assemble (srv : AssembleServices) (L : FESolidLinearSystem)
    (ke : FEElementMatrix) : FESolidLinearSystem :=
  if ke.nodes.isEmpty then srv.baseAssemble ke L
  else
    let L1 := { L with m_K := srv.matrixAssemble ke L.m_K }
    let L2 := if srv.linearConstraints > 0 then srv.lcAssembleStiffness ke L1 else L1
    let L3 := (List.range ke.rows).foldl (prescribedColumn ke) L2
    srv.rigidStiffness ke L3

/-! ## Three-dimensional vectors and matrices -/

/-- Modelled from the spec: the class `vec3d` of FECore (not among the sources at hand), a
vector with three components. -/
structure vec3d where
  x : ℚ
  y : ℚ
  z : ℚ
  deriving DecidableEq

/-- Modelled from the spec: the zero vector `vec3d(0,0,0)`. -/
def vec3d.zero : vec3d := ⟨0, 0, 0⟩

/-- Modelled from the spec: `a + b` on `vec3d`, componentwise. -/
def vec3d.add (a b : vec3d) : vec3d := ⟨a.x + b.x, a.y + b.y, a.z + b.z⟩

/-- Modelled from the spec: `a - b` on `vec3d`, componentwise. -/
def vec3d.sub (a b : vec3d) : vec3d := ⟨a.x - b.x, a.y - b.y, a.z - b.z⟩

/-- Modelled from the spec: `a * g` on `vec3d`, the product with a scalar. -/
def vec3d.scale (a : vec3d) (g : ℚ) : vec3d := ⟨a.x * g, a.y * g, a.z * g⟩

/-- Modelled from the spec: `a * b` on `vec3d`, the dot product. -/
def vec3d.dot (a b : vec3d) : ℚ := a.x * b.x + a.y * b.y + a.z * b.z

/-- Modelled from the spec: `a ^ b` on `vec3d`, the cross product. -/
def vec3d.cross (a b : vec3d) : vec3d :=
  ⟨a.y * b.z - a.z * b.y, a.z * b.x - a.x * b.z, a.x * b.y - a.y * b.x⟩

/-- Modelled from the spec: `a.norm()` on `vec3d`, the Euclidean length; the square root of
the C library is the parameter `sqrt`. -/
def vec3d.norm (sqrt : ℚ → ℚ) (a : vec3d) : ℚ := sqrt (a.x * a.x + a.y * a.y + a.z * a.z)

/-- Modelled from the spec: the class `mat3d` of FECore (not among the sources at hand), a
3x3 matrix given by its rows. -/
structure mat3d where
  row0 : vec3d
  row1 : vec3d
  row2 : vec3d

/-- Modelled from the spec: `A * v`, the product of a `mat3d` with a `vec3d`. -/
def mat3d.mulVec (A : mat3d) (v : vec3d) : vec3d := ⟨A.row0.dot v, A.row1.dot v, A.row2.dot v⟩

/-- Modelled from the spec: `A.zero()`, the zero matrix. -/
def mat3d.zero : mat3d := ⟨vec3d.zero, vec3d.zero, vec3d.zero⟩

/-! ## Surfaces of the periodic boundary -/

/-- A node of the mesh as the periodic boundary sees it: reference position, current
position and the equation numbers of the three displacement degrees of freedom. -/
structure FEMeshNode where
  m_r0 : vec3d
  m_rt : vec3d
  idX : Int
  idY : Int
  idZ : Int

/-- The node read for an index outside the mesh. -/
def FEMeshNode.none : FEMeshNode := ⟨vec3d.zero, vec3d.zero, -1, -1, -1⟩

/-- The call `mesh.Node(n)`. -/
def meshNode (mesh : List FEMeshNode) (n : Nat) : FEMeshNode := mesh.getD n FEMeshNode.none

/-- A surface element: the mesh numbers `m_node` and the surface numbers `m_lnode` of its
nodes, its Gauss weights, the shape function derivatives `Gr(n)` and `Gs(n)` at its
integration points and the shape functions `H(r, s)` that `eval` interpolates with. -/
structure FESurfaceElement where
  m_node : List Nat
  m_lnode : List Nat
  GaussWeights : List ℚ
  Gr : List (List ℚ)
  Gs : List (List ℚ)
  H : ℚ → ℚ → List ℚ

/-- The call `el.Nodes()`. -/
def FESurfaceElement.Nodes (el : FESurfaceElement) : Nat := el.m_node.length

/-- Modelled from the spec: `FESurfaceElement::eval(v, r, s)` (FECore, not among the sources
at hand), the interpolation of the nodal values `v` with the shape functions of the element
at the point `(r, s)`. -/
def FESurfaceElement.eval (el : FESurfaceElement) (v : List vec3d) (r s : ℚ) : vec3d :=
  (List.range el.Nodes).foldl
    (fun a j => a.add ((v.getD j vec3d.zero).scale ((el.H r s).getD j 0))) vec3d.zero

/-- A surface of the periodic boundary: the mesh numbers of its nodes, its elements and the
per-node data `m_pme` (master element of the projection, `none` for a null pointer), `m_rs`
(projection coordinates), `m_gap`, `m_Lm` (multipliers), `m_Tn` (tractions) and `m_Fr`
(reaction forces). -/
structure FEPeriodicSurface where
  m_node : List Nat
  m_el : List FESurfaceElement
  m_pme : List (Option FESurfaceElement)
  m_rs : List (ℚ × ℚ)
  m_gap : List vec3d
  m_Lm : List vec3d
  m_Tn : List vec3d
  m_Fr : List vec3d

/-- The call `s.Nodes()`. -/
def FEPeriodicSurface.Nodes (s : FEPeriodicSurface) : Nat := s.m_node.length

/-- The call `s.Node(i)`: the mesh node behind the `i`-th node of the surface. -/
def FEPeriodicSurface.Node (s : FEPeriodicSurface) (mesh : List FEMeshNode) (i : Nat) :
    FEMeshNode :=
  meshNode mesh (s.m_node.getD i 0)

/-- The data members of `FEPeriodicBoundary2O`; of the third-order tensor `m_Gmacro` only
the map `v ↦ m_Gmacro.contractdyad1(v)` is kept. -/
structure FEPeriodicBoundary2O where
  m_blaugon : Bool
  m_stol : ℚ
  m_srad : ℚ
  m_atol : ℚ
  m_eps : ℚ
  m_btwo_pass : Bool
  m_off : vec3d
  m_naugmin : Int
  m_Fmacro : mat3d
  m_Gmacro : vec3d → vec3d
  m_ss : FEPeriodicSurface
  m_ms : FEPeriodicSurface

/-- The constructor of `FEPeriodicBoundary2O`: the default values it assigns. The flag
`m_blaugon` belongs to the base class and the surfaces are filled in later; both are taken as
given. -/
def FEPeriodicBoundary2O.construct (blaugon : Bool) (ss ms : FEPeriodicSurface) :
    FEPeriodicBoundary2O :=
  { m_blaugon := blaugon, m_stol := 0.01, m_srad := 1.0, m_atol := 0, m_eps := 0,
    m_btwo_pass := false, m_off := ⟨0, 0, 0⟩, m_naugmin := 0,
    m_Fmacro := mat3d.zero, m_Gmacro := fun _ => vec3d.zero, m_ss := ss, m_ms := ms }

/-! ## Augmentation of the periodic boundary -/

/-- The loop `for (i < s.Nodes()) { lm = s.m_Lm[i]; normL0 += lm*lm; }`. -/
def multiplierNormSq (s : FEPeriodicSurface) (acc : ℚ) : ℚ :=
  (List.range s.Nodes).foldl
    (fun a i => a + (s.m_Lm.getD i vec3d.zero).dot (s.m_Lm.getD i vec3d.zero)) acc

/-- The loop `for (i < s.Nodes()) { lm = s.m_Lm[i] + s.m_gap[i]*m_eps; normL1 += lm*lm;
g = s.m_gap[i].norm(); normgc += g*g; ++N; }` on the triple `(normL1, normgc, N)`. -/
def updatedNormSq (sqrt : ℚ → ℚ) (eps : ℚ) (s : FEPeriodicSurface) (acc : ℚ × ℚ × Nat) :
    ℚ × ℚ × Nat :=
  (List.range s.Nodes).foldl
    (fun a i =>
      let lm := (s.m_Lm.getD i vec3d.zero).add ((s.m_gap.getD i vec3d.zero).scale eps)
      let g := (s.m_gap.getD i vec3d.zero).norm sqrt
      (a.1 + lm.dot lm, a.2.1 + g * g, a.2.2 + 1))
    acc

/-- The norms `Augment` computes. -/
structure AugmentNorms where
  normL0 : ℚ
  normL1 : ℚ
  normgc : ℚ
  pctn : ℚ

/-- The norm computations of `Augment`, up to the convergence check. -/
def augmentNorms (sqrt : ℚ → ℚ) (pb : FEPeriodicBoundary2O) : AugmentNorms :=
  let normL0 := sqrt (multiplierNormSq pb.m_ms (multiplierNormSq pb.m_ss 0))
  let acc := updatedNormSq sqrt pb.m_eps pb.m_ms (updatedNormSq sqrt pb.m_eps pb.m_ss (0, 0, 0))
  let N := if acc.2.2 = 0 then 1 else acc.2.2
  let normL1 := sqrt acc.1
  let normgc := sqrt (acc.2.1 / N)
  let pctn := if |normL1| > 1e-10 then |(normL1 - normL0) / normL1| else 0
  { normL0 := normL0, normL1 := normL1, normgc := normgc, pctn := pctn }

/-- The loop `for (i < s.Nodes()) s.m_Lm[i] = s.m_Lm[i] + s.m_gap[i]*m_eps`. -/
def updateMultipliers (eps : ℚ) (s : FEPeriodicSurface) : FEPeriodicSurface :=
  { s with
    m_Lm := (List.range s.Nodes).foldl
      (fun L i => L.set i ((L.getD i vec3d.zero).add ((s.m_gap.getD i vec3d.zero).scale eps)))
      s.m_Lm }

/-- The convergence flag of `Augment`: `bconv = true; if (pctn >= m_atol) bconv = false;
if (m_naugmin > naug) bconv = false`. -/
def augmentConverged (pb : FEPeriodicBoundary2O) (pctn : ℚ) (naug : Int) : Bool :=
  let bconv := true
  let bconv := if pctn ≥ pb.m_atol then false else bconv
  let bconv := if pb.m_naugmin > naug then false else bconv
  bconv

/-- The method `FEPeriodicBoundary2O::Augment(naug)`: the return value and the interface
afterwards. -/
def FEPeriodicBoundary2O.Augment (sqrt : ℚ → ℚ) (pb : FEPeriodicBoundary2O) (naug : Int) :
    Bool × FEPeriodicBoundary2O :=
  if pb.m_blaugon = false then (true, pb)
  else
    let bconv := augmentConverged pb (augmentNorms sqrt pb).pctn naug
    if bconv = false then
      (bconv,
        { pb with
          m_ss := updateMultipliers pb.m_eps pb.m_ss,
          m_ms := updateMultipliers pb.m_eps pb.m_ms })
    else (bconv, pb)

/-! ## Gap, force and stiffness of the periodic boundary -/

/-- The displacement-like quantity of a node in `Update`:
`node.m_rt - m_Fmacro*node.m_r0 - m_Gmacro.contractdyad1(node.m_r0)*0.5`. -/
def nodalW (pb : FEPeriodicBoundary2O) (node : FEMeshNode) : vec3d :=
  (node.m_rt.sub (pb.m_Fmacro.mulVec node.m_r0)).sub ((pb.m_Gmacro node.m_r0).scale 0.5)

/-- The gap of a slave node against its master element in `Update`: `ws - wm`, with `wm` the
interpolation of the master nodes' values at the projection point `(r, s)`. -/
def pointGap (pb : FEPeriodicBoundary2O) (slave : FEMeshNode) (masters : List FEMeshNode)
    (pme : FESurfaceElement) (r s : ℚ) : vec3d :=
  let ws := nodalW pb slave
  let wmi := (List.range pme.Nodes).map (fun j => nodalW pb (masters.getD j FEMeshNode.none))
  let wm := pme.eval wmi r s
  ws.sub wm

/-- The body of the node loop of `Update` for the slave node `i`; `none` when the master
element pointer `ss.m_pme[i]` is null (it is dereferenced without a check). -/
def updateGap (pb : FEPeriodicBoundary2O) (mesh : List FEMeshNode) (ms : FEPeriodicSurface)
    (ss : FEPeriodicSurface) (i : Nat) : Option FEPeriodicSurface :=
  match ss.m_pme.getD i none with
  | none => none
  | some pme =>
    let masters := (List.range pme.Nodes).map (fun j => ms.Node mesh (pme.m_lnode.getD j 0))
    let rs := ss.m_rs.getD i (0, 0)
    some { ss with m_gap := ss.m_gap.set i (pointGap pb (ss.Node mesh i) masters pme rs.1 rs.2) }

/-- The node loop of `Update` for one pass. -/
def updateGaps (pb : FEPeriodicBoundary2O) (mesh : List FEMeshNode)
    (ss ms : FEPeriodicSurface) : Option FEPeriodicSurface :=
  (List.range ss.Nodes).foldlM (updateGap pb mesh ms) ss

/-- The method `FEPeriodicBoundary2O::Update`: one pass with `m_ss` as slave, and with
`two_pass` a second one with `m_ms` as slave. -/
def FEPeriodicBoundary2O.Update (pb : FEPeriodicBoundary2O) (mesh : List FEMeshNode) :
    Option FEPeriodicBoundary2O :=
  match updateGaps pb mesh pb.m_ss pb.m_ms with
  | none => none
  | some ss =>
    if pb.m_btwo_pass then
      match updateGaps pb mesh pb.m_ms ss with
      | none => none
      | some ms => some { pb with m_ss := ss, m_ms := ms }
    else some { pb with m_ss := ss }

/-- The method `FEContactSurface::UnpackLM(el, lm)`: the equation numbers of the three
displacement degrees of freedom of the nodes of `el`. -/
def UnpackLM (mesh : List FEMeshNode) (el : FESurfaceElement) : List Int :=
  (List.range el.Nodes).foldl
    (fun lm i =>
      let node := meshNode mesh (el.m_node.getD i 0)
      ((lm.set (3 * i) node.idX).set (3 * i + 1) node.idY).set (3 * i + 2) node.idZ)
    (List.replicate (el.Nodes * 3) 0)

/-- The Jacobian at the integration point `n` of a slave element with reference node
positions `r0`: `dxr = Σ Gr[k]*r0[k]`, `dxs = Σ Gs[k]*r0[k]`, `detJ = (dxr ^ dxs).norm()`. -/
def surfaceJacobian (sqrt : ℚ → ℚ) (sel : FESurfaceElement) (r0 : List vec3d) (n : Nat) : ℚ :=
  let Gr := sel.Gr.getD n []
  let Gs := sel.Gs.getD n []
  let d := (List.range sel.Nodes).foldl
    (fun (d : vec3d × vec3d) k =>
      let p := r0.getD k vec3d.zero
      (⟨d.1.x + Gr.getD k 0 * p.x, d.1.y + Gr.getD k 0 * p.y, d.1.z + Gr.getD k 0 * p.z⟩,
       ⟨d.2.x + Gs.getD k 0 * p.x, d.2.y + Gs.getD k 0 * p.y, d.2.z + Gs.getD k 0 * p.z⟩))
    (vec3d.zero, vec3d.zero)
  (d.1.cross d.2).norm sqrt

/-- The Jacobian `detJ` at the `n`-th node of the slave element `sel`, from the reference
positions `r0[i] = mesh.Node(sel.m_node[i]).m_r0` of its nodes. -/
def pointJacobian (sqrt : ℚ → ℚ) (mesh : List FEMeshNode) (sel : FESurfaceElement) (n : Nat) :
    ℚ :=
  surfaceJacobian sqrt sel
    ((List.range sel.Nodes).map (fun i => (meshNode mesh (sel.m_node.getD i 0)).m_r0)) n

/-- The master shape function values at `(r, s)` as `ContactForces` and `ContactStiffness`
compute them: bilinear for four nodes, linear for three; `none` stands for `assert(false)`. -/
def masterShape (nmeln : Nat) (r s : ℚ) : Option (List ℚ) :=
  if nmeln = 4 then
    some [0.25 * (1 - r) * (1 - s), 0.25 * (1 + r) * (1 - s), 0.25 * (1 + r) * (1 + s),
      0.25 * (1 - r) * (1 + s)]
  else if nmeln = 3 then some [1 - r - s, r, s]
  else none

/-- The slave node traction `tc = ss.m_Lm[m] + ss.m_gap[m]*m_eps`. -/
def traction (pb : FEPeriodicBoundary2O) (ss : FEPeriodicSurface) (m : Nat) : vec3d :=
  (ss.m_Lm.getD m vec3d.zero).add ((ss.m_gap.getD m vec3d.zero).scale pb.m_eps)

/-- The element force vector `fe` of `ContactForces`: three entries for the slave node and
three for every node of the master element. -/
def elementForce (detJ w : ℚ) (tc : vec3d) (N : List ℚ) (nmeln : Nat) : List ℚ :=
  let fe := List.replicate (3 * (nmeln + 1)) (0 : ℚ)
  let fe := fe.set 0 (-detJ * w * tc.x)
  let fe := fe.set 1 (-detJ * w * tc.y)
  let fe := fe.set 2 (-detJ * w * tc.z)
  (List.range nmeln).foldl
    (fun fe l =>
      ((fe.set (3 * (l + 1)) (detJ * w * tc.x * N.getD l 0)).set (3 * (l + 1) + 1)
        (detJ * w * tc.y * N.getD l 0)).set (3 * (l + 1) + 2) (detJ * w * tc.z * N.getD l 0))
    fe

/-- The `lm` array of an element force or stiffness: the three equation numbers of the slave
node `n` followed by those of the master element nodes. -/
def elementLM (sLM mLM : List Int) (n nmeln : Nat) : List Int :=
  let lm := List.replicate (3 * (nmeln + 1)) (0 : Int)
  let lm := lm.set 0 (sLM.getD (n * 3) 0)
  let lm := lm.set 1 (sLM.getD (n * 3 + 1) 0)
  let lm := lm.set 2 (sLM.getD (n * 3 + 2) 0)
  (List.range nmeln).foldl
    (fun lm l =>
      ((lm.set (3 * (l + 1)) (mLM.getD (l * 3) 0)).set (3 * (l + 1) + 1)
        (mLM.getD (l * 3 + 1) 0)).set (3 * (l + 1) + 2) (mLM.getD (l * 3 + 2) 0))
    lm

/-- The `en` array: the slave node followed by the master element nodes. -/
def elementNodes (sel mel : FESurfaceElement) (n nmeln : Nat) : List Nat :=
  let en := List.replicate (nmeln + 1) 0
  let en := en.set 0 (sel.m_node.getD n 0)
  (List.range nmeln).foldl (fun en l => en.set (l + 1) (mel.m_node.getD l 0)) en

/-- One call `R.Assemble(en, lm, fe)` on the global vector. -/
structure ForceAssembly where
  en : List Nat
  lm : List Int
  fe : List ℚ

/-- The body of the integration point loop of `ContactForces` for the `n`-th node of the
slave element `sel`: the traction is stored in `m_Tn`, the element force is assembled and
added to `m_Fr`. The result is `none` when the master element pointer is null or the master
element has neither three nor four nodes. -/
def forcePoint (sqrt : ℚ → ℚ) (pb : FEPeriodicBoundary2O) (mesh : List FEMeshNode)
    (sel : FESurfaceElement) (st : FEPeriodicSurface × List ForceAssembly) (n : Nat) :
    Option (FEPeriodicSurface × List ForceAssembly) :=
  let sLM := UnpackLM mesh sel
  let w := sel.GaussWeights.getD n 0
  let m := sel.m_lnode.getD n 0
  let detJ := pointJacobian sqrt mesh sel n
  let tc := traction pb st.1 m
  let ss := { st.1 with m_Tn := st.1.m_Tn.set m tc }
  match ss.m_pme.getD m none with
  | none => none
  | some mel =>
    let mLM := UnpackLM mesh mel
    let nmeln := mel.Nodes
    let rs := ss.m_rs.getD m (0, 0)
    match masterShape nmeln rs.1 rs.2 with
    | none => none
    | some N =>
      let fe := elementForce detJ w tc N nmeln
      let lm := elementLM sLM mLM n nmeln
      let en := elementNodes sel mel n nmeln
      let fr := ss.m_Fr.getD m vec3d.zero
      some ({ ss with
              m_Fr := ss.m_Fr.set m
                ⟨fr.x + fe.getD 0 0, fr.y + fe.getD 1 0, fr.z + fe.getD 2 0⟩ },
            st.2 ++ [⟨en, lm, fe⟩])

/-- The loops of `ContactForces` over the facets of one slave surface and their nodes, after
`zero(ss.m_Fr)`. -/
def forceSurface (sqrt : ℚ → ℚ) (pb : FEPeriodicBoundary2O) (mesh : List FEMeshNode)
    (ss : FEPeriodicSurface) (R : List ForceAssembly) :
    Option (FEPeriodicSurface × List ForceAssembly) :=
  ss.m_el.foldlM
    (fun st sel => (List.range sel.Nodes).foldlM (forcePoint sqrt pb mesh sel) st)
    ({ ss with m_Fr := List.replicate ss.m_Fr.length vec3d.zero }, R)

/-- The method `FEPeriodicBoundary2O::ContactForces(R)`: the interface afterwards and the
calls of `R.Assemble` in order, or `none` when a pass does not complete. -/
def FEPeriodicBoundary2O.ContactForces (sqrt : ℚ → ℚ) (pb : FEPeriodicBoundary2O)
    (mesh : List FEMeshNode) (R : List ForceAssembly) :
    Option (FEPeriodicBoundary2O × List ForceAssembly) :=
  match forceSurface sqrt pb mesh pb.m_ss R with
  | none => none
  | some (ss, R1) =>
    if pb.m_btwo_pass then
      match forceSurface sqrt pb mesh pb.m_ms R1 with
      | none => none
      | some (ms, R2) => some ({ pb with m_ss := ss, m_ms := ms }, R2)
    else some ({ pb with m_ss := ss }, R1)

/-- The rows and columns of the slave node against the master node `k` in the element
stiffness: six assignments of `-w*detJ*eps*H[k]`. -/
def stiffnessSlaveMaster (c : ℚ) (H : List ℚ) (ke : Nat → Nat → ℚ) (k : Nat) :
    Nat → Nat → ℚ :=
  let ke := matrixSet ke 0 (3 + 3 * k) (-c * H.getD k 0)
  let ke := matrixSet ke 1 (3 + 3 * k + 1) (-c * H.getD k 0)
  let ke := matrixSet ke 2 (3 + 3 * k + 2) (-c * H.getD k 0)
  let ke := matrixSet ke (3 + 3 * k) 0 (-c * H.getD k 0)
  let ke := matrixSet ke (3 + 3 * k + 1) 1 (-c * H.getD k 0)
  matrixSet ke (3 + 3 * k + 2) 2 (-c * H.getD k 0)

/-- The block of the master nodes `k` and `l` in the element stiffness: three assignments of
`w*detJ*eps*H[k]*H[l]`. -/
def stiffnessMasterMaster (c : ℚ) (H : List ℚ) (k : Nat) (ke : Nat → Nat → ℚ) (l : Nat) :
    Nat → Nat → ℚ :=
  let ke := matrixSet ke (3 + 3 * k) (3 + 3 * l) (c * H.getD k 0 * H.getD l 0)
  let ke := matrixSet ke (3 + 3 * k + 1) (3 + 3 * l + 1) (c * H.getD k 0 * H.getD l 0)
  matrixSet ke (3 + 3 * k + 2) (3 + 3 * l + 2) (c * H.getD k 0 * H.getD l 0)

/-- The element stiffness `ke` of `ContactStiffness`, filled after `ke.zero()`. -/
def elementStiffness (w detJ eps : ℚ) (H : List ℚ) (nmeln : Nat) : Nat → Nat → ℚ :=
  let ke : Nat → Nat → ℚ := fun _ _ => 0
  let ke := matrixSet ke 0 0 (w * detJ * eps)
  let ke := matrixSet ke 1 1 (w * detJ * eps)
  let ke := matrixSet ke 2 2 (w * detJ * eps)
  let ke := (List.range nmeln).foldl (stiffnessSlaveMaster (w * detJ * eps) H) ke
  (List.range nmeln).foldl
    (fun ke k => (List.range nmeln).foldl (stiffnessMasterMaster (w * detJ * eps) H k) ke) ke

/-- One call `psolver->AssembleStiffness(en, lm, ke)`, with the size `ndof` of `ke`. -/
structure StiffnessAssembly where
  en : List Nat
  lm : List Int
  ndof : Nat
  ke : Nat → Nat → ℚ

/-- The body of the integration point loop of `ContactStiffness` for the `n`-th node of the
slave element `se`; `none` when the master element pointer is null or the master element has
neither three nor four nodes. -/
def stiffnessPoint (sqrt : ℚ → ℚ) (pb : FEPeriodicBoundary2O) (mesh : List FEMeshNode)
    (ss : FEPeriodicSurface) (se : FESurfaceElement) (K : List StiffnessAssembly) (n : Nat) :
    Option (List StiffnessAssembly) :=
  let sLM := UnpackLM mesh se
  let w := se.GaussWeights.getD n 0
  let m := se.m_lnode.getD n 0
  let detJ := pointJacobian sqrt mesh se n
  match ss.m_pme.getD m none with
  | none => none
  | some me =>
    let mLM := UnpackLM mesh me
    let nmeln := me.Nodes
    let rs := ss.m_rs.getD m (0, 0)
    match masterShape nmeln rs.1 rs.2 with
    | none => none
    | some H =>
      let ndof := 3 * (1 + nmeln)
      let ke := elementStiffness w detJ pb.m_eps H nmeln
      let lm := elementLM sLM mLM n nmeln
      let en := elementNodes se me n nmeln
      some (K ++ [⟨en, lm, ndof, ke⟩])

/-- The loops of `ContactStiffness` over the elements of one slave surface and their
integration points. -/
def stiffnessSurface (sqrt : ℚ → ℚ) (pb : FEPeriodicBoundary2O) (mesh : List FEMeshNode)
    (ss : FEPeriodicSurface) (K : List StiffnessAssembly) : Option (List StiffnessAssembly) :=
  ss.m_el.foldlM
    (fun K se => (List.range se.Nodes).foldlM (stiffnessPoint sqrt pb mesh ss se) K) K

/-- The method `FEPeriodicBoundary2O::ContactStiffness(psolver)`: the calls of
`AssembleStiffness` in order, or `none` when a pass does not complete. -/
def FEPeriodicBoundary2O.ContactStiffness (sqrt : ℚ → ℚ) (pb : FEPeriodicBoundary2O)
    (mesh : List FEMeshNode) (K : List StiffnessAssembly) : Option (List StiffnessAssembly) :=
  match stiffnessSurface sqrt pb mesh pb.m_ss K with
  | none => none
  | some K1 => if pb.m_btwo_pass then stiffnessSurface sqrt pb mesh pb.m_ms K1 else some K1

/-- The method `FEPeriodicBoundary2O::ProjectSurface(ss, ms, bmove)`. The search
`np.Project3(r0, cn, rs)` on the master surface is the parameter `project3`; it returns the
master element found together with the projection coordinates, or `none` for a null
pointer, on which `assert(ss.m_pme[i])` stops the routine. -/
def ProjectSurface (project3 : vec3d → Option (FESurfaceElement × ℚ × ℚ))
    (mesh : List FEMeshNode) (ss : FEPeriodicSurface) : Option FEPeriodicSurface :=
  (List.range ss.Nodes).foldlM
    (fun ss i =>
      match project3 (ss.Node mesh i).m_r0 with
      | none => none
      | some (pme, r, s) =>
        some { ss with m_pme := ss.m_pme.set i (some pme), m_rs := ss.m_rs.set i (r, s) })
    ss

/-! ## The resultant of an element force vector -/

/-- The sum over the nodes of an element force vector of the component `c` (`0`, `1` or `2`)
of the nodal forces: entry `3*k + c` belongs to the `k`-th node. -/
def nodalForceSum (fe : List ℚ) (c : Nat) : ℚ :=
  ((List.range (fe.length / 3)).map (fun k => fe.getD (3 * k + c) 0)).sum

/-! ## Numbering of the equations -/

/-- What `InitEquations` sees of a nonlinear constraint or of a surface pair constraint:
`IsActive()` and the method `InitEquations(neq)`, which is handed the first free equation
number and returns the number of equations the constraint has taken. -/
structure FELagrangeConstraint where
  active : Bool
  InitEquations : Nat → Nat

/-- One call `lmc->InitEquations(m_neq)`: the constraint called, the equation number it was
handed and the number of equations it returned. -/
structure EquationRange where
  constraint : FELagrangeConstraint
  first : Nat
  count : Nat

/-- The body of either constraint loop of `InitEquations`:
`if (lmc->IsActive()) m_neq += lmc->InitEquations(m_neq)`, on the equation count and the
calls made so far. -/
def addMultipliers (st : Nat × List EquationRange) (lmc : FELagrangeConstraint) :
    Nat × List EquationRange :=
  if lmc.active then
    (st.1 + lmc.InitEquations st.1, st.2 ++ [⟨lmc, st.1, lmc.InitEquations st.1⟩])
  else st

/-- One statement `if (n.m_ID[dof] != -1) count++`. -/
def countFree (count : Nat) (id : Int) : Nat := if id ≠ -1 then count + 1 else count

/-- The node loop of `InitEquations` on the three counters `m_nveq`, `m_ngeq`, `m_nfeq`. -/
def countEquations (c : Nat × Nat × Nat) (n : FENode) : Nat × Nat × Nat :=
  (countFree (countFree (countFree c.1 n.idW0) n.idW1) n.idW2,
   countFree (countFree (countFree c.2.1 n.idG0) n.idG1) n.idG2,
   countFree c.2.2 n.idEF)

/-- The method `FEPolarFluidSolver::InitEquations`. `baseInit` stands for the base class
call `FENewtonSolver::InitEquations()`: `none` when it fails, otherwise the number of nodal
equations it leaves in `m_neq`. `nlc` and `spc` are the nonlinear constraints and the surface
pair constraints of the model in model order. The result is the return value, the solver
afterwards and the calls of `InitEquations` made on constraints, in order. -/
def FEPolarFluidSolver.InitEquations (S : FEPolarFluidSolver) (fem : FEModel)
    (baseInit : Option Nat) (nlc spc : List FELagrangeConstraint) :
    Bool × FEPolarFluidSolver × List EquationRange :=
  match baseInit with
  | none => (false, S, [])
  | some neq =>
    let cnt := fem.nodes.foldl countEquations (0, 0, 0)
    let st := nlc.foldl addMultipliers (neq, [])
    let st := spc.foldl addMultipliers st
    (true, { S with m_neq := st.1, m_nveq := cnt.1, m_ngeq := cnt.2.1, m_nfeq := cnt.2.2 },
      st.2)

/-- The ranges as the specification describes them: going through the constraints in order,
every active one takes the range that starts at the current count, and the count grows by
the size of that range. -/
def consecutiveRanges (neq : Nat) : List FELagrangeConstraint → List EquationRange
  | [] => []
  | c :: cs =>
    if c.active then
      ⟨c, neq, c.InitEquations neq⟩ :: consecutiveRanges (neq + c.InitEquations neq) cs
    else consecutiveRanges neq cs

/-- The velocity equation numbers of the mesh, node by node and component by component. -/
def velocityIDs (fem : FEModel) : List Int :=
  fem.nodes.flatMap (fun n => [n.idW0, n.idW1, n.idW2])

/-- The angular velocity equation numbers of the mesh, node by node and component by
component. -/
def angularVelocityIDs (fem : FEModel) : List Int :=
  fem.nodes.flatMap (fun n => [n.idG0, n.idG1, n.idG2])

/-- The dilatation equation numbers of the mesh, node by node. -/
def dilatationIDs (fem : FEModel) : List Int :=
  fem.nodes.flatMap (fun n => [n.idEF])

/-- The entries an extraction method is specified to deliver for a list of equation numbers:
one entry for every number other than `-1`, read from `ui` at the decoded index. -/
def extracted (ui : List ℚ) (ids : List Int) : List ℚ :=
  (ids.filter (fun id => decide (id ≠ -1))).map (fun id => ui.getD (dataIndex id).toNat 0)

/-! ## Archives -/

/-- Modelled from the spec: an item of the archive a `Serialize` method writes or reads (the
archive classes `DumpStream` and `DumpFile` are not among the sources at hand): an `int`, a
`double`, a `vector<double>`, or the raw bytes of a `DOF` with its three `int` members. -/
inductive ArchiveItem where
  | int (i : Int)
  | double (x : ℚ)
  | vector (v : List ℚ)
  | dof (node bc neq : Int)

/-- Modelled from the spec: an archive, with its direction `IsSaving()` and its content.
Writing appends an item at the end, reading takes one from the front. -/
structure DumpStream where
  saving : Bool
  data : List ArchiveItem

/-- Modelled from the spec: the archive class `DumpFile` that `fem.h` uses, with the same
content as `DumpStream`. -/
abbrev DumpFile := DumpStream

/-- Modelled from the spec: writing one item, `ar << x` or `ar.write(...)`. -/
def DumpStream.put (ar : DumpStream) (x : ArchiveItem) : DumpStream :=
  { ar with data := ar.data ++ [x] }

/-- Modelled from the spec: reading an `int`, `ar >> n`; `none` when the next item is not an
`int`. -/
def DumpStream.getInt (ar : DumpStream) : Option (DumpStream × Int) :=
  match ar.data with
  | ArchiveItem.int i :: rest => some ({ ar with data := rest }, i)
  | _ => none

/-- Modelled from the spec: reading a `double`; `none` when the next item is not a
`double`. -/
def DumpStream.getDouble (ar : DumpStream) : Option (DumpStream × ℚ) :=
  match ar.data with
  | ArchiveItem.double x :: rest => some ({ ar with data := rest }, x)
  | _ => none

/-- Modelled from the spec: reading a `vector<double>`; `none` when the next item is not
one. -/
def DumpStream.getVector (ar : DumpStream) : Option (DumpStream × List ℚ) :=
  match ar.data with
  | ArchiveItem.vector v :: rest => some ({ ar with data := rest }, v)
  | _ => none

/-- Modelled from the spec: `ar & n` for an `int`: written when saving, read otherwise. -/
def serializeInt (ar : DumpStream) (n : Int) : Option (DumpStream × Int) :=
  if ar.saving then some (ar.put (ArchiveItem.int n), n) else ar.getInt

/-- Modelled from the spec: `ar & x` for a `double`. -/
def serializeDouble (ar : DumpStream) (x : ℚ) : Option (DumpStream × ℚ) :=
  if ar.saving then some (ar.put (ArchiveItem.double x), x) else ar.getDouble

/-- Modelled from the spec: `ar & v` for a `vector<double>`. -/
def serializeVector (ar : DumpStream) (v : List ℚ) : Option (DumpStream × List ℚ) :=
  if ar.saving then some (ar.put (ArchiveItem.vector v), v) else ar.getVector

/-- The statements `ar & m_nveq; ar & m_ngeq; ar & m_nfeq;` of `Serialize`. -/
def serializeCounts (ar : DumpStream) (S : FEPolarFluidSolver) :
    Option (DumpStream × FEPolarFluidSolver) :=
  (serializeInt ar S.m_nveq).bind fun r1 =>
  (serializeInt r1.1 S.m_ngeq).bind fun r2 =>
  (serializeInt r2.1 S.m_nfeq).bind fun r3 =>
  some (r3.1, { S with m_nveq := r1.2.toNat, m_ngeq := r2.2.toNat, m_nfeq := r3.2.toNat })

/-- The statements `ar & m_rhoi & m_alphaf & m_alpham; ar & m_beta & m_gamma; ar & m_pred;`
of `Serialize`. -/
def serializeParameters (ar : DumpStream) (S : FEPolarFluidSolver) :
    Option (DumpStream × FEPolarFluidSolver) :=
  (serializeDouble ar S.m_rhoi).bind fun r1 =>
  (serializeDouble r1.1 S.m_alphaf).bind fun r2 =>
  (serializeDouble r2.1 S.m_alpham).bind fun r3 =>
  (serializeDouble r3.1 S.m_beta).bind fun r4 =>
  (serializeDouble r4.1 S.m_gamma).bind fun r5 =>
  (serializeInt r5.1 S.m_pred).bind fun r6 =>
  some (r6.1,
    { S with
      m_rhoi := r1.2, m_alphaf := r2.2, m_alpham := r3.2, m_beta := r4.2, m_gamma := r5.2,
      m_pred := r6.2 })

/-- The statement `ar & m_Fn & m_Ui & m_Ut & m_Fr;` of `Serialize`. -/
def serializeSolution (ar : DumpStream) (S : FEPolarFluidSolver) :
    Option (DumpStream × FEPolarFluidSolver) :=
  (serializeVector ar S.m_Fn).bind fun r1 =>
  (serializeVector r1.1 S.m_Ui).bind fun r2 =>
  (serializeVector r2.1 S.m_Ut).bind fun r3 =>
  (serializeVector r3.1 S.m_Fr).bind fun r4 =>
  some (r4.1, { S with m_Fn := r1.2, m_Ui := r2.2, m_Ut := r3.2, m_Fr := r4.2 })

/-- The statements `ar & m_vi & m_Vi; ar & m_gi & m_Gi; ar & m_fi & m_Fi;` of `Serialize`. -/
def serializeIncrements (ar : DumpStream) (S : FEPolarFluidSolver) :
    Option (DumpStream × FEPolarFluidSolver) :=
  (serializeVector ar S.m_vi).bind fun r1 =>
  (serializeVector r1.1 S.m_Vi).bind fun r2 =>
  (serializeVector r2.1 S.m_gi).bind fun r3 =>
  (serializeVector r3.1 S.m_Gi).bind fun r4 =>
  (serializeVector r4.1 S.m_fi).bind fun r5 =>
  (serializeVector r5.1 S.m_Fi).bind fun r6 =>
  some (r6.1,
    { S with
      m_vi := r1.2, m_Vi := r2.2, m_gi := r3.2, m_Gi := r4.2, m_fi := r5.2, m_Fi := r6.2 })

/-- The method `FEPolarFluidSolver::Serialize(ar)`. `base` stands for the base class call
`FENewtonSolver::Serialize(ar)`. The result is the archive and the solver afterwards, or
`none` when a read fails. -/
def FEPolarFluidSolver.Serialize
    (base : DumpStream → FEPolarFluidSolver → Option (DumpStream × FEPolarFluidSolver))
    (S : FEPolarFluidSolver) (ar : DumpStream) : Option (DumpStream × FEPolarFluidSolver) :=
  (base ar S).bind fun r0 =>
  (serializeCounts r0.1 r0.2).bind fun r1 =>
  (serializeParameters r1.1 r1.2).bind fun r2 =>
  (serializeSolution r2.1 r2.2).bind fun r3 =>
  serializeIncrements r3.1 r3.2

/-! ## Linear constraints -/

/-- The class `DOF` of `fem.h`: a node, a degree of freedom and an equation number; the
default constructor sets the three of them to `-1`. -/
structure DOF where
  node : Int := -1
  bc : Int := -1
  neq : Int := -1
  deriving DecidableEq, Repr

/-- The class `FELinearConstraint::SlaveDOF`: a `DOF` with a coefficient `val`, which the
default constructor sets to `0`. -/
structure SlaveDOF extends DOF where
  val : ℚ := 0
  deriving DecidableEq, Repr

/-- The class `FELinearConstraint`: the master degree of freedom and the list of slave
degrees of freedom. -/
structure FELinearConstraint where
  master : DOF := {}
  slave : List SlaveDOF := []
  deriving DecidableEq, Repr

/-- The copy constructor `FELinearConstraint(const FELinearConstraint& LC)`:
`master = LC.master; n = (int) LC.slave.size(); it = LC.slave.begin();
for (i = 0; i < n; ++i) slave.push_back(*it);`. The iterator is the position `it` in
`LC.slave`; the loop header advances `i` only. -/
def FELinearConstraint.copy (LC : FELinearConstraint) : FELinearConstraint :=
  let n := wrapInt32 LC.slave.length
  let it := 0
  { master := LC.master,
    slave := (List.range n.toNat).foldl
      (fun (slave : List SlaveDOF) (_ : Nat) => slave ++ [LC.slave.getD it {}]) [] }

/-- The method `FindDOF(n)`: the coefficient of the first slave entry with equation number
`n`, or `0`; the loop header is `for (i = 0; i < N; ++i, ++it)`. -/
def FELinearConstraint.FindDOF (LC : FELinearConstraint) (n : Int) : ℚ :=
  match (LC.slave.take (wrapInt32 LC.slave.length).toNat).find? (fun it => it.neq = n) with
  | some it => it.val
  | none => 0

/-- Modelled from the spec: reading the raw bytes of a `DOF`, `ar.read(&master, sizeof(DOF),
1)`; `none` when the next item is not a `DOF`. -/
def DumpStream.getDOF (ar : DumpStream) : Option (DumpStream × DOF) :=
  match ar.data with
  | ArchiveItem.dof node bc neq :: rest => some ({ ar with data := rest }, ⟨node, bc, neq⟩)
  | _ => none

/-- The body of the saving loop of `FELinearConstraint::Serialize`:
`ar << it->val << it->node << it->bc << it->neq`. -/
def saveSlave (ar : DumpFile) (it : SlaveDOF) : DumpFile :=
  (((ar.put (ArchiveItem.double it.val)).put (ArchiveItem.int it.node)).put
    (ArchiveItem.int it.bc)).put (ArchiveItem.int it.neq)

/-- The body of the loading loop of `FELinearConstraint::Serialize`:
`SlaveDOF dof; ar >> dof.val >> dof.node >> dof.bc >> dof.neq; slave.push_back(dof);`. -/
def loadSlave (st : DumpFile × List SlaveDOF) (_ : Nat) : Option (DumpFile × List SlaveDOF) :=
  st.1.getDouble.bind fun r1 =>
  r1.1.getInt.bind fun r2 =>
  r2.1.getInt.bind fun r3 =>
  r3.1.getInt.bind fun r4 =>
  some (r4.1, st.2 ++ [{ node := r2.2, bc := r3.2, neq := r4.2, val := r1.2 }])

/-- The method `FELinearConstraint::Serialize(ar)`. Saving writes the master, the number of
slave entries and the entries, the loop `for (i = 0; i < n; ++i, ++it)` going through the
list; loading clears the slave list, reads the master and the number `n`, and appends `n`
entries. The result is the archive and the constraint afterwards, or `none` when a read
fails. -/
def FELinearConstraint.Serialize (LC : FELinearConstraint) (ar : DumpFile) :
    Option (DumpFile × FELinearConstraint) :=
  if ar.saving then
    let ar := ar.put (ArchiveItem.dof LC.master.node LC.master.bc LC.master.neq)
    let n := wrapInt32 LC.slave.length
    let ar := ar.put (ArchiveItem.int n)
    some ((LC.slave.take n.toNat).foldl saveSlave ar, LC)
  else
    let slave : List SlaveDOF := []
    ar.getDOF.bind fun r1 =>
    r1.1.getInt.bind fun r2 =>
    ((List.range r2.2.toNat).foldlM loadSlave (r2.1, slave)).bind fun r3 =>
    some (r3.1, { master := r1.2, slave := r3.2 })

/-! ## Variables of a math object -/

/-- Modelled from the spec: the class `MVariable` (declared in a header that is not among
the sources at hand), reduced to its name and its index. -/
structure MVariable where
  m_name : String
  m_index : Int
  deriving DecidableEq, Repr

/-- The objects `MVariable*` pointers point to: a pointer is a position in this list. -/
abbrev VariableHeap := List MVariable

/-- The class `MathObject`, reduced to its variable list `m_Var` of pointers. -/
structure MathObject where
  m_Var : List Nat
  deriving DecidableEq, Repr

/-- The object a pointer points to. -/
def deref (heap : VariableHeap) (p : Nat) : MVariable := heap.getD p ⟨"", -1⟩

/-- The call `pv->setIndex(n)`. -/
def setIndex (heap : VariableHeap) (pv : Nat) (n : Int) : VariableHeap :=
  heap.set pv { deref heap pv with m_index := n }

/-- A loop `for (it = first; it != m_Var.end(); ++it) if (p(*it)) return *it;` over the
variable list, `first` being a position in it: the pointer returned, if any. -/
def searchFrom (mo : MathObject) (first : Nat) (p : Nat → Bool) : Option Nat :=
  (mo.m_Var.drop first).find? p

/-- The method `MathObject::AddVariable(const std::string& var)`. The search loop is
`for (it = m_Var.end(); it != m_Var.end(); ++it)`: it starts at the position `m_Var.end()`,
the assignment of `m_Var.begin()` before it being overwritten. The result is the pointer
returned, the heap and the object afterwards. -/
def MathObject.AddVariable (heap : VariableHeap) (mo : MathObject) (var : String) :
    Nat × VariableHeap × MathObject :=
  let found :=
    if mo.m_Var.isEmpty = false then
      searchFrom mo mo.m_Var.length (fun it => decide ((deref heap it).m_name = var))
    else none
  match found with
  | some it => (it, heap, mo)
  | none =>
    let pv := heap.length
    let heap := heap ++ [⟨var, -1⟩]
    let heap := setIndex heap pv (wrapInt32 mo.m_Var.length)
    (pv, heap, { mo with m_Var := mo.m_Var ++ [pv] })

/-- The method `MathObject::AddVariable(MVariable* pv)`, with the same search loop header
and the test `*it == pv`. -/
def MathObject.AddVariablePtr (heap : VariableHeap) (mo : MathObject) (pv : Nat) :
    VariableHeap × MathObject :=
  let found :=
    if mo.m_Var.isEmpty = false then
      searchFrom mo mo.m_Var.length (fun it => decide (it = pv))
    else none
  match found with
  | some _ => (heap, mo)
  | none => (setIndex heap pv (wrapInt32 mo.m_Var.length), { mo with m_Var := mo.m_Var ++ [pv] })

/-- The method `MathObject::FindVariable(s)`, whose loop starts at `m_Var.begin()`; `none`
is the null pointer. -/
def MathObject.FindVariable (heap : VariableHeap) (mo : MathObject) (s : String) :
    Option Nat :=
  searchFrom mo 0 (fun it => decide ((deref heap it).m_name = s))

/-- The names of the variables of a math object, in list order. -/
def MathObject.names (heap : VariableHeap) (mo : MathObject) : List String :=
  mo.m_Var.map (fun p => (deref heap p).m_name)

/-- The indices of the variables of a math object, in list order. -/
def MathObject.indices (heap : VariableHeap) (mo : MathObject) : List Int :=
  mo.m_Var.map (fun p => (deref heap p).m_index)

/-! ## Sample data -/

/-- A model without nodes, contact interfaces or constraints. -/
def emptyModel : FEModel :=
  { nodes := [], surfacePairConstraints := [], nonlinearConstraints := 0,
    bcPrepStep := fun u => u }

/-- A solver with the constructor defaults for one equation, a line search with
`LStol = 0.9`, `LSmin = 0.01`, and vectors of matching size. -/
def sampleSolver (bdivreform : Bool) : FEPolarFluidSolver :=
  { FEPolarFluidSolver.construct 1 0.9 0.01 bdivreform with
    m_Fn := [0], m_Fr := [0], m_Ui := [0], m_Ut := [7], m_ui := [0], m_R0 := [0],
    m_R1 := [0] }

/-- Pass data with a unit step, increment `u`, initial residual `r0` and residual `r1`. -/
def samplePass (u r0 r1 : ℚ) : QNData :=
  { s := 1, ui := [u], R0 := [r0], R1 := [r1], nanR1 := false, qnUpdate := true,
    augment := true }

/-- A model with one node whose first velocity component is free (equation `0`) and whose
other degrees of freedom are fixed, and one nonlinear constraint, whose multiplier equation
`InitEquations` appends as equation `1`. -/
def constrainedModel : FEModel :=
  { nodes := [{ idW0 := 0, idW1 := -1, idW2 := -1, idG0 := -1, idG1 := -1, idG2 := -1,
                idEF := -1 }],
    surfacePairConstraints := [], nonlinearConstraints := 1,
    bcPrepStep := fun u => u }

/-- A solver with the constructor defaults for the two equations of `constrainedModel`. -/
def constrainedSolver : FEPolarFluidSolver :=
  { FEPolarFluidSolver.construct 2 0.9 0.01 true with
    m_nveq := 1,
    m_Fn := [0, 0], m_Fr := [0, 0], m_Ui := [0, 0], m_Ut := [7, 3], m_ui := [0, 0],
    m_vi := [0], m_Vi := [0], m_R0 := [0, 0], m_R1 := [0, 0] }

/-- Pass data for `constrainedSolver`: a first pass with a unit step along the increment
`[1, 1]` that brings the residual from `[1, 1]` down to `[1/1000, 1/1000]`, and a second pass
with a zero increment and no residual left; `DoAugmentations` reports convergence. -/
def constrainedPasses : List QNData :=
  [{ s := 1, ui := [1, 1], R0 := [1, 1], R1 := [1/1000, 1/1000], nanR1 := false,
     qnUpdate := true, augment := true },
   { s := 1, ui := [0, 0], R0 := [1/1000, 1/1000], R1 := [0, 0], nanR1 := false,
     qnUpdate := true, augment := true }]

/-- Services of a model without linear constraints and rigid bodies; the scatter of the
element matrix into `m_K` is left out. -/
def plainServices : AssembleServices :=
  { baseAssemble := fun _ L => L, matrixAssemble := fun _ K => K, linearConstraints := 0,
    lcAssembleStiffness := fun _ L => L, rigidStiffness := fun _ L => L }

/-- A 2x2 element matrix on one free equation (`0`) and one prescribed slot (`1`, sentinel
`-3`). -/
def sampleElement : FEElementMatrix :=
  { nodes := [0], rows := 2,
    val := fun i j => if i = 0 then (if j = 0 then 2 else 3) else (if j = 0 then 4 else 5),
    RowIndices := [0, -3], ColumnsIndices := [0, -3] }

/-- A linear system with two slots, the prescribed value `2` in slot `1`. -/
def sampleSystem : FESolidLinearSystem :=
  { m_K := fun _ _ => 0, m_F := [10, 0], m_u := [0, 2], m_nreq := 5, m_alpha := 1 }

/-- A model whose only contact interface is active and has Lagrangian augmentation switched
on (`m_laugon = 1`); no nonlinear constraints. -/
def augmentedContactModel : FEModel :=
  { nodes := [], surfacePairConstraints := [{ active := true, m_laugon := 1 }],
    nonlinearConstraints := 0, bcPrepStep := fun u => u }

/-- A model whose only contact interface is active and is a pure penalty interface
(`m_laugon = 0`); no nonlinear constraints. -/
def penaltyContactModel : FEModel :=
  { nodes := [], surfacePairConstraints := [{ active := true, m_laugon := 0 }],
    nonlinearConstraints := 0, bcPrepStep := fun u => u }

/-- The square root on the squares `0`, `1`, `4` and `25`, which are the only arguments that
occur in the sample data. -/
def sampleSqrt (x : ℚ) : ℚ := if x = 1 then 1 else if x = 4 then 2 else if x = 25 then 5 else 0

/-- A surface with a single node, without elements and projection data, carrying the
multiplier `Lm` and the gap `gap`. -/
def oneNodeSurface (Lm gap : vec3d) : FEPeriodicSurface :=
  { m_node := [0], m_el := [], m_pme := [none], m_rs := [(0, 0)], m_gap := [gap],
    m_Lm := [Lm], m_Tn := [vec3d.zero], m_Fr := [vec3d.zero] }

/-- A surface without nodes. -/
def emptySurface : FEPeriodicSurface :=
  { m_node := [], m_el := [], m_pme := [], m_rs := [], m_gap := [], m_Lm := [], m_Tn := [],
    m_Fr := [] }

/-- A periodic boundary with augmentation on, penalty `1` and tolerance `1/5`, whose slave
surface has one node with multiplier `(1,0,0)` and gap `(1,0,0)` and whose master surface is
empty. -/
def sampleBoundary : FEPeriodicBoundary2O :=
  { FEPeriodicBoundary2O.construct true (oneNodeSurface ⟨1, 0, 0⟩ ⟨1, 0, 0⟩) emptySurface with
    m_eps := 1, m_atol := 1/5 }

/-- A periodic boundary with augmentation on and the constructor defaults (tolerance `0`,
penalty `0`), with the same surfaces as `sampleBoundary`. -/
def defaultBoundary : FEPeriodicBoundary2O :=
  FEPeriodicBoundary2O.construct true (oneNodeSurface ⟨1, 0, 0⟩ ⟨1, 0, 0⟩) emptySurface

/-- The reading of the spec for the quantity `Augment` compares with the tolerance: the norm
of the multiplier change `L_new - L_old = eps * gap`, collected over all nodes of both
surfaces, relative to the norm of the multipliers before the augmentation. -/
def specRelativeMultiplierChange (sqrt : ℚ → ℚ) (pb : FEPeriodicBoundary2O) : ℚ :=
  let change (s : FEPeriodicSurface) : ℚ :=
    ((List.range s.Nodes).map (fun i =>
      let lold := s.m_Lm.getD i vec3d.zero
      let lnew := lold.add ((s.m_gap.getD i vec3d.zero).scale pb.m_eps)
      (lnew.sub lold).dot (lnew.sub lold))).sum
  let old (s : FEPeriodicSurface) : ℚ :=
    ((List.range s.Nodes).map (fun i =>
      (s.m_Lm.getD i vec3d.zero).dot (s.m_Lm.getD i vec3d.zero))).sum
  sqrt (change pb.m_ss + change pb.m_ms) / sqrt (old pb.m_ss + old pb.m_ms)

/-- The norm of the multipliers before the augmentation, collected over all nodes of both
surfaces: `‖L_old‖`. -/
def oldMultiplierNorm (sqrt : ℚ → ℚ) (pb : FEPeriodicBoundary2O) : ℚ :=
  let sq (s : FEPeriodicSurface) : ℚ :=
    ((List.range s.Nodes).map (fun i =>
      (s.m_Lm.getD i vec3d.zero).dot (s.m_Lm.getD i vec3d.zero))).sum
  sqrt (sq pb.m_ss + sq pb.m_ms)

/-- The norm of the updated multipliers `L_new = L_old + eps * gap`, collected over all nodes
of both surfaces: `‖L_new‖`. -/
def newMultiplierNorm (sqrt : ℚ → ℚ) (pb : FEPeriodicBoundary2O) : ℚ :=
  let sq (s : FEPeriodicSurface) : ℚ :=
    ((List.range s.Nodes).map (fun i =>
      ((s.m_Lm.getD i vec3d.zero).add ((s.m_gap.getD i vec3d.zero).scale pb.m_eps)).dot
        ((s.m_Lm.getD i vec3d.zero).add ((s.m_gap.getD i vec3d.zero).scale pb.m_eps)))).sum
  sqrt (sq pb.m_ss + sq pb.m_ms)

/-- A mesh with two unit triangles on top of each other: nodes `0, 1, 2` at height `1`
(slave side) and nodes `3, 4, 5` at height `0` (master side); the current positions of the
slave nodes are shifted by `(1/2, 0, 0)`. -/
def sampleMesh : List FEMeshNode :=
  [⟨⟨0, 0, 1⟩, ⟨1/2, 0, 1⟩, 0, 1, 2⟩, ⟨⟨1, 0, 1⟩, ⟨3/2, 0, 1⟩, 3, 4, 5⟩,
   ⟨⟨0, 1, 1⟩, ⟨1/2, 1, 1⟩, 6, 7, 8⟩, ⟨⟨0, 0, 0⟩, ⟨0, 0, 0⟩, 9, 10, 11⟩,
   ⟨⟨1, 0, 0⟩, ⟨1, 0, 0⟩, 12, 13, 14⟩, ⟨⟨0, 1, 0⟩, ⟨0, 1, 0⟩, 15, 16, 17⟩]

/-- A three-node triangle on the mesh nodes `a, b, c`, with nodal integration (weights
`1/6`) and the linear shape functions. -/
def triangle (a b c : Nat) : FESurfaceElement :=
  { m_node := [a, b, c], m_lnode := [0, 1, 2], GaussWeights := [1/6, 1/6, 1/6],
    Gr := [[-1, 1, 0], [-1, 1, 0], [-1, 1, 0]], Gs := [[-1, 0, 1], [-1, 0, 1], [-1, 0, 1]],
    H := fun r s => [1 - r - s, r, s] }

/-- The slave surface of the sample: the triangle `0, 1, 2`, every node projected onto the
master triangle `3, 4, 5` at its own corner, with multipliers `(1, 0, 0)` and gaps
`(1/2, 0, 0)`. -/
def sampleSlave : FEPeriodicSurface :=
  { m_node := [0, 1, 2], m_el := [triangle 0 1 2],
    m_pme := [some (triangle 3 4 5), some (triangle 3 4 5), some (triangle 3 4 5)],
    m_rs := [(0, 0), (1, 0), (0, 1)],
    m_gap := [⟨1/2, 0, 0⟩, ⟨1/2, 0, 0⟩, ⟨1/2, 0, 0⟩],
    m_Lm := [⟨1, 0, 0⟩, ⟨1, 0, 0⟩, ⟨1, 0, 0⟩],
    m_Tn := [vec3d.zero, vec3d.zero, vec3d.zero],
    m_Fr := [vec3d.zero, vec3d.zero, vec3d.zero] }

/-- The master surface of the sample: the triangle `3, 4, 5`, without projection data of its
own. -/
def sampleMaster : FEPeriodicSurface :=
  { m_node := [3, 4, 5], m_el := [triangle 3 4 5], m_pme := [none, none, none],
    m_rs := [(0, 0), (0, 0), (0, 0)],
    m_gap := [vec3d.zero, vec3d.zero, vec3d.zero],
    m_Lm := [vec3d.zero, vec3d.zero, vec3d.zero],
    m_Tn := [vec3d.zero, vec3d.zero, vec3d.zero],
    m_Fr := [vec3d.zero, vec3d.zero, vec3d.zero] }

/-- The periodic boundary of the sample: single pass, penalty `2`, identity macroscopic
deformation gradient and no second-order term. -/
def contactBoundary : FEPeriodicBoundary2O :=
  { FEPeriodicBoundary2O.construct true sampleSlave sampleMaster with
    m_eps := 2, m_Fmacro := ⟨⟨1, 0, 0⟩, ⟨0, 1, 0⟩, ⟨0, 0, 1⟩⟩ }

/-- A node with its current position moved by `d`. -/
def moveNode (node : FEMeshNode) (d : vec3d) : FEMeshNode :=
  { node with m_rt := node.m_rt.add d }

/-- The first `n` master nodes with their current positions moved by the entries of `dm`. -/
def moveNodes (n : Nat) (masters : List FEMeshNode) (dm : List vec3d) : List FEMeshNode :=
  (List.range n).map
    (fun j => moveNode (masters.getD j FEMeshNode.none) (dm.getD j vec3d.zero))

/-- The position change of the slave node and of the `n` master nodes as a vector of
`3(n+1)` numbers, in the order of the element force vector. -/
def positionChange (n : Nat) (ds : vec3d) (dm : List vec3d) : List ℚ :=
  [ds.x, ds.y, ds.z] ++
    (List.range n).flatMap
      (fun j => [(dm.getD j vec3d.zero).x, (dm.getD j vec3d.zero).y, (dm.getD j vec3d.zero).z])

/-- The element force of a slave node as a function of the nodes involved: the gap is the
one `Update` stores for these nodes, the traction and the force vector are those of
`ContactForces`. -/
def elementForceAt (pb : FEPeriodicBoundary2O) (detJ w : ℚ) (Lm : vec3d)
    (mel : FESurfaceElement) (r s : ℚ) (slave : FEMeshNode) (masters : List FEMeshNode) :
    List ℚ :=
  elementForce detJ w (Lm.add ((pointGap pb slave masters mel r s).scale pb.m_eps))
    (mel.H r s) mel.Nodes

/-- The sample slave surface with the master element of its second node missing (a null
`m_pme` entry). -/
def brokenSlave : FEPeriodicSurface :=
  { sampleSlave with m_pme := [some (triangle 3 4 5), none, some (triangle 3 4 5)] }

/-- The sample boundary on the slave surface with the missing master element. -/
def brokenBoundary : FEPeriodicBoundary2O := { contactBoundary with m_ss := brokenSlave }

/-- A projection search that finds the master triangle at `(0, 0)` for points with
`x = 0` and nothing (a null pointer) for all other points. -/
def partialProject3 (r0 : vec3d) : Option (FESurfaceElement × ℚ × ℚ) :=
  if r0.x = 0 then some (triangle 3 4 5, 0, 0) else none

/-- The sample solver with the admissible setting `rhoi = -1`. -/
def backwardEulerSolver : FEPolarFluidSolver := { sampleSolver true with m_rhoi := -1 }

/-- The first pass of `constrainedPasses`. -/
def constrainedFirstPass : QNData := constrainedPasses.getD 0 (samplePass 0 0 0)

/-- A model with one node that has a free and a prescribed velocity component, a free angular
velocity component and a prescribed dilatation; the other components are fixed. The
equations are numbered `0` to `3`. -/
def mixedModel : FEModel :=
  { nodes := [{ idW0 := 0, idW1 := encodePrescribed 1, idW2 := -1, idG0 := 2, idG1 := -1,
                idG2 := -1, idEF := encodePrescribed 3 }],
    surfacePairConstraints := [], nonlinearConstraints := 0,
    bcPrepStep := fun u => u }

/-- A base class `Serialize` that stores nothing. -/
def plainSerialize (ar : DumpStream) (S : FEPolarFluidSolver) :
    Option (DumpStream × FEPolarFluidSolver) := some (ar, S)

/-- A linear constraint with master `(0, 0, 0)` and two different slave entries. -/
def sampleConstraint : FELinearConstraint :=
  { master := ⟨0, 0, 0⟩,
    slave := [{ node := 1, bc := 0, neq := 3, val := 2 },
              { node := 2, bc := 1, neq := 7, val := 5 }] }

/-- A math object without variables. -/
def emptyMathObject : MathObject := { m_Var := [] }

/-- The outcome of two calls `AddVariable("x")` on a math object without variables. -/
def addedTwice : Nat × VariableHeap × MathObject :=
  MathObject.AddVariable (MathObject.AddVariable [] emptyMathObject "x").2.1
    (MathObject.AddVariable [] emptyMathObject "x").2.2 "x"

/-- The outcome of two calls of the pointer overload of `AddVariable` with the same
variable `y` on a math object without variables. -/
def addedPointerTwice : VariableHeap × MathObject :=
  MathObject.AddVariablePtr (MathObject.AddVariablePtr [⟨"y", -1⟩] emptyMathObject 0).1
    (MathObject.AddVariablePtr [⟨"y", -1⟩] emptyMathObject 0).2 0

/-! ## Properties of the sentinel encoding -/

/-- For an equation number or sentinel that an `int` table can hold next to its slot count
(`-2^31 < id < 2^31 - 1`), the 32-bit evaluation of `-id - 2` does not overflow: it is the
exact value. -/
theorem decodePrescribed32_eq (id : Int) (hlo : -2147483648 < id) (hhi : id < 2147483647) :
    decodePrescribed32 id = decodePrescribed id := by
  unfold decodePrescribed32 wrapInt32 decodePrescribed
  omega

/-- C6: the decoding `-id - 2` inverts the sentinel `-(k+2)` for every `k ≥ 0`; the decoded
value is non-negative exactly for `id ≤ -2`; hence a fixed (`-1`) or free (`≥ 0`) degree of
freedom is not treated as prescribed by the reaction-force recovery of `Residual`, by the
index selection of `GetVelocityData` (which skips `-1` and takes a free index as it is, while
it decodes every sentinel), or by the column guard of `Assemble`. -/
theorem prescribed_encoding_inverted :
    (∀ k : Int, 0 ≤ k → decodePrescribed (encodePrescribed k) = k) ∧
    (∀ id : Int, 0 ≤ decodePrescribed id ↔ id ≤ -2) ∧
    (∀ id : Int, -1 ≤ id → recoversReaction id = false) ∧
    (∀ (Fr : List ℚ) (id : Int), -1 ≤ id → reactionLoad Fr id = 0) ∧
    (∀ id : Int, -1 ≤ id → dataIndex id = id) ∧
    (∀ id : Int, id ≤ -2 → dataIndex id = decodePrescribed id) ∧
    (∀ (ui : List ℚ) (st : List ℚ × Nat), gatherDof ui st (-1) = st) ∧
    (∀ nreq id : Int, -1 ≤ id → isPrescribedColumn nreq id = false) := by
  refine ⟨?_, ?_, ?_, ?_, ?_, ?_, ?_, ?_⟩
  · intro k _
    simp only [decodePrescribed, encodePrescribed]
    ring
  · intro id
    simp only [decodePrescribed]
    constructor <;> intro h <;> linarith
  · intro id h
    simp only [recoversReaction, decodePrescribed, decide_eq_false_iff_not, not_le]
    linarith
  · intro Fr id h
    have hr : recoversReaction id = false := by
      simp only [recoversReaction, decodePrescribed, decide_eq_false_iff_not, not_le]
      linarith
    simp [reactionLoad, hr]
  · intro id h
    have : ¬ id < -1 := by linarith
    simp [dataIndex, this]
  · intro id h
    have : id < -1 := by linarith
    simp [dataIndex, this]
  · intro ui st
    simp [gatherDof]
  · intro nreq id h
    simp only [isPrescribedColumn, decodePrescribed, decide_eq_false_iff_not, not_and, not_lt]
    intro h0
    exfalso
    linarith

/-- Witness for C6 at the slot `5` and the fixed sentinel `-1`. -/
theorem prescribed_encoding_inverted_witness :
    decodePrescribed (encodePrescribed 5) = 5 ∧ recoversReaction (-1) = false ∧
      dataIndex 3 = 3 ∧ isPrescribedColumn 10 0 = false :=
  ⟨prescribed_encoding_inverted.1 5 (by decide),
   prescribed_encoding_inverted.2.2.1 (-1) (by decide),
   prescribed_encoding_inverted.2.2.2.2.1 3 (by decide),
   prescribed_encoding_inverted.2.2.2.2.2.2.2 10 0 (by decide)⟩

/-! ## Properties of `Init` -/

/-- C7: when the initialisation of the base class succeeds, `Init` returns `true` exactly
when the five tolerances are non-negative and `rhoi` is `-1` or lies in `[0, 1]`. -/
theorem Init_true_iff (S : FEPolarFluidSolver) (gatherUt : List ℚ → List ℚ) :
    (S.Init true gatherUt).1 = true ↔
      (0 ≤ S.m_Vtol ∧ 0 ≤ S.m_Gtol ∧ 0 ≤ S.m_Ftol ∧ 0 ≤ S.m_Etol ∧ 0 ≤ S.m_Rtol) ∧
      (S.m_rhoi = -1 ∨ (0 ≤ S.m_rhoi ∧ S.m_rhoi ≤ 1)) := by
  unfold FEPolarFluidSolver.Init
  by_cases hV : S.m_Vtol < 0
  · simp [hV]
  by_cases hG : S.m_Gtol < 0
  · simp [hV, hG]
  by_cases hF : S.m_Ftol < 0
  · simp [hV, hG, hF]
  by_cases hE : S.m_Etol < 0
  · simp [hV, hG, hF, hE]
  by_cases hR : S.m_Rtol < 0
  · simp [hV, hG, hF, hE, hR]
  by_cases h1 : S.m_rhoi = -1
  · simp [hV, hG, hF, hE, hR, h1, not_lt.mp hV, not_lt.mp hG, not_lt.mp hF, not_lt.mp hE,
      not_lt.mp hR]
  by_cases h2 : 0 ≤ S.m_rhoi ∧ S.m_rhoi ≤ 1
  · simp [hV, hG, hF, hE, hR, h1, h2, not_lt.mp hV, not_lt.mp hG, not_lt.mp hF,
      not_lt.mp hE, not_lt.mp hR]
  · simp [hV, hG, hF, hE, hR, h1, h2, not_lt.mp hV, not_lt.mp hG, not_lt.mp hF,
      not_lt.mp hE, not_lt.mp hR]

/-! ## The convergence checks of a pass -/

/-- The seven checks, each read as the condition under which it lets the pass through. -/
theorem checks_pass_iff (S : FEPolarFluidSolver) (N : RefNorms) (n : PassNorms) (s : ℚ) :
    (failsR S N n = false ↔ (S.m_Rtol > 0 → n.normR1 ≤ S.m_Rtol * N.normRi)) ∧
    (failsV S n = false ↔ (S.m_Vtol > 0 → n.normv ≤ (S.m_Vtol * S.m_Vtol) * n.normV)) ∧
    (failsG S n = false ↔ (S.m_Gtol > 0 → n.normg ≤ (S.m_Gtol * S.m_Gtol) * n.normG)) ∧
    (failsF S n = false ↔ (S.m_Ftol > 0 → n.normf ≤ (S.m_Ftol * S.m_Ftol) * n.normF)) ∧
    (failsE S N n = false ↔ (S.m_Etol > 0 → n.normE1 ≤ S.m_Etol * N.normEi)) ∧
    (failsLS S s = false ↔ (S.m_LStol ≤ 0 ∨ s ≥ S.m_LSmin)) ∧
    (failsDiv N n = false ↔ n.normE1 ≤ N.normEm) := by
  refine ⟨?_, ?_, ?_, ?_, ?_, ?_, ?_⟩
  · simp [failsR]
  · simp [failsV]
  · simp [failsG]
  · simp [failsF]
  · simp [failsE]
  · simp only [failsLS, decide_eq_false_iff_not, not_and, not_lt, gt_iff_lt, ge_iff_le]
    constructor
    · intro h
      by_cases h0 : 0 < S.m_LStol
      · exact Or.inr (h h0)
      · exact Or.inl (not_lt.mp h0)
    · rintro (h | h) h0
      · exact absurd h0 (not_lt.mpr h)
      · exact h
  · simp [failsDiv]

/-- The flag after the seven checks is the conjunction of the seven checks passing. -/
theorem convChecks_eq_true_iff (S : FEPolarFluidSolver) (N : RefNorms) (n : PassNorms)
    (s : ℚ) :
    convChecks S N n s = true ↔
      failsR S N n = false ∧ failsV S n = false ∧ failsG S n = false ∧
        failsF S n = false ∧ failsE S N n = false ∧ failsLS S s = false ∧
        failsDiv N n = false := by
  unfold convChecks
  cases failsR S N n <;> cases failsV S n <;> cases failsG S n <;> cases failsF S n <;>
    cases failsE S N n <;> cases failsLS S s <;> cases failsDiv N n <;> simp

/-- The flag after the seven checks, in terms of the bounds the checks compare. -/
theorem convChecks_true_iff_bounds (S : FEPolarFluidSolver) (N : RefNorms) (n : PassNorms)
    (s : ℚ) :
    convChecks S N n s = true ↔
      ((S.m_Rtol > 0 → n.normR1 ≤ S.m_Rtol * N.normRi) ∧
        (S.m_Vtol > 0 → n.normv ≤ (S.m_Vtol * S.m_Vtol) * n.normV) ∧
        (S.m_Gtol > 0 → n.normg ≤ (S.m_Gtol * S.m_Gtol) * n.normG) ∧
        (S.m_Ftol > 0 → n.normf ≤ (S.m_Ftol * S.m_Ftol) * n.normF) ∧
        (S.m_Etol > 0 → n.normE1 ≤ S.m_Etol * N.normEi)) ∧
      (S.m_LStol ≤ 0 ∨ s ≥ S.m_LSmin) ∧ n.normE1 ≤ N.normEm := by
  obtain ⟨hR, hV, hG, hF, hE, hLS, hDiv⟩ := checks_pass_iff S N n s
  rw [convChecks_eq_true_iff, hR, hV, hG, hF, hE, hLS, hDiv]
  simp only [and_assoc]

/-- C1: in every pass of the loop of `Quasin`, the flag the seven checks compute (before the
minimum-residual override) is `true` exactly when the residual, velocity, angular velocity,
dilatation and energy checks of that pass all hold (each one vacuous when its tolerance is
not positive), the line search check holds (`LStol ≤ 0` or `s ≥ LSmin`) and the energy norm
does not exceed its running maximum (`normE1 ≤ normEm`). -/
theorem passChecks_iff (fem : FEModel) (S : FEPolarFluidSolver) (N : RefNorms) (q : QNData) :
    passChecks fem S N q = true ↔
      ((S.m_Rtol > 0 →
          (passNorms fem S q).normR1 ≤ S.m_Rtol * (passRefNorms fem S N q).normRi) ∧
        (S.m_Vtol > 0 →
          (passNorms fem S q).normv ≤ (S.m_Vtol * S.m_Vtol) * (passNorms fem S q).normV) ∧
        (S.m_Gtol > 0 →
          (passNorms fem S q).normg ≤ (S.m_Gtol * S.m_Gtol) * (passNorms fem S q).normG) ∧
        (S.m_Ftol > 0 →
          (passNorms fem S q).normf ≤ (S.m_Ftol * S.m_Ftol) * (passNorms fem S q).normF) ∧
        (S.m_Etol > 0 →
          (passNorms fem S q).normE1 ≤ S.m_Etol * (passRefNorms fem S N q).normEi)) ∧
      (S.m_LStol ≤ 0 ∨ q.s ≥ S.m_LSmin) ∧
      (passNorms fem S q).normE1 ≤ (passRefNorms fem S N q).normEm :=
  convChecks_true_iff_bounds (passSolver fem S q) (passRefNorms fem S N q)
    (passNorms fem S q) q.s

/-! ## The residual criterion -/

/-- C2 (as stated, refuted): in a first pass with the default `Rtol = 0.001`, initial
residual `R0 = [1]` and residual `R1 = [1/100]` the squared-tolerance bound is exceeded
(`normR1 = 1/10000 > Rtol² * normRi = 1/1000000`), yet the residual check does not fire and
the pass is accepted as converged. -/
theorem residual_criterion_not_squared :
    (sampleSolver true).m_Rtol > 0 ∧
    (passNorms emptyModel (sampleSolver true) (samplePass 0 1 (1/100))).normR1 >
      (sampleSolver true).m_Rtol ^ 2 *
        (passRefNorms emptyModel (sampleSolver true) RefNorms.initial
          (samplePass 0 1 (1/100))).normRi ∧
    failsR (passSolver emptyModel (sampleSolver true) (samplePass 0 1 (1/100)))
      (passRefNorms emptyModel (sampleSolver true) RefNorms.initial (samplePass 0 1 (1/100)))
      (passNorms emptyModel (sampleSolver true) (samplePass 0 1 (1/100))) = false ∧
    (QuasinPass emptyModel (sampleSolver true) RefNorms.initial
      (samplePass 0 1 (1/100))).exit = PassExit.done true := by
  decide!

/-- C2 (amended): in every pass with `Rtol > 0` the residual check fires exactly when
`normR1 > Rtol * normRi`, with `normR1 = R1·R1` and, in the first pass, `normRi = |R0·R0|`;
a firing residual check rejects the pass at the checks. The energy check is linear in its
tolerance as well, and the velocity, angular velocity and dilatation checks use the squared
tolerance. -/
theorem residual_criterion_linear (fem : FEModel) (S : FEPolarFluidSolver) (N : RefNorms)
    (q : QNData) (hR : S.m_Rtol > 0) :
    (failsR (passSolver fem S q) (passRefNorms fem S N q) (passNorms fem S q) = true ↔
      (passNorms fem S q).normR1 > S.m_Rtol * (passRefNorms fem S N q).normRi) ∧
    (passNorms fem S q).normR1 = dot q.R1 q.R1 ∧
    (S.m_niter = 0 → (passRefNorms fem S N q).normRi = |dot q.R0 q.R0|) ∧
    (failsR (passSolver fem S q) (passRefNorms fem S N q) (passNorms fem S q) = true →
      passChecks fem S N q = false) ∧
    (S.m_Etol > 0 →
      (failsE (passSolver fem S q) (passRefNorms fem S N q) (passNorms fem S q) = true ↔
        (passNorms fem S q).normE1 > S.m_Etol * (passRefNorms fem S N q).normEi)) ∧
    (S.m_Vtol > 0 →
      (failsV (passSolver fem S q) (passNorms fem S q) = true ↔
        (passNorms fem S q).normv > S.m_Vtol ^ 2 * (passNorms fem S q).normV)) ∧
    (S.m_Gtol > 0 →
      (failsG (passSolver fem S q) (passNorms fem S q) = true ↔
        (passNorms fem S q).normg > S.m_Gtol ^ 2 * (passNorms fem S q).normG)) ∧
    (S.m_Ftol > 0 →
      (failsF (passSolver fem S q) (passNorms fem S q) = true ↔
        (passNorms fem S q).normf > S.m_Ftol ^ 2 * (passNorms fem S q).normF)) := by
  refine ⟨?_, ?_, ?_, ?_, ?_, ?_, ?_, ?_⟩
  · simp [failsR, passSolver, accumulate, afterSolve, hR]
  · simp [passNorms, calcNorms, passSolver, accumulate, afterSolve]
  · intro h0
    simp [passRefNorms, setInitialNorms, afterSolve, h0]
  · intro h
    have hne : ¬ passChecks fem S N q = true := by
      intro hc
      have := (convChecks_eq_true_iff _ _ _ _).mp hc
      rw [h] at this
      exact Bool.noConfusion this.1
    simpa using hne
  · intro hE
    simp [failsE, passSolver, accumulate, afterSolve, hE]
  · intro hV
    simp [failsV, passSolver, accumulate, afterSolve, hV, pow_two]
  · intro hG
    simp [failsG, passSolver, accumulate, afterSolve, hG, pow_two]
  · intro hF
    simp [failsF, passSolver, accumulate, afterSolve, hF, pow_two]

/-- Witness for the amended C2 on the sample pass. -/
theorem residual_criterion_linear_witness :
    (sampleSolver true).m_Rtol > 0 ∧
    (passNorms emptyModel (sampleSolver true) (samplePass 0 1 (1/100))).normR1 =
      dot [1/100] [1/100] :=
  ⟨by decide!,
   (residual_criterion_linear emptyModel (sampleSolver true) RefNorms.initial
      (samplePass 0 1 (1/100)) (by decide!)).2.1⟩

/-! ## How a pass ends -/

/-- A pass whose residual norm is a NaN ends with `NANDetected`. -/
theorem QuasinPass_nan (fem : FEModel) (S : FEPolarFluidSolver) (N : RefNorms) (q : QNData)
    (h : q.nanR1 = true) :
    QuasinPass fem S N q =
      ⟨PassExit.nanDetected, passSolver fem S q, passRefNorms fem S N q, false⟩ := by
  simp [QuasinPass, h]

/-- A pass that converges (after the override) without a NaN: it ends with the value of
`DoAugmentations` if an augmentation is pending and with `true` otherwise, and it does not
call `QNForceReform`. -/
theorem QuasinPass_converged (fem : FEModel) (S : FEPolarFluidSolver) (N : RefNorms)
    (q : QNData) (hn : q.nanR1 = false) (hc : passConverged fem S N q = true) :
    (QuasinPass fem S N q).exit =
        PassExit.done (if S.m_baugment then q.augment else true) ∧
      (QuasinPass fem S N q).forceReform = false ∧
      (QuasinPass fem S N q).solver.m_niter = S.m_niter + 1 := by
  have hb : (passSolver fem S q).m_baugment = S.m_baugment := rfl
  have hi : (passSolver fem S q).m_niter = S.m_niter := rfl
  have hx : exceedsMaxResidual (passSolver fem S q) (passNorms fem S q) true = false := by
    simp [exceedsMaxResidual]
  cases hS : S.m_baugment <;> simp [QuasinPass, hn, hc, hx, hb, hi, hS]

/-- A pass that does not converge, without a NaN and without exceeding the maximal
residual: it runs the reformation branch and then `QNUpdate`. -/
theorem QuasinPass_not_converged (fem : FEModel) (S : FEPolarFluidSolver) (N : RefNorms)
    (q : QNData) (hn : q.nanR1 = false) (hc : passConverged fem S N q = false)
    (hx : exceedsMaxResidual (passSolver fem S q) (passNorms fem S q) false = false) :
    (QuasinPass fem S N q).exit =
        (if q.qnUpdate then PassExit.done false else PassExit.qnUpdateFailed) ∧
      (QuasinPass fem S N q).forceReform =
        (reformBranch (passSolver fem S q) (passRefNorms fem S N q) (passNorms fem S q) q.s).2 := by
  cases hu : q.qnUpdate <;> simp [QuasinPass, hn, hc, hx, hu]

/-- A pass ends with `MaxResidualError` exactly when there is no NaN and the guard of the
`throw` holds for the flag after the override. -/
theorem QuasinPass_maxResidual_iff (fem : FEModel) (S : FEPolarFluidSolver) (N : RefNorms)
    (q : QNData) :
    (QuasinPass fem S N q).exit = PassExit.maxResidualError ↔
      q.nanR1 = false ∧
        exceedsMaxResidual (passSolver fem S q) (passNorms fem S q)
          (passConverged fem S N q) = true := by
  cases hn : q.nanR1
  · cases hx : exceedsMaxResidual (passSolver fem S q) (passNorms fem S q)
      (passConverged fem S N q)
    · cases hc : passConverged fem S N q
      · rw [hc] at hx
        have := (QuasinPass_not_converged fem S N q hn hc hx).1
        rw [this]
        cases q.qnUpdate <;> simp
      · have := (QuasinPass_converged fem S N q hn hc).1
        rw [this]
        simp
    · simp [QuasinPass, hn, hx]
  · rw [QuasinPass_nan fem S N q hn]
    simp

/-- No pass changes the converged total solution `m_Ut`. -/
theorem QuasinPass_Ut (fem : FEModel) (S : FEPolarFluidSolver) (N : RefNorms) (q : QNData) :
    (QuasinPass fem S N q).solver.m_Ut = S.m_Ut := by
  unfold QuasinPass
  simp only []
  split_ifs <;> rfl

/-- The loop of `Quasin` does not change `m_Ut`. -/
theorem QuasinLoop_Ut (fem : FEModel) (qs : List QNData) :
    ∀ (S : FEPolarFluidSolver) (N : RefNorms), (QuasinLoop fem qs S N).2.m_Ut = S.m_Ut := by
  induction qs with
  | nil => intro S N; rfl
  | cons q qs ih =>
    intro S N
    have hU := QuasinPass_Ut fem S N q
    unfold QuasinLoop
    simp only []
    split
    · exact hU
    · exact hU
    · exact hU
    · exact hU
    · rw [ih]
      exact hU

/-! ## The divergent-step signal -/

/-- C9: a pass raises `MaxResidualError` exactly when it has not converged (after the
minimum-residual override), `Rmax > 0` and `normR1 ≥ Rmax` (a NaN norm, for which the pass
raises `NANDetected`, satisfies no comparison); with the constructor default `Rmax = 0` the
signal is never raised. -/
theorem maxResidualError_iff (fem : FEModel) (S : FEPolarFluidSolver) (N : RefNorms)
    (q : QNData) :
    ((QuasinPass fem S N q).exit = PassExit.maxResidualError ↔
      passConverged fem S N q = false ∧ S.m_Rmax > 0 ∧
        (q.nanR1 = false ∧ (passNorms fem S q).normR1 ≥ S.m_Rmax)) ∧
    (∀ (neq : Nat) (LStol LSmin : ℚ) (b : Bool),
      S.m_Rmax = (FEPolarFluidSolver.construct neq LStol LSmin b).m_Rmax →
        (QuasinPass fem S N q).exit ≠ PassExit.maxResidualError) := by
  have hiff := QuasinPass_maxResidual_iff fem S N q
  have hmax : (passSolver fem S q).m_Rmax = S.m_Rmax := rfl
  constructor
  · rw [hiff]
    simp only [exceedsMaxResidual, decide_eq_true_eq, hmax]
    tauto
  · intro neq LStol LSmin b h0 hex
    have h := (hiff.mp hex).2
    simp only [exceedsMaxResidual, decide_eq_true_eq, hmax] at h
    have hz : S.m_Rmax = 0 := by rw [h0]; rfl
    rw [hz] at h
    exact lt_irrefl 0 h.2.1

/-- Witness for C9: the sample solver carries the constructor default `Rmax = 0`. -/
theorem maxResidualError_iff_witness :
    (QuasinPass emptyModel (sampleSolver true) RefNorms.initial (samplePass 1 1 2)).exit ≠
      PassExit.maxResidualError :=
  (maxResidualError_iff emptyModel (sampleSolver true) RefNorms.initial (samplePass 1 1 2)).2
    1 0.9 0.01 true rfl

/-! ## Energy divergence -/

/-- C3 (as stated, refuted): with `m_bdivreform` off and a full line search step, a pass
whose energy norm exceeds its running maximum (`normE1 = 2 > normEm = 1`) is rejected without
any call of `QNForceReform`; and with a residual below `Rmin` a pass whose energy norm
exceeds its running maximum (`normE1 = 10 > normEm = 0`) is accepted as converged. -/
theorem energy_divergence_no_reform :
    ((passNorms emptyModel (sampleSolver false) (samplePass 1 1 2)).normE1 >
        (passRefNorms emptyModel (sampleSolver false) RefNorms.initial
          (samplePass 1 1 2)).normEm ∧
      (QuasinPass emptyModel (sampleSolver false) RefNorms.initial (samplePass 1 1 2)).exit =
        PassExit.done false ∧
      (QuasinPass emptyModel (sampleSolver false) RefNorms.initial
        (samplePass 1 1 2)).forceReform = false) ∧
    ((passNorms emptyModel (sampleSolver true)
          (samplePass 1000000000000 0 (1/100000000000))).normE1 >
        (passRefNorms emptyModel (sampleSolver true) RefNorms.initial
          (samplePass 1000000000000 0 (1/100000000000))).normEm ∧
      (QuasinPass emptyModel (sampleSolver true) RefNorms.initial
        (samplePass 1000000000000 0 (1/100000000000))).exit = PassExit.done true) := by
  decide!

/-- C3 (amended): in a pass whose energy norm exceeds its running maximum the flag computed
by the checks is `false` whatever the other criteria; unless the minimum-residual override
applies (`normR1 < Rmin`) the pass is not accepted as converged; and if moreover the pass
raises neither `NANDetected` nor `MaxResidualError`, `QNForceReform(true)` is called exactly
when `s < LSmin` or `m_bdivreform` is set. -/
theorem energy_divergence_pass (fem : FEModel) (S : FEPolarFluidSolver) (N : RefNorms)
    (q : QNData)
    (hE : (passNorms fem S q).normE1 > (passRefNorms fem S N q).normEm) :
    passChecks fem S N q = false ∧
    (¬ (passNorms fem S q).normR1 < S.m_Rmin →
      passConverged fem S N q = false ∧
      (QuasinPass fem S N q).exit ≠ PassExit.done true ∧
      (q.nanR1 = false → (QuasinPass fem S N q).exit ≠ PassExit.maxResidualError →
        ((QuasinPass fem S N q).forceReform = true ↔
          (q.s < S.m_LSmin ∨ S.m_bdivreform = true)))) := by
  have hdiv : failsDiv (passRefNorms fem S N q) (passNorms fem S q) = true := by
    simp [failsDiv, hE]
  have hchk : passChecks fem S N q = false := by
    have hne : ¬ passChecks fem S N q = true := by
      intro hc
      have := (convChecks_eq_true_iff _ _ _ _).mp hc
      rw [hdiv] at this
      exact Bool.noConfusion this.2.2.2.2.2.2
    simpa using hne
  refine ⟨hchk, ?_⟩
  intro hmin
  have hmin2 : ¬ (passNorms fem S q).normR1 < (passSolver fem S q).m_Rmin := hmin
  have hconv : passConverged fem S N q = false := by
    simp [passConverged, minResidualOverride, hchk, hmin2]
  refine ⟨hconv, ?_, ?_⟩
  · cases hn : q.nanR1
    · cases hx : exceedsMaxResidual (passSolver fem S q) (passNorms fem S q) false
      · rw [(QuasinPass_not_converged fem S N q hn hconv hx).1]
        cases q.qnUpdate <;> simp
      · have : (QuasinPass fem S N q).exit = PassExit.maxResidualError := by
          rw [QuasinPass_maxResidual_iff, hconv]
          exact ⟨hn, hx⟩
        rw [this]
        simp
    · rw [QuasinPass_nan fem S N q hn]
      simp
  · intro hn hnomax
    have hx : exceedsMaxResidual (passSolver fem S q) (passNorms fem S q) false = false := by
      cases hx : exceedsMaxResidual (passSolver fem S q) (passNorms fem S q) false
      · rfl
      · exfalso
        apply hnomax
        rw [QuasinPass_maxResidual_iff, hconv]
        exact ⟨hn, hx⟩
    rw [(QuasinPass_not_converged fem S N q hn hconv hx).2]
    have hLS : (passSolver fem S q).m_LSmin = S.m_LSmin := rfl
    have hbd : (passSolver fem S q).m_bdivreform = S.m_bdivreform := rfl
    unfold reformBranch
    rw [hLS, hbd]
    by_cases hs : q.s < S.m_LSmin
    · simp [hs]
    · cases hb : S.m_bdivreform <;> simp [hs, hE]

/-- Witness for the amended C3 on the sample pass with `normE1 = 2 > normEm = 1`. -/
theorem energy_divergence_pass_witness :
    (passNorms emptyModel (sampleSolver true) (samplePass 1 1 2)).normE1 >
        (passRefNorms emptyModel (sampleSolver true) RefNorms.initial
          (samplePass 1 1 2)).normEm ∧
      passChecks emptyModel (sampleSolver true) RefNorms.initial (samplePass 1 1 2) = false :=
  ⟨by decide!,
   (energy_divergence_pass emptyModel (sampleSolver true) RefNorms.initial (samplePass 1 1 2)
      (by decide!)).1⟩

/-! ## The minimum-residual override -/

/-- C10: a pass (in particular the first one) whose squared residual norm is a number below
`Rmin` is accepted after the override whatever the checks say, raises no `MaxResidualError`
and calls neither `QNForceReform` nor `QNUpdate`; and when `QNInit` succeeds and no
augmentation is pending, such a first pass makes `Quasin` return `true` after that single
pass, with the iteration counter advanced by one. -/
theorem small_residual_accepted (fem : FEModel) (S : FEPolarFluidSolver) (q : QNData)
    (hn : q.nanR1 = false) (hR : dot q.R1 q.R1 < S.m_Rmin) :
    (∀ N : RefNorms,
      passConverged fem S N q = true ∧
      (QuasinPass fem S N q).exit ≠ PassExit.maxResidualError ∧
      (QuasinPass fem S N q).exit ≠ PassExit.qnUpdateFailed ∧
      (QuasinPass fem S N q).forceReform = false) ∧
    ((PrepStep fem S).m_baugment = false →
      ∀ qs : List QNData,
        (Quasin fem S true (q :: qs)).1 = QuasinExit.returned true ∧
        (Quasin fem S true (q :: qs)).2.m_niter = S.m_niter + 1) := by
  have key : ∀ (T : FEPolarFluidSolver) (N : RefNorms), T.m_Rmin = S.m_Rmin →
      passConverged fem T N q = true := by
    intro T N hT
    have h1 : (passNorms fem T q).normR1 = dot q.R1 q.R1 := rfl
    have h2 : (passSolver fem T q).m_Rmin = T.m_Rmin := rfl
    cases hc : passChecks fem T N q <;>
      simp [passConverged, minResidualOverride, hc, h1, h2, hT, hR]
  constructor
  · intro N
    have hc := key S N rfl
    obtain ⟨he, hf, _⟩ := QuasinPass_converged fem S N q hn hc
    refine ⟨hc, ?_, ?_, hf⟩
    · rw [he]; simp
    · rw [he]; simp
  · intro haug qs
    have hc := key (PrepStep fem S) RefNorms.initial rfl
    obtain ⟨he, _, hi⟩ := QuasinPass_converged fem (PrepStep fem S) RefNorms.initial q hn hc
    rw [haug] at he
    have he2 : (QuasinPass fem (PrepStep fem S) RefNorms.initial q).exit =
        PassExit.done true := by simpa using he
    have hi2 : (QuasinPass fem (PrepStep fem S) RefNorms.initial q).solver.m_niter =
        S.m_niter + 1 := hi
    have hloop : QuasinLoop fem (q :: qs) (PrepStep fem S) RefNorms.initial =
        (QuasinExit.returned true,
          (QuasinPass fem (PrepStep fem S) RefNorms.initial q).solver) := by
      simp [QuasinLoop, he2]
    simp [Quasin, hloop, hi2]

/-- Witness for C10: a first pass with zero residual on the sample solver. -/
theorem small_residual_accepted_witness :
    (Quasin emptyModel (sampleSolver true) true [samplePass 1 1 0]).1 =
      QuasinExit.returned true :=
  ((small_residual_accepted emptyModel (sampleSolver true) (samplePass 1 1 0) rfl
      (by decide!)).2 (by decide!) []).1

/-! ## Failure leaves the converged solution alone -/

/-- C8: whenever `Quasin` ends without convergence (`NANDetected`, `MaxResidualError`, a
failed `QNInit`, a failed `QNUpdate`), the converged total solution `m_Ut` is the one on
entry; the four causes are exactly the ways `Quasin` ends other than by returning `true`. -/
theorem Quasin_failure_keeps_Ut (fem : FEModel) (S : FEPolarFluidSolver) (qnInit : Bool)
    (qs : List QNData) (h : (Quasin fem S qnInit qs).1 ≠ QuasinExit.returned true) :
    (Quasin fem S qnInit qs).2.m_Ut = S.m_Ut := by
  have hP : (PrepStep fem S).m_Ut = S.m_Ut := rfl
  have hL := QuasinLoop_Ut fem qs (PrepStep fem S) RefNorms.initial
  cases hq : qnInit
  · simp [Quasin, hP]
  · rw [hq] at h
    have hr : (QuasinLoop fem qs (PrepStep fem S) RefNorms.initial).1 ≠
        QuasinExit.returned true := by
      intro hr
      apply h
      simp [Quasin, hr]
    have hQ : Quasin fem S true qs =
        ((QuasinLoop fem qs (PrepStep fem S) RefNorms.initial).1,
          (QuasinLoop fem qs (PrepStep fem S) RefNorms.initial).2) := by
      unfold Quasin
      simp only [Bool.true_eq_false, if_false]
    rw [hQ, hL, hP]

/-- Witness for C8: a step whose only pass reports a NaN residual. -/
theorem Quasin_failure_keeps_Ut_witness :
    (Quasin emptyModel (sampleSolver true) true
        [{ samplePass 1 1 1 with nanR1 := true }]).1 = QuasinExit.nanDetected ∧
      (Quasin emptyModel (sampleSolver true) true
        [{ samplePass 1 1 1 with nanR1 := true }]).2.m_Ut = [7] :=
  ⟨by decide!,
   Quasin_failure_keeps_Ut emptyModel (sampleSolver true) true
      [{ samplePass 1 1 1 with nanR1 := true }] (by decide!)⟩

/-! ## The total solution at convergence -/

/-- Reading an entry of a vector after one entry has been overwritten. -/
theorem getD_set_eq (U : List ℚ) (i n : Nat) (v : ℚ) :
    (U.set i v).getD n 0 = if i = n ∧ i < U.length then v else U.getD n 0 := by
  induction U generalizing i n with
  | nil => simp
  | cons a U ih =>
    cases i with
    | zero =>
      cases n with
      | zero => simp
      | succ n => simp
    | succ i =>
      cases n with
      | zero => simp
      | succ n =>
        simp only [List.set_cons_succ, List.getD_cons_succ, List.length_cons,
          Nat.succ_lt_succ_iff, Nat.succ.injEq]
        exact ih i n

/-- One statement of `UpdateIncrements` keeps the size of the vector. -/
theorem addIncrement_length (ui U : List ℚ) (id : Int) :
    (addIncrement ui U id).length = U.length := by
  unfold addIncrement
  split_ifs <;> simp

/-- One statement of `UpdateIncrements` adds `ui[n]` to the entry `n` when the equation
number is `n` and leaves the entry alone otherwise. -/
theorem addIncrement_getD (ui U : List ℚ) (id : Int) (n : Nat) (hn : n < U.length) :
    (addIncrement ui U id).getD n 0 =
      U.getD n 0 + (if id = (n : Int) then ui.getD n 0 else 0) := by
  unfold addIncrement
  by_cases h0 : 0 ≤ id
  · rw [if_pos h0, getD_set_eq]
    by_cases hid : id = (n : Int)
    · subst hid
      simp [hn]
    · have : ¬ id.toNat = n := by
        intro h
        apply hid
        rw [← h]
        exact (Int.toNat_of_nonneg h0).symm
      simp [hid, this]
  · rw [if_neg h0]
    have : ¬ id = (n : Int) := by
      intro h
      apply h0
      rw [h]
      exact Int.natCast_nonneg n
    simp [this]

/-- A run of statements of `UpdateIncrements`: the entry `n` grows by `ui[n]` once for every
occurrence of `n` among the equation numbers visited. -/
theorem foldl_addIncrement (ui : List ℚ) (l : List Int) :
    ∀ U : List ℚ,
      (l.foldl (addIncrement ui) U).length = U.length ∧
      ∀ n : Nat, n < U.length →
        (l.foldl (addIncrement ui) U).getD n 0 =
          U.getD n 0 + (l.count (n : Int) : ℚ) * ui.getD n 0 := by
  induction l with
  | nil => intro U; simp
  | cons id l ih =>
    intro U
    obtain ⟨hlen, hget⟩ := ih (addIncrement ui U id)
    rw [addIncrement_length] at hlen
    refine ⟨hlen, ?_⟩
    intro n hn
    have h1 := hget n (by rw [addIncrement_length]; exact hn)
    rw [List.foldl_cons, h1, addIncrement_getD ui U id n hn, List.count_cons]
    by_cases hid : id = (n : Int)
    · simp [hid]
      ring
    · simp [hid]

/-- The method `UpdateIncrements` is the run of its statements over the equation numbers of
all nodes. -/
theorem UpdateIncrements_eq (fem : FEModel) (Ui ui : List ℚ) :
    UpdateIncrements fem Ui ui =
      (fem.nodes.flatMap FENode.ids).foldl (addIncrement ui) Ui := by
  unfold UpdateIncrements
  generalize fem.nodes = nodes
  induction nodes generalizing Ui with
  | nil => rfl
  | cons a nodes ih =>
    rw [List.foldl_cons, ih, List.flatMap_cons, List.foldl_append]

/-- When `Quasin` returns `true` its final solver is the one the loop left, with `m_Ut`
replaced by `UpdateIncrements(m_Ut, m_Ui)`. -/
theorem Quasin_returned_true (fem : FEModel) (S : FEPolarFluidSolver) (qnInit : Bool)
    (qs : List QNData) (h : (Quasin fem S qnInit qs).1 = QuasinExit.returned true) :
    (Quasin fem S qnInit qs).2.m_Ut =
        UpdateIncrements fem S.m_Ut (Quasin fem S qnInit qs).2.m_Ui := by
  have hL := QuasinLoop_Ut fem qs (PrepStep fem S) RefNorms.initial
  have hP : (PrepStep fem S).m_Ut = S.m_Ut := rfl
  cases hq : qnInit
  · rw [hq] at h
    simp [Quasin] at h
  · rw [hq] at h
    by_cases hr : (QuasinLoop fem qs (PrepStep fem S) RefNorms.initial).1 =
        QuasinExit.returned true
    · have hQ : (Quasin fem S true qs).2 =
          { (QuasinLoop fem qs (PrepStep fem S) RefNorms.initial).2 with
            m_Ut := UpdateIncrements fem
              (QuasinLoop fem qs (PrepStep fem S) RefNorms.initial).2.m_Ut
              (QuasinLoop fem qs (PrepStep fem S) RefNorms.initial).2.m_Ui } := by
        simp [Quasin, hr]
      rw [hQ]
      simp only []
      rw [hL, hP]
    · exfalso
      apply hr
      have hQ : Quasin fem S true qs =
          ((QuasinLoop fem qs (PrepStep fem S) RefNorms.initial).1,
            (QuasinLoop fem qs (PrepStep fem S) RefNorms.initial).2) := by
        unfold Quasin
        simp only [Bool.true_eq_false, if_false]
      rw [hQ] at h
      exact h

/-- C4 (as stated, refuted): on a model with one free nodal equation and one multiplier
equation, `Quasin` returns `true` after two passes with accumulated increment `Ui = [1, 1]`,
and the total solution goes from `[7, 3]` to `[8, 3]`: the multiplier equation `1` has not
received its increment. -/
theorem total_solution_multiplier_not_updated :
    (Quasin constrainedModel constrainedSolver true constrainedPasses).1 =
        QuasinExit.returned true ∧
      (Quasin constrainedModel constrainedSolver true constrainedPasses).2.m_Ui = [1, 1] ∧
      (Quasin constrainedModel constrainedSolver true constrainedPasses).2.m_Ut = [8, 3] ∧
      (Quasin constrainedModel constrainedSolver true constrainedPasses).2.m_Ut.getD 1 0 ≠
        constrainedSolver.m_Ut.getD 1 0 +
          (Quasin constrainedModel constrainedSolver true constrainedPasses).2.m_Ui.getD 1 0 := by
  decide!

/-- C4 (amended): when `Quasin` returns `true` and no two free nodal degrees of freedom
share an equation number, the total solution keeps its size, every entry `n` that is the
equation number of a velocity, angular velocity or dilatation degree of freedom of some node
satisfies `Ut_after[n] = Ut_before[n] + Ui[n]`, and every other entry (a prescribed slot, an
equation appended for a constraint multiplier) is unchanged. -/
theorem total_solution_at_convergence (fem : FEModel) (S : FEPolarFluidSolver)
    (qnInit : Bool) (qs : List QNData)
    (hret : (Quasin fem S qnInit qs).1 = QuasinExit.returned true)
    (hinj : ((fem.nodes.flatMap FENode.ids).filter (fun id => decide (0 ≤ id))).Nodup) :
    (Quasin fem S qnInit qs).2.m_Ut.length = S.m_Ut.length ∧
    ∀ n : Nat, n < S.m_Ut.length →
      (Quasin fem S qnInit qs).2.m_Ut.getD n 0 =
        if (n : Int) ∈ fem.nodes.flatMap FENode.ids then
          S.m_Ut.getD n 0 + (Quasin fem S qnInit qs).2.m_Ui.getD n 0
        else S.m_Ut.getD n 0 := by
  rw [Quasin_returned_true fem S qnInit qs hret, UpdateIncrements_eq]
  obtain ⟨hlen, hget⟩ :=
    foldl_addIncrement (Quasin fem S qnInit qs).2.m_Ui (fem.nodes.flatMap FENode.ids) S.m_Ut
  refine ⟨hlen, ?_⟩
  intro n hn
  rw [hget n hn]
  have hp : (fun id : Int => decide (0 ≤ id)) (n : Int) = true := by
    simp
  have hc : (fem.nodes.flatMap FENode.ids).count (n : Int) =
      if (n : Int) ∈ fem.nodes.flatMap FENode.ids then 1 else 0 := by
    have h1 : List.count (n : Int)
        ((fem.nodes.flatMap FENode.ids).filter (fun id => decide (0 ≤ id))) =
        List.count (n : Int) (fem.nodes.flatMap FENode.ids) :=
      List.count_filter (p := fun id : Int => decide (0 ≤ id)) hp
    rw [← h1, List.count_eq_of_nodup hinj]
    simp
  rw [hc]
  split_ifs <;> simp

/-- Witness for the amended C4 on the model with one free nodal equation. -/
theorem total_solution_at_convergence_witness :
    (Quasin constrainedModel constrainedSolver true constrainedPasses).2.m_Ut.length =
      constrainedSolver.m_Ut.length :=
  (total_solution_at_convergence constrainedModel constrainedSolver true constrainedPasses
    (by decide!) (by decide)).1

/-! ## Assembly with prescribed columns -/

/-- The body of the row loop keeps the size of the right-hand side. -/
theorem moveRow_length (ke : FEElementMatrix) (ui : List ℚ) (j : Nat) (J : Int)
    (F : List ℚ) (i : Nat) : (moveRow ke ui j J F i).length = F.length := by
  unfold moveRow
  simp only []
  split_ifs <;> simp

/-- The body of the row loop subtracts `ke[i][j] * ui[J]` from the entry `I` when the row
index of `i` is `I`, and leaves the entry alone otherwise. -/
theorem moveRow_getD (ke : FEElementMatrix) (ui : List ℚ) (j : Nat) (J : Int)
    (F : List ℚ) (i I : Nat) (hI : I < F.length) :
    (moveRow ke ui j J F i).getD I 0 =
      F.getD I 0 -
        (if ke.RowIndices.getD i (-1) = (I : Int) then ke.val i j * ui.getD J.toNat 0
          else 0) := by
  unfold moveRow
  simp only []
  by_cases h0 : 0 ≤ ke.RowIndices.getD i (-1)
  · rw [if_pos h0, getD_set_eq]
    by_cases hid : ke.RowIndices.getD i (-1) = (I : Int)
    · rw [hid]
      simp [hI]
    · have : ¬ (ke.RowIndices.getD i (-1)).toNat = I := by
        intro h
        apply hid
        rw [← h]
        exact (Int.toNat_of_nonneg h0).symm
      rw [if_neg (fun h => this h.1), if_neg hid, sub_zero]
  · rw [if_neg h0]
    have : ¬ ke.RowIndices.getD i (-1) = (I : Int) := by
      intro h
      apply h0
      rw [h]
      exact Int.natCast_nonneg I
    rw [if_neg this, sub_zero]

/-- The row loop run over the first `n` rows. -/
theorem foldl_moveRow (ke : FEElementMatrix) (ui : List ℚ) (j : Nat) (J : Int) (n : Nat) :
    ∀ F : List ℚ,
      ((List.range n).foldl (moveRow ke ui j J) F).length = F.length ∧
      ∀ I : Nat, I < F.length →
        ((List.range n).foldl (moveRow ke ui j J) F).getD I 0 =
          F.getD I 0 -
            ∑ i ∈ Finset.range n,
              (if ke.RowIndices.getD i (-1) = (I : Int) then ke.val i j * ui.getD J.toNat 0
                else 0) := by
  induction n with
  | zero => intro F; simp
  | succ n ih =>
    intro F
    obtain ⟨hlen, hget⟩ := ih F
    rw [List.range_succ, List.foldl_append, List.foldl_cons, List.foldl_nil]
    refine ⟨by rw [moveRow_length, hlen], ?_⟩
    intro I hI
    rw [moveRow_getD _ _ _ _ _ _ _ (by rw [hlen]; exact hI), hget I hI, Finset.sum_range_succ]
    ring

/-- What the column loop, run over the first `n` columns, does to the linear system. -/
theorem foldl_prescribedColumn (ke : FEElementMatrix) (n : Nat) :
    ∀ L : FESolidLinearSystem,
      ((List.range n).foldl (prescribedColumn ke) L).m_u = L.m_u ∧
      ((List.range n).foldl (prescribedColumn ke) L).m_nreq = L.m_nreq ∧
      ((List.range n).foldl (prescribedColumn ke) L).m_F.length = L.m_F.length ∧
      (∀ I : Nat, I < L.m_F.length →
        ((List.range n).foldl (prescribedColumn ke) L).m_F.getD I 0 =
          L.m_F.getD I 0 -
            ∑ j ∈ Finset.range n,
              (if isPrescribedColumn L.m_nreq (ke.ColumnsIndices.getD j (-1)) = true then
                ∑ i ∈ Finset.range ke.rows,
                  (if ke.RowIndices.getD i (-1) = (I : Int) then
                    ke.val i j *
                      L.m_u.getD (decodePrescribed (ke.ColumnsIndices.getD j (-1))).toNat 0
                  else 0)
              else 0)) ∧
      (∀ a : Nat, L.m_K a a = 1 →
        ((List.range n).foldl (prescribedColumn ke) L).m_K a a = 1) ∧
      (∀ j : Nat, j < n →
        isPrescribedColumn L.m_nreq (ke.ColumnsIndices.getD j (-1)) = true →
        ((List.range n).foldl (prescribedColumn ke) L).m_K
          (decodePrescribed (ke.ColumnsIndices.getD j (-1))).toNat
          (decodePrescribed (ke.ColumnsIndices.getD j (-1))).toNat = 1) := by
  induction n with
  | zero =>
    intro L
    simp
  | succ n ih =>
    intro L
    obtain ⟨hu, hreq, hlen, hF, hK1, hK⟩ := ih L
    rw [List.range_succ, List.foldl_append, List.foldl_cons, List.foldl_nil]
    generalize hM : (List.range n).foldl (prescribedColumn ke) L = M at hu hreq hlen hF hK1 hK
    by_cases hp : isPrescribedColumn L.m_nreq (ke.ColumnsIndices.getD n (-1)) = true
    · have hpM : isPrescribedColumn M.m_nreq (ke.ColumnsIndices.getD n (-1)) = true := by
        rw [hreq]; exact hp
      have hstep : prescribedColumn ke M n =
          { M with
            m_F := moveColumn ke M.m_u n (decodePrescribed (ke.ColumnsIndices.getD n (-1)))
              M.m_F,
            m_K := matrixSet M.m_K (decodePrescribed (ke.ColumnsIndices.getD n (-1))).toNat
              (decodePrescribed (ke.ColumnsIndices.getD n (-1))).toNat 1 } := by
        dsimp only [prescribedColumn]
        rw [if_pos hpM]
      rw [hstep]
      obtain ⟨hl2, hg2⟩ := foldl_moveRow ke M.m_u n
        (decodePrescribed (ke.ColumnsIndices.getD n (-1))) ke.rows M.m_F
      refine ⟨hu, hreq, ?_, ?_, ?_, ?_⟩
      · show (moveColumn ke M.m_u n _ M.m_F).length = L.m_F.length
        unfold moveColumn
        rw [hl2, hlen]
      · intro I hI
        show (moveColumn ke M.m_u n _ M.m_F).getD I 0 = _
        unfold moveColumn
        rw [hg2 I (by rw [hlen]; exact hI), hF I hI, Finset.sum_range_succ, if_pos hp, hu]
        ring
      · intro a ha
        show matrixSet M.m_K _ _ 1 a a = 1
        unfold matrixSet
        split_ifs
        · rfl
        · exact hK1 a ha
      · intro j hj hpj
        show matrixSet M.m_K _ _ 1 _ _ = 1
        unfold matrixSet
        split_ifs with hc
        · rfl
        · rcases Nat.lt_succ_iff_lt_or_eq.mp hj with hlt | heq
          · exact hK j hlt hpj
          · exfalso
            apply hc
            rw [heq]
            exact ⟨rfl, rfl⟩
    · have hpM : ¬ isPrescribedColumn M.m_nreq (ke.ColumnsIndices.getD n (-1)) = true := by
        rw [hreq]; exact hp
      have hstep : prescribedColumn ke M n = M := by
        dsimp only [prescribedColumn]
        rw [if_neg hpM]
      rw [hstep]
      refine ⟨hu, hreq, hlen, ?_, hK1, ?_⟩
      · intro I hI
        rw [hF I hI, Finset.sum_range_succ, if_neg hp]
        ring
      · intro j hj hpj
        rcases Nat.lt_succ_iff_lt_or_eq.mp hj with hlt | heq
        · exact hK j hlt hpj
        · exfalso
          apply hp
          rw [← heq]
          exact hpj

/-- C5: for a square element matrix with a non-empty node list, in a model without linear
constraints and rigid bodies where every prescribed slot lies below `nreq`, `Assemble` keeps
the size of the right-hand side, subtracts from every entry `F[I]` the sum of
`ke[i][j] * u[J]` over the row positions `i` with index `I` and the column positions `j`
whose index decodes to a slot `J = -ColumnIndices[j] - 2 ≥ 0` (other columns and rows with
a negative index contribute nothing), and leaves `K(J, J) = 1` for every such slot. -/
theorem Assemble_moves_prescribed (srv : AssembleServices) (L : FESolidLinearSystem)
    (ke : FEElementMatrix)
    (hnodes : ke.nodes ≠ [])
    (hlc : srv.linearConstraints = 0)
    (hrigid : ∀ M : FESolidLinearSystem, srv.rigidStiffness ke M = M)
    (hrows : ke.RowIndices.length = ke.rows)
    (hcols : ke.ColumnsIndices.length = ke.rows)
    (hreq : ∀ j : Nat, j < ke.rows →
      0 ≤ decodePrescribed (ke.ColumnsIndices.getD j (-1)) →
      decodePrescribed (ke.ColumnsIndices.getD j (-1)) < L.m_nreq) :
    (L.Assemble srv ke).m_F.length = L.m_F.length ∧
    (∀ I : Nat, I < L.m_F.length →
      (L.Assemble srv ke).m_F.getD I 0 =
        L.m_F.getD I 0 -
          ∑ j ∈ Finset.range ke.ColumnsIndices.length,
            ∑ i ∈ Finset.range ke.RowIndices.length,
              (if ke.RowIndices.getD i (-1) = (I : Int) ∧
                  0 ≤ decodePrescribed (ke.ColumnsIndices.getD j (-1)) then
                ke.val i j *
                  L.m_u.getD (decodePrescribed (ke.ColumnsIndices.getD j (-1))).toNat 0
              else 0)) ∧
    (∀ j : Nat, j < ke.ColumnsIndices.length →
      0 ≤ decodePrescribed (ke.ColumnsIndices.getD j (-1)) →
      (L.Assemble srv ke).m_K
        (decodePrescribed (ke.ColumnsIndices.getD j (-1))).toNat
        (decodePrescribed (ke.ColumnsIndices.getD j (-1))).toNat = 1) := by
  have hne : ke.nodes.isEmpty = false := by
    cases hk : ke.nodes with
    | nil => exact absurd hk hnodes
    | cons a l => rfl
  have hA : L.Assemble srv ke =
      (List.range ke.rows).foldl (prescribedColumn ke)
        { L with m_K := srv.matrixAssemble ke L.m_K } := by
    simp [FESolidLinearSystem.Assemble, hne, hlc, hrigid]
  obtain ⟨_, _, hlen, hF, _, hK⟩ :=
    foldl_prescribedColumn ke ke.rows { L with m_K := srv.matrixAssemble ke L.m_K }
  have hpres : ∀ j : Nat, j < ke.rows →
      (isPrescribedColumn L.m_nreq (ke.ColumnsIndices.getD j (-1)) = true ↔
        0 ≤ decodePrescribed (ke.ColumnsIndices.getD j (-1))) := by
    intro j hj
    simp only [isPrescribedColumn, decide_eq_true_eq]
    exact ⟨fun h => h.1, fun h => ⟨h, hreq j hj h⟩⟩
  rw [hA, hrows, hcols]
  refine ⟨hlen, ?_, ?_⟩
  · intro I hI
    rw [hF I hI]
    congr 1
    apply Finset.sum_congr rfl
    intro j hj
    have hj2 : j < ke.rows := Finset.mem_range.mp hj
    by_cases hp : 0 ≤ decodePrescribed (ke.ColumnsIndices.getD j (-1))
    · rw [if_pos ((hpres j hj2).mpr hp)]
      apply Finset.sum_congr rfl
      intro i _
      by_cases hA : ke.RowIndices.getD i (-1) = (I : Int)
      · rw [if_pos hA, if_pos ⟨hA, hp⟩]
      · rw [if_neg hA, if_neg (fun h => hA h.1)]
    · have hnp : ¬ isPrescribedColumn L.m_nreq (ke.ColumnsIndices.getD j (-1)) = true :=
        fun h => hp ((hpres j hj2).mp h)
      rw [if_neg hnp]
      symm
      apply Finset.sum_eq_zero
      intro i _
      rw [if_neg (fun h => hp h.2)]
  · intro j hj hp
    exact hK j hj ((hpres j hj).mpr hp)

/-- Witness for C5: the sample element on the sample system sets `K(1, 1) = 1`. -/
theorem Assemble_moves_prescribed_witness :
    (sampleSystem.Assemble plainServices sampleElement).m_K 1 1 = 1 ∧
      (sampleSystem.Assemble plainServices sampleElement).m_F.length = 2 :=
  ⟨(Assemble_moves_prescribed plainServices sampleSystem sampleElement (by decide) rfl
      (fun _ => rfl) rfl rfl (by decide)).2.2 1 (by decide) (by decide),
   (Assemble_moves_prescribed plainServices sampleSystem sampleElement (by decide) rfl
      (fun _ => rfl) rfl rfl (by decide)).1⟩

/-! ## Zero line search step -/

/-- C11: in a pass that has not converged (no NaN, flag `false` after the override), that
does not raise `MaxResidualError` and whose line search step is below `LSmin`,
`QNForceReform(true)` is called, the pass ends neither by `NANDetected` nor by
`MaxResidualError`, the reference norms stay as the checks saw them (and as they were before
the pass when it is not the first one), and the pass goes on to `QNUpdate`: it ends with the
value `QNUpdate` returns, and when that is `true` the loop runs the next pass. -/
theorem zero_linestep_forces_reform (fem : FEModel) (S : FEPolarFluidSolver) (N : RefNorms)
    (q : QNData) (hn : q.nanR1 = false) (hc : passConverged fem S N q = false)
    (hmax : (QuasinPass fem S N q).exit ≠ PassExit.maxResidualError)
    (hs : q.s < S.m_LSmin) :
    (QuasinPass fem S N q).forceReform = true ∧
    (QuasinPass fem S N q).exit ≠ PassExit.nanDetected ∧
    (QuasinPass fem S N q).norms = passRefNorms fem S N q ∧
    (S.m_niter ≠ 0 → (QuasinPass fem S N q).norms = N) ∧
    (QuasinPass fem S N q).exit =
      (if q.qnUpdate then PassExit.done false else PassExit.qnUpdateFailed) ∧
    (q.qnUpdate = true → ∀ qs : List QNData,
      QuasinLoop fem (q :: qs) S N =
        QuasinLoop fem qs (QuasinPass fem S N q).solver (QuasinPass fem S N q).norms) := by
  have hx : exceedsMaxResidual (passSolver fem S q) (passNorms fem S q) false = false := by
    cases hx : exceedsMaxResidual (passSolver fem S q) (passNorms fem S q) false
    · rfl
    · exfalso
      apply hmax
      rw [QuasinPass_maxResidual_iff, hc]
      exact ⟨hn, hx⟩
  obtain ⟨he, hf⟩ := QuasinPass_not_converged fem S N q hn hc hx
  have hs2 : q.s < (passSolver fem S q).m_LSmin := hs
  have hbr : reformBranch (passSolver fem S q) (passRefNorms fem S N q) (passNorms fem S q)
      q.s = (passRefNorms fem S N q, true) := by
    unfold reformBranch
    rw [if_pos hs2]
  have hnorms : (QuasinPass fem S N q).norms = passRefNorms fem S N q := by
    cases hu : q.qnUpdate <;> simp [QuasinPass, hn, hc, hx, hu, hbr]
  refine ⟨?_, ?_, hnorms, ?_, he, ?_⟩
  · rw [hf, hbr]
  · rw [he]
    cases q.qnUpdate <;> simp
  · intro h0
    rw [hnorms]
    simp [passRefNorms, setInitialNorms, afterSolve, h0]
  · intro hu qs
    have he2 : (QuasinPass fem S N q).exit = PassExit.done false := by
      rw [he, hu]
      rfl
    simp [QuasinLoop, he2]

/-- Witness for C11: a pass of the sample solver with the step `1/1000 < LSmin = 1/100`. -/
theorem zero_linestep_forces_reform_witness :
    (QuasinPass emptyModel (sampleSolver true) RefNorms.initial
      { samplePass 1 1 1 with s := 1/1000 }).forceReform = true :=
  (zero_linestep_forces_reform emptyModel (sampleSolver true) RefNorms.initial
    { samplePass 1 1 1 with s := 1/1000 } rfl (by decide!) (by decide!) (by decide!)).1

/-! ## The augmentation flag -/

/-- What `PrepStep` computes: the augmentation flag is set exactly when some active contact
interface has `m_laugon != 1` or the model has a nonlinear constraint. -/
theorem PrepStep_baugment_iff (fem : FEModel) (S : FEPolarFluidSolver) :
    (PrepStep fem S).m_baugment = true ↔
      (∃ ci ∈ fem.surfacePairConstraints, ci.active = true ∧ ci.m_laugon ≠ 1) ∨
        fem.nonlinearConstraints ≠ 0 := by
  have hfold : ∀ (l : List FEContactInterface) (b : Bool),
      l.foldl (fun b ci => if ci.active = true ∧ ci.m_laugon ≠ 1 then true else b) b = true ↔
        (b = true ∨ ∃ ci ∈ l, ci.active = true ∧ ci.m_laugon ≠ 1) := by
    intro l
    induction l with
    | nil => intro b; simp
    | cons a l ih =>
      intro b
      rw [List.foldl_cons, ih]
      by_cases ha : a.active = true ∧ a.m_laugon ≠ 1
      · rw [if_pos ha]
        constructor
        · intro _
          exact Or.inr ⟨a, List.mem_cons_self a l, ha⟩
        · intro _
          exact Or.inl rfl
      · rw [if_neg ha]
        constructor
        · rintro (h | ⟨ci, hci, h⟩)
          · exact Or.inl h
          · exact Or.inr ⟨ci, List.mem_cons_of_mem a hci, h⟩
        · rintro (h | ⟨ci, hci, h⟩)
          · exact Or.inl h
          · rcases List.mem_cons.mp hci with heq | hmem
            · exact absurd (heq ▸ h) ha
            · exact Or.inr ⟨ci, hmem, h⟩
  have hflag : (PrepStep fem S).m_baugment =
      (if fem.nonlinearConstraints ≠ 0 then true
        else fem.surfacePairConstraints.foldl
          (fun b ci => if ci.active = true ∧ ci.m_laugon ≠ 1 then true else b) false) := rfl
  rw [hflag]
  by_cases hn : fem.nonlinearConstraints ≠ 0
  · rw [if_pos hn]
    simp [hn]
  · rw [if_neg hn, hfold]
    simp [hn]

/-- C17 (the code at the failing inputs): with one active contact interface that has
Lagrangian augmentation switched on (`m_laugon = 1`) and no nonlinear constraint, `PrepStep`
leaves `m_baugment = false`; with one active pure penalty interface (`m_laugon = 0`) it sets
`m_baugment = true`. -/
theorem PrepStep_baugment_inverted :
    (PrepStep augmentedContactModel (sampleSolver true)).m_baugment = false ∧
    (PrepStep penaltyContactModel (sampleSolver true)).m_baugment = true := by
  decide

/-! ## A step with zero residual -/

/-- Overwriting an entry of a vector with itself changes nothing. -/
theorem set_getD_self (U : List ℚ) (i : Nat) : U.set i (U.getD i 0) = U := by
  induction U generalizing i with
  | nil => simp
  | cons a U ih =>
    cases i with
    | zero => simp
    | succ i =>
      simp only [List.set_cons_succ, List.getD_cons_succ]
      rw [ih]

/-- Every entry read from a vector of zeros is zero. -/
theorem getD_of_all_zero (l : List ℚ) (h : ∀ x ∈ l, x = 0) (i : Nat) : l.getD i 0 = 0 := by
  induction l generalizing i with
  | nil => simp
  | cons a l ih =>
    cases i with
    | zero =>
      simp only [List.getD_cons_zero]
      exact h a (List.mem_cons_self a l)
    | succ i =>
      simp only [List.getD_cons_succ]
      exact ih (fun x hx => h x (List.mem_cons_of_mem a hx)) i

/-- The dot product with a vector of zeros on the left is zero. -/
theorem dot_zero_left (a b : List ℚ) (h : ∀ x ∈ a, x = 0) : dot a b = 0 := by
  unfold dot
  induction a generalizing b with
  | nil => simp
  | cons x a ih =>
    cases b with
    | nil => simp
    | cons y b =>
      simp only [List.zipWith_cons_cons, List.sum_cons]
      rw [ih b (fun z hz => h z (List.mem_cons_of_mem x hz)), h x (List.mem_cons_self x a)]
      ring

/-- Writing a zero into a vector of zeros leaves a vector of zeros. -/
theorem set_zero_all_zero (l : List ℚ) (h : ∀ x ∈ l, x = 0) (i : Nat) :
    ∀ x ∈ l.set i 0, x = 0 := by
  intro x hx
  rcases List.mem_or_eq_of_mem_set hx with hm | he
  · exact h x hm
  · exact he

/-- The routine `zero` yields a vector of zeros. -/
theorem zero_all_zero (v : List ℚ) : ∀ x ∈ zero v, x = 0 := by
  intro x hx
  exact (List.mem_replicate.mp hx).2

/-- One block of the extraction routines keeps a vector of zeros when the source vector
holds only zeros. -/
theorem gatherDof_all_zero (ui : List ℚ) (hui : ∀ x ∈ ui, x = 0) (st : List ℚ × Nat)
    (hst : ∀ x ∈ st.1, x = 0) (nid : Int) : ∀ x ∈ (gatherDof ui st nid).1, x = 0 := by
  unfold gatherDof
  by_cases h : nid ≠ -1
  · rw [if_pos h, getD_of_all_zero ui hui]
    exact set_zero_all_zero st.1 hst st.2
  · rw [if_neg h]
    exact hst

/-- A run of extraction blocks keeps a vector of zeros. -/
theorem foldl_gatherDof_all_zero (ui : List ℚ) (hui : ∀ x ∈ ui, x = 0) (l : List Int) :
    ∀ st : List ℚ × Nat, (∀ x ∈ st.1, x = 0) →
      ∀ x ∈ (l.foldl (gatherDof ui) st).1, x = 0 := by
  induction l with
  | nil => intro st hst; exact hst
  | cons a l ih =>
    intro st hst
    rw [List.foldl_cons]
    exact ih _ (gatherDof_all_zero ui hui st hst a)

/-- The extraction over all nodes, for any choice `ids` of the degrees of freedom visited per
node, yields a vector of zeros from a zero increment. -/
theorem foldl_nodes_gather_all_zero (ui : List ℚ) (hui : ∀ x ∈ ui, x = 0)
    (ids : FENode → List Int) (nodes : List FENode) :
    ∀ st : List ℚ × Nat, (∀ x ∈ st.1, x = 0) →
      ∀ x ∈ (nodes.foldl (fun st n => (ids n).foldl (gatherDof ui) st) st).1, x = 0 := by
  induction nodes with
  | nil => intro st hst; exact hst
  | cons a nodes ih =>
    intro st hst
    rw [List.foldl_cons]
    exact ih _ (foldl_gatherDof_all_zero ui hui (ids a) st hst)

/-- The update loop `U[i] += s*u[i]` with a zero increment changes nothing. -/
theorem addScaled_zero_increment (n : Nat) (s : ℚ) (U u : List ℚ) (hu : ∀ x ∈ u, x = 0) :
    addScaled n s U u = U := by
  unfold addScaled
  induction n with
  | zero => rfl
  | succ n ih =>
    rw [List.range_succ, List.foldl_append, ih, List.foldl_cons, List.foldl_nil,
      getD_of_all_zero u hu, mul_zero, add_zero, set_getD_self]

/-- The method `UpdateIncrements` with a zero increment changes nothing. -/
theorem UpdateIncrements_zero_increment (fem : FEModel) (Ut Ui : List ℚ)
    (hU : ∀ x ∈ Ui, x = 0) : UpdateIncrements fem Ut Ui = Ut := by
  rw [UpdateIncrements_eq]
  generalize fem.nodes.flatMap FENode.ids = l
  induction l generalizing Ut with
  | nil => rfl
  | cons a l ih =>
    rw [List.foldl_cons]
    have h1 : addIncrement Ui Ut a = Ut := by
      unfold addIncrement
      split_ifs
      · rw [getD_of_all_zero Ui hU, add_zero, set_getD_self]
      · rfl
    rw [h1]
    exact ih Ut

/-- Every way a pass ends leaves the accumulated increment as the update loops made it. -/
theorem QuasinPass_Ui (fem : FEModel) (S : FEPolarFluidSolver) (N : RefNorms) (q : QNData) :
    (QuasinPass fem S N q).solver.m_Ui = (passSolver fem S q).m_Ui := by
  unfold QuasinPass
  simp only []
  split_ifs <;> rfl

/-- The norms of a pass whose increment and residuals are zero, run right after `PrepStep`:
all of them vanish, and so do the reference norms. -/
theorem zero_pass_norms (fem : FEModel) (S : FEPolarFluidSolver) (q : QNData)
    (hui : ∀ x ∈ q.ui, x = 0) (hR0 : ∀ x ∈ q.R0, x = 0) (hR1 : ∀ x ∈ q.R1, x = 0) :
    (passNorms fem (PrepStep fem S) q).normR1 = 0 ∧
    (passNorms fem (PrepStep fem S) q).normE1 = 0 ∧
    (passNorms fem (PrepStep fem S) q).normv = 0 ∧
    (passNorms fem (PrepStep fem S) q).normg = 0 ∧
    (passNorms fem (PrepStep fem S) q).normf = 0 ∧
    (passRefNorms fem (PrepStep fem S) RefNorms.initial q).normRi = 0 ∧
    (passRefNorms fem (PrepStep fem S) RefNorms.initial q).normEi = 0 ∧
    (passRefNorms fem (PrepStep fem S) RefNorms.initial q).normEm = 0 ∧
    (passSolver fem (PrepStep fem S) q).m_Ui = zero S.m_Ui := by
  have hv : ∀ vi : List ℚ, ∀ x ∈ GetVelocityData fem vi q.ui, x = 0 := fun vi =>
    foldl_nodes_gather_all_zero q.ui hui (fun n => [n.idW0, n.idW1, n.idW2]) fem.nodes
      (zero vi, 0) (zero_all_zero vi)
  have hg : ∀ xi : List ℚ, ∀ x ∈ GetAngularVelocityData fem xi q.ui, x = 0 := fun xi =>
    foldl_nodes_gather_all_zero q.ui hui (fun n => [n.idG0, n.idG1, n.idG2]) fem.nodes
      (zero xi, 0) (zero_all_zero xi)
  have hf : ∀ ei : List ℚ, ∀ x ∈ GetDilatationData fem ei q.ui, x = 0 := fun ei =>
    foldl_nodes_gather_all_zero q.ui hui (fun n => [n.idEF]) fem.nodes
      (zero ei, 0) (zero_all_zero ei)
  refine ⟨?_, ?_, ?_, ?_, ?_, ?_, ?_, ?_, ?_⟩
  · show dot q.R1 q.R1 = 0
    exact dot_zero_left _ _ hR1
  · show q.s * |dot q.ui q.R1| = 0
    rw [dot_zero_left _ _ hui]
    simp
  · show dot (GetVelocityData fem _ q.ui) (GetVelocityData fem _ q.ui) * (q.s * q.s) = 0
    rw [dot_zero_left _ _ (hv _)]
    ring
  · show dot (GetAngularVelocityData fem _ q.ui) (GetAngularVelocityData fem _ q.ui) *
      (q.s * q.s) = 0
    rw [dot_zero_left _ _ (hg _)]
    ring
  · show dot (GetDilatationData fem _ q.ui) (GetDilatationData fem _ q.ui) * (q.s * q.s) = 0
    rw [dot_zero_left _ _ (hf _)]
    ring
  · show (setInitialNorms (afterSolve fem (PrepStep fem S) q) RefNorms.initial).normRi = 0
    unfold setInitialNorms
    split_ifs
    · show |dot q.R0 q.R0| = 0
      rw [dot_zero_left _ _ hR0]
      simp
    · rfl
  · show (setInitialNorms (afterSolve fem (PrepStep fem S) q) RefNorms.initial).normEi = 0
    unfold setInitialNorms
    split_ifs
    · show |dot q.ui q.R0| = 0
      rw [dot_zero_left _ _ hui]
      simp
    · rfl
  · show (setInitialNorms (afterSolve fem (PrepStep fem S) q) RefNorms.initial).normEm = 0
    unfold setInitialNorms
    split_ifs
    · show |dot q.ui q.R0| = 0
      rw [dot_zero_left _ _ hui]
      simp
    · rfl
  · show addScaled _ q.s (zero S.m_Ui) q.ui = zero S.m_Ui
    exact addScaled_zero_increment _ _ _ _ hui

/-- C12: for a step with zero residual (`QNInit` succeeds, the first `QNSolve` leaves
`R0 = R1 = 0`, `ui = 0` and a step `s ≥ LSmin`) and no augmentation pending, the first pass
passes all seven checks without the minimum-residual override, `Quasin` returns `true` after
that single pass with `m_niter` advanced by exactly one, and `m_Ut` is unchanged; this holds
whatever the tolerances are. -/
theorem zero_residual_step (fem : FEModel) (S : FEPolarFluidSolver) (q : QNData)
    (hn : q.nanR1 = false)
    (hui : ∀ x ∈ q.ui, x = 0) (hR0 : ∀ x ∈ q.R0, x = 0) (hR1 : ∀ x ∈ q.R1, x = 0)
    (hs : q.s ≥ S.m_LSmin) (haug : (PrepStep fem S).m_baugment = false) :
    passChecks fem (PrepStep fem S) RefNorms.initial q = true ∧
    ∀ qs : List QNData,
      (Quasin fem S true (q :: qs)).1 = QuasinExit.returned true ∧
      (Quasin fem S true (q :: qs)).2.m_niter = S.m_niter + 1 ∧
      (Quasin fem S true (q :: qs)).2.m_Ut = S.m_Ut := by
  obtain ⟨hR1n, hE1, hv, hg, hf, hRi, hEi, hEm, hUi⟩ := zero_pass_norms fem S q hui hR0 hR1
  have hchk : passChecks fem (PrepStep fem S) RefNorms.initial q = true := by
    unfold passChecks
    rw [convChecks_true_iff_bounds, hR1n, hE1, hv, hg, hf, hRi, hEi, hEm]
    refine ⟨⟨?_, ?_, ?_, ?_, ?_⟩, Or.inr hs, le_refl 0⟩
    · intro _; simp
    · intro _
      exact mul_nonneg (mul_self_nonneg _) (by
        show 0 ≤ dot _ _
        unfold dot
        apply List.sum_nonneg
        intro x hx
        rw [List.mem_iff_get] at hx
        obtain ⟨i, hi⟩ := hx
        rw [← hi]
        simp only [List.get_eq_getElem, List.getElem_zipWith]
        exact mul_self_nonneg _)
    · intro _
      exact mul_nonneg (mul_self_nonneg _) (by
        show 0 ≤ dot _ _
        unfold dot
        apply List.sum_nonneg
        intro x hx
        rw [List.mem_iff_get] at hx
        obtain ⟨i, hi⟩ := hx
        rw [← hi]
        simp only [List.get_eq_getElem, List.getElem_zipWith]
        exact mul_self_nonneg _)
    · intro _
      exact mul_nonneg (mul_self_nonneg _) (by
        show 0 ≤ dot _ _
        unfold dot
        apply List.sum_nonneg
        intro x hx
        rw [List.mem_iff_get] at hx
        obtain ⟨i, hi⟩ := hx
        rw [← hi]
        simp only [List.get_eq_getElem, List.getElem_zipWith]
        exact mul_self_nonneg _)
    · intro _; simp
  refine ⟨hchk, ?_⟩
  intro qs
  have hc : passConverged fem (PrepStep fem S) RefNorms.initial q = true := by
    simp [passConverged, minResidualOverride, hchk]
  obtain ⟨he, _, hi⟩ := QuasinPass_converged fem (PrepStep fem S) RefNorms.initial q hn hc
  rw [haug] at he
  have he2 : (QuasinPass fem (PrepStep fem S) RefNorms.initial q).exit =
      PassExit.done true := by simpa using he
  have hi2 : (QuasinPass fem (PrepStep fem S) RefNorms.initial q).solver.m_niter =
      S.m_niter + 1 := hi
  have hloop : QuasinLoop fem (q :: qs) (PrepStep fem S) RefNorms.initial =
      (QuasinExit.returned true,
        (QuasinPass fem (PrepStep fem S) RefNorms.initial q).solver) := by
    simp [QuasinLoop, he2]
  have hret : (Quasin fem S true (q :: qs)).1 = QuasinExit.returned true := by
    simp [Quasin, hloop]
  have hUi2 : (Quasin fem S true (q :: qs)).2.m_Ui = zero S.m_Ui := by
    have : (Quasin fem S true (q :: qs)).2.m_Ui =
        (QuasinPass fem (PrepStep fem S) RefNorms.initial q).solver.m_Ui := by
      simp [Quasin, hloop]
    rw [this, QuasinPass_Ui, hUi]
  refine ⟨hret, ?_, ?_⟩
  · simp [Quasin, hloop, hi2]
  · rw [Quasin_returned_true fem S true (q :: qs) hret, hUi2]
    exact UpdateIncrements_zero_increment fem S.m_Ut _ (zero_all_zero _)

/-- Witness for C12: the sample solver on a pass without increment and residual. -/
theorem zero_residual_step_witness :
    (Quasin emptyModel (sampleSolver true) true [samplePass 0 0 0]).1 =
        QuasinExit.returned true ∧
      (Quasin emptyModel (sampleSolver true) true [samplePass 0 0 0]).2.m_Ut = [7] :=
  ⟨((zero_residual_step emptyModel (sampleSolver true) (samplePass 0 0 0) rfl (by decide)
      (by decide) (by decide) (by decide!) (by decide)).2 []).1,
   ((zero_residual_step emptyModel (sampleSolver true) (samplePass 0 0 0) rfl (by decide)
      (by decide) (by decide) (by decide!) (by decide)).2 []).2.2⟩

/-! ## Augmentation of the periodic boundary -/

/-- With augmentation on, `Augment` returns its convergence flag. -/
theorem Augment_fst (sqrt : ℚ → ℚ) (pb : FEPeriodicBoundary2O) (naug : Int)
    (hon : pb.m_blaugon = true) :
    (pb.Augment sqrt naug).1 = augmentConverged pb (augmentNorms sqrt pb).pctn naug := by
  unfold FEPeriodicBoundary2O.Augment
  simp only [hon, Bool.true_eq_false, if_false]
  split_ifs <;> rfl

/-- The convergence flag of `Augment` is the conjunction of its two tests passing. -/
theorem augmentConverged_iff (pb : FEPeriodicBoundary2O) (pctn : ℚ) (naug : Int) :
    augmentConverged pb pctn naug = true ↔ pctn < pb.m_atol ∧ naug ≥ pb.m_naugmin := by
  unfold augmentConverged
  by_cases h1 : pctn ≥ pb.m_atol
  · have : ¬ pctn < pb.m_atol := not_lt.mpr h1
    by_cases h2 : pb.m_naugmin > naug <;> simp [h1, h2, this]
  · have h1' : pctn < pb.m_atol := not_le.mp h1
    by_cases h2 : pb.m_naugmin > naug
    · have : ¬ pb.m_naugmin ≤ naug := not_le.mpr h2
      simp [h1, h2, this]
    · have : pb.m_naugmin ≤ naug := not_lt.mp h2
      simp [h1, h2, h1', this]

/-- The relative change `pctn` is never negative. -/
theorem pctn_nonneg (sqrt : ℚ → ℚ) (pb : FEPeriodicBoundary2O) :
    0 ≤ (augmentNorms sqrt pb).pctn := by
  unfold augmentNorms
  simp only []
  split_ifs
  · exact abs_nonneg _
  · exact le_refl 0

/-- C13: with augmentation switched on, `Augment(naug)` returns `true` exactly when the
relative multiplier change `pctn` is strictly below `atol` and `naug ≥ naugmin`. -/
theorem Augment_true_iff (sqrt : ℚ → ℚ) (pb : FEPeriodicBoundary2O) (naug : Int)
    (hon : pb.m_blaugon = true) :
    (pb.Augment sqrt naug).1 = true ↔
      (augmentNorms sqrt pb).pctn < pb.m_atol ∧ naug ≥ pb.m_naugmin := by
  rw [Augment_fst sqrt pb naug hon, augmentConverged_iff]

/-- Witness for C13: the sample boundary, with `pctn = 1/2` above the tolerance `1/5`, does
not converge at `naug = 3`. -/
theorem Augment_true_iff_witness :
    sampleBoundary.m_blaugon = true ∧
      ((sampleBoundary.Augment sampleSqrt 3).1 = true ↔
        (augmentNorms sampleSqrt sampleBoundary).pctn < sampleBoundary.m_atol ∧
          (3 : Int) ≥ sampleBoundary.m_naugmin) :=
  ⟨rfl, Augment_true_iff sampleSqrt sampleBoundary 3 rfl⟩

/-- Reading an entry of an array after one entry has been overwritten, for any entry type. -/
theorem getD_set_any {α : Type} (U : List α) (i n : Nat) (v d : α) :
    (U.set i v).getD n d = if i = n ∧ i < U.length then v else U.getD n d := by
  induction U generalizing i n with
  | nil => simp
  | cons a U ih =>
    cases i with
    | zero =>
      cases n with
      | zero => simp
      | succ n => simp
    | succ i =>
      cases n with
      | zero => simp
      | succ n =>
        simp only [List.set_cons_succ, List.getD_cons_succ, List.length_cons,
          Nat.succ_lt_succ_iff, Nat.succ.injEq]
        exact ih i n

/-- The multiplier update loop run over the first `n` nodes: the array keeps its size, the
entries below `n` receive `eps * gap`, the others are untouched. -/
theorem foldl_updateMultipliers (eps : ℚ) (gap : List vec3d) (n : Nat) :
    ∀ L : List vec3d,
      ((List.range n).foldl
        (fun L i => L.set i ((L.getD i vec3d.zero).add ((gap.getD i vec3d.zero).scale eps)))
        L).length = L.length ∧
      ∀ i : Nat, i < L.length →
        ((List.range n).foldl
          (fun L i => L.set i ((L.getD i vec3d.zero).add ((gap.getD i vec3d.zero).scale eps)))
          L).getD i vec3d.zero =
          if i < n then (L.getD i vec3d.zero).add ((gap.getD i vec3d.zero).scale eps)
          else L.getD i vec3d.zero := by
  induction n with
  | zero => intro L; simp
  | succ n ih =>
    intro L
    obtain ⟨hlen, hget⟩ := ih L
    rw [List.range_succ, List.foldl_append, List.foldl_cons, List.foldl_nil]
    refine ⟨by rw [List.length_set, hlen], ?_⟩
    intro i hi
    rw [getD_set_any, hlen]
    by_cases hin : n = i
    · subst hin
      rw [if_pos ⟨rfl, hi⟩, hget n hi, if_neg (Nat.lt_irrefl n), if_pos (Nat.lt_succ_self n)]
    · rw [if_neg (fun h => hin h.1), hget i hi]
      by_cases hlt : i < n
      · rw [if_pos hlt, if_pos (Nat.lt_succ_of_lt hlt)]
      · have : ¬ i < n + 1 := by
          intro h
          rcases Nat.lt_succ_iff_lt_or_eq.mp h with h1 | h1
          · exact hlt h1
          · exact hin h1.symm
        rw [if_neg hlt, if_neg this]

/-- C14: `Augment` changes multipliers only when it reports non-convergence. If it returns
`false`, every node `i` of the slave surface and of the master surface has
`Lm_after[i] = Lm_before[i] + eps * gap[i]`; if it returns `true` (converged, or augmentation
switched off) the whole interface, multipliers included, is unchanged; and the gaps are the
same after `Augment` in every case. -/
theorem Augment_multipliers (sqrt : ℚ → ℚ) (pb : FEPeriodicBoundary2O) (naug : Int) :
    ((pb.Augment sqrt naug).1 = false →
      (∀ i : Nat, i < pb.m_ss.Nodes → i < pb.m_ss.m_Lm.length →
        (pb.Augment sqrt naug).2.m_ss.m_Lm.getD i vec3d.zero =
          (pb.m_ss.m_Lm.getD i vec3d.zero).add
            ((pb.m_ss.m_gap.getD i vec3d.zero).scale pb.m_eps)) ∧
      (∀ i : Nat, i < pb.m_ms.Nodes → i < pb.m_ms.m_Lm.length →
        (pb.Augment sqrt naug).2.m_ms.m_Lm.getD i vec3d.zero =
          (pb.m_ms.m_Lm.getD i vec3d.zero).add
            ((pb.m_ms.m_gap.getD i vec3d.zero).scale pb.m_eps))) ∧
    ((pb.Augment sqrt naug).1 = true → (pb.Augment sqrt naug).2 = pb) ∧
    (pb.Augment sqrt naug).2.m_ss.m_gap = pb.m_ss.m_gap ∧
    (pb.Augment sqrt naug).2.m_ms.m_gap = pb.m_ms.m_gap := by
  unfold FEPeriodicBoundary2O.Augment
  by_cases hon : pb.m_blaugon = false
  · simp [hon]
  · rw [if_neg hon]
    simp only []
    by_cases hc : augmentConverged pb (augmentNorms sqrt pb).pctn naug = false
    · rw [if_pos hc]
      refine ⟨fun _ => ⟨?_, ?_⟩, ?_, rfl, rfl⟩
      · intro i hi hlen
        have h := (foldl_updateMultipliers pb.m_eps pb.m_ss.m_gap pb.m_ss.Nodes
          pb.m_ss.m_Lm).2 i hlen
        rw [if_pos hi] at h
        exact h
      · intro i hi hlen
        have h := (foldl_updateMultipliers pb.m_eps pb.m_ms.m_gap pb.m_ms.Nodes
          pb.m_ms.m_Lm).2 i hlen
        rw [if_pos hi] at h
        exact h
      · intro h
        rw [hc] at h
        exact Bool.noConfusion h
    · rw [if_neg hc]
      refine ⟨fun h => absurd h hc, fun _ => rfl, rfl, rfl⟩

/-- Witness for C14: the sample boundary does not converge at `naug = 3` and its slave
multiplier goes from `(1,0,0)` to `(2,0,0)`. -/
theorem Augment_multipliers_witness :
    (sampleBoundary.Augment sampleSqrt 3).1 = false ∧
      (sampleBoundary.Augment sampleSqrt 3).2.m_ss.m_Lm.getD 0 vec3d.zero =
        (vec3d.mk 1 0 0).add ((vec3d.mk 1 0 0).scale 1) :=
  ⟨by decide!,
   ((Augment_multipliers sampleSqrt sampleBoundary 3).1 (by decide!)).1 0 (by decide)
      (by decide)⟩

/-- A loop that adds `f i` to an accumulator adds the sum of the `f i`. -/
theorem foldl_add_eq_sum {ι : Type} (f : ι → ℚ) (l : List ι) :
    ∀ acc : ℚ, l.foldl (fun a i => a + f i) acc = acc + (l.map f).sum := by
  induction l with
  | nil => intro acc; simp
  | cons a l ih =>
    intro acc
    rw [List.foldl_cons, ih, List.map_cons, List.sum_cons]
    ring

/-- The first component of the loop over `(normL1, normgc, N)` is the sum of the squared
updated multipliers. -/
theorem updatedNormSq_fst (sqrt : ℚ → ℚ) (eps : ℚ) (s : FEPeriodicSurface)
    (acc : ℚ × ℚ × Nat) :
    (updatedNormSq sqrt eps s acc).1 =
      acc.1 + ((List.range s.Nodes).map (fun i =>
        ((s.m_Lm.getD i vec3d.zero).add ((s.m_gap.getD i vec3d.zero).scale eps)).dot
          ((s.m_Lm.getD i vec3d.zero).add ((s.m_gap.getD i vec3d.zero).scale eps)))).sum := by
  unfold updatedNormSq
  generalize List.range s.Nodes = l
  induction l generalizing acc with
  | nil => simp
  | cons a l ih =>
    rw [List.foldl_cons, ih, List.map_cons, List.sum_cons]
    simp only []
    ring

/-- C15 (as stated, refuted): on the sample boundary (one node, `L_old = (1,0,0)`,
`gap = (1,0,0)`, `eps = 1`, so `L_new = (2,0,0)`) `Augment` compares `pctn = 1/2` with the
tolerance, while `‖L_new - L_old‖ / ‖L_old‖ = 1`. -/
theorem pctn_not_relative_change :
    (augmentNorms sampleSqrt sampleBoundary).pctn = 1/2 ∧
      specRelativeMultiplierChange sampleSqrt sampleBoundary = 1 ∧
      (augmentNorms sampleSqrt sampleBoundary).pctn ≠
        specRelativeMultiplierChange sampleSqrt sampleBoundary := by
  decide!

/-- C15 (amended): the quantity `Augment` compares with `atol` is the change of the
multiplier norm relative to the norm of the updated multipliers:
`pctn = |(‖L_new‖ - ‖L_old‖) / ‖L_new‖|` when `|‖L_new‖| > 1e-10` and `pctn = 0` otherwise,
where `L_old` collects the multipliers of all nodes of both surfaces and
`L_new = L_old + eps * gap`. -/
theorem pctn_is_norm_change (sqrt : ℚ → ℚ) (pb : FEPeriodicBoundary2O) :
    (augmentNorms sqrt pb).normL0 = oldMultiplierNorm sqrt pb ∧
    (augmentNorms sqrt pb).normL1 = newMultiplierNorm sqrt pb ∧
    (augmentNorms sqrt pb).pctn =
      if |newMultiplierNorm sqrt pb| > 1e-10 then
        |(newMultiplierNorm sqrt pb - oldMultiplierNorm sqrt pb) / newMultiplierNorm sqrt pb|
      else 0 := by
  have h0 : (augmentNorms sqrt pb).normL0 = oldMultiplierNorm sqrt pb := by
    show sqrt (multiplierNormSq pb.m_ms (multiplierNormSq pb.m_ss 0)) = _
    unfold multiplierNormSq oldMultiplierNorm
    rw [foldl_add_eq_sum, foldl_add_eq_sum, zero_add]
  have h1 : (augmentNorms sqrt pb).normL1 = newMultiplierNorm sqrt pb := by
    show sqrt (updatedNormSq sqrt pb.m_eps pb.m_ms
      (updatedNormSq sqrt pb.m_eps pb.m_ss (0, 0, 0))).1 = _
    unfold newMultiplierNorm
    rw [updatedNormSq_fst, updatedNormSq_fst, zero_add]
  refine ⟨h0, h1, ?_⟩
  rw [← h0, ← h1]
  rfl

/-- C16 (as stated, refuted): with the constructor defaults (tolerance `0`) and augmentation
on, no count `N` exists from which `Augment(naug)` reports convergence: `pctn ≥ 0 = atol`
fails the tolerance test at every `naug`. -/
theorem augmentation_never_capped :
    ¬ ∃ N : Int, ∀ naug : Int, N ≤ naug →
      (defaultBoundary.Augment sampleSqrt naug).1 = true := by
  rintro ⟨N, h⟩
  have h1 := h N (le_refl N)
  rw [Augment_fst sampleSqrt defaultBoundary N rfl, augmentConverged_iff] at h1
  have h2 : defaultBoundary.m_atol = 0 := rfl
  have h3 := pctn_nonneg sampleSqrt defaultBoundary
  rw [h2] at h1
  exact absurd h1.1 (not_lt.mpr h3)

/-- C16 (amended): `Augment` has no maximum augmentation count. With augmentation on, the
return value depends on `naug` only through the test `naugmin > naug`: when `pctn < atol`
every call with `naug ≥ naugmin` reports convergence, and when `pctn ≥ atol` every call, for
every `naug`, reports non-convergence. -/
theorem Augment_has_no_cap (sqrt : ℚ → ℚ) (pb : FEPeriodicBoundary2O)
    (hon : pb.m_blaugon = true) :
    ((augmentNorms sqrt pb).pctn < pb.m_atol →
      ∀ naug : Int, pb.m_naugmin ≤ naug → (pb.Augment sqrt naug).1 = true) ∧
    ((augmentNorms sqrt pb).pctn ≥ pb.m_atol →
      ∀ naug : Int, (pb.Augment sqrt naug).1 = false) := by
  constructor
  · intro h naug hn
    rw [Augment_fst sqrt pb naug hon, augmentConverged_iff]
    exact ⟨h, hn⟩
  · intro h naug
    have hne : ¬ (pb.Augment sqrt naug).1 = true := by
      rw [Augment_fst sqrt pb naug hon, augmentConverged_iff]
      intro hc
      exact absurd hc.1 (not_lt.mpr h)
    simpa using hne

/-- Witness for the amended C16: the sample boundary has `pctn = 1/2 ≥ atol = 1/5` and does
not converge at `naug = 100`. -/
theorem Augment_has_no_cap_witness :
    (sampleBoundary.Augment sampleSqrt 100).1 = false :=
  (Augment_has_no_cap sampleSqrt sampleBoundary rfl).2 (by decide!) 100

/-! ## Contact forces of the periodic boundary -/

/-- The element force vector for a three-node master element, entry by entry. -/
theorem elementForce_three (detJ w : ℚ) (tc : vec3d) (N : List ℚ) :
    elementForce detJ w tc N 3 =
      [-detJ * w * tc.x, -detJ * w * tc.y, -detJ * w * tc.z,
       detJ * w * tc.x * N.getD 0 0, detJ * w * tc.y * N.getD 0 0, detJ * w * tc.z * N.getD 0 0,
       detJ * w * tc.x * N.getD 1 0, detJ * w * tc.y * N.getD 1 0, detJ * w * tc.z * N.getD 1 0,
       detJ * w * tc.x * N.getD 2 0, detJ * w * tc.y * N.getD 2 0,
       detJ * w * tc.z * N.getD 2 0] := by
  rfl

/-- The element force vector for a four-node master element, entry by entry. -/
theorem elementForce_four (detJ w : ℚ) (tc : vec3d) (N : List ℚ) :
    elementForce detJ w tc N 4 =
      [-detJ * w * tc.x, -detJ * w * tc.y, -detJ * w * tc.z,
       detJ * w * tc.x * N.getD 0 0, detJ * w * tc.y * N.getD 0 0, detJ * w * tc.z * N.getD 0 0,
       detJ * w * tc.x * N.getD 1 0, detJ * w * tc.y * N.getD 1 0, detJ * w * tc.z * N.getD 1 0,
       detJ * w * tc.x * N.getD 2 0, detJ * w * tc.y * N.getD 2 0, detJ * w * tc.z * N.getD 2 0,
       detJ * w * tc.x * N.getD 3 0, detJ * w * tc.y * N.getD 3 0,
       detJ * w * tc.z * N.getD 3 0] := by
  rfl

/-- The entries of the element force vector for a master element with three or four nodes:
`-detJ*w*t` on the slave node and `detJ*w*N_l*t` on the `l`-th master node. -/
theorem elementForce_entries (detJ w : ℚ) (tc : vec3d) (N : List ℚ) (nmeln : Nat)
    (hn : nmeln = 3 ∨ nmeln = 4) :
    (elementForce detJ w tc N nmeln).length = 3 * (nmeln + 1) ∧
    (elementForce detJ w tc N nmeln).getD 0 0 = -detJ * w * tc.x ∧
    (elementForce detJ w tc N nmeln).getD 1 0 = -detJ * w * tc.y ∧
    (elementForce detJ w tc N nmeln).getD 2 0 = -detJ * w * tc.z ∧
    ∀ l : Nat, l < nmeln →
      (elementForce detJ w tc N nmeln).getD (3 * (l + 1)) 0 = detJ * w * tc.x * N.getD l 0 ∧
      (elementForce detJ w tc N nmeln).getD (3 * (l + 1) + 1) 0 =
        detJ * w * tc.y * N.getD l 0 ∧
      (elementForce detJ w tc N nmeln).getD (3 * (l + 1) + 2) 0 =
        detJ * w * tc.z * N.getD l 0 := by
  rcases hn with h | h
  · subst h
    rw [elementForce_three]
    refine ⟨rfl, rfl, rfl, rfl, ?_⟩
    intro l hl
    interval_cases l <;> exact ⟨rfl, rfl, rfl⟩
  · subst h
    rw [elementForce_four]
    refine ⟨rfl, rfl, rfl, rfl, ?_⟩
    intro l hl
    interval_cases l <;> exact ⟨rfl, rfl, rfl⟩

/-- The node list of an element force for a master element with three or four nodes: the
slave node first, then the master nodes in order. -/
theorem elementNodes_entries (sel mel : FESurfaceElement) (n nmeln : Nat)
    (hn : nmeln = 3 ∨ nmeln = 4) :
    (elementNodes sel mel n nmeln).getD 0 0 = sel.m_node.getD n 0 ∧
    ∀ l : Nat, l < nmeln → (elementNodes sel mel n nmeln).getD (l + 1) 0 = mel.m_node.getD l 0 := by
  rcases hn with h | h
  · subst h
    refine ⟨rfl, ?_⟩
    intro l hl
    interval_cases l <;> rfl
  · subst h
    refine ⟨rfl, ?_⟩
    intro l hl
    interval_cases l <;> rfl

/-! ## Loops that may stop with an error -/

/-- A property that every successful step of a loop keeps holds after the loop. -/
theorem foldlM_keeps {σ ι : Type} (f : σ → ι → Option σ) (P : σ → Prop) (l : List ι)
    (hP : ∀ st i st', i ∈ l → P st → f st i = some st' → P st') :
    ∀ st res, P st → l.foldlM f st = some res → P res := by
  induction l with
  | nil =>
    intro st res hst h
    simp only [List.foldlM_nil] at h
    cases h
    exact hst
  | cons a l ih =>
    intro st res hst h
    rw [List.foldlM_cons] at h
    cases hfa : f st a with
    | none => rw [hfa] at h; cases h
    | some st1 =>
      rw [hfa] at h
      exact ih (fun st i st' hi => hP st i st' (List.mem_cons_of_mem a hi)) st1 res
        (hP st a st1 (List.mem_cons_self a l) hst hfa) h

/-- A property that the step at `i0` establishes and that all steps keep holds after a loop
that visits `i0`. -/
theorem foldlM_establishes {σ ι : Type} (f : σ → ι → Option σ) (Inv Q : σ → Prop)
    (l : List ι) (i0 : ι) (hmem : i0 ∈ l)
    (hInv : ∀ st i st', i ∈ l → Inv st → f st i = some st' → Inv st')
    (hQ : ∀ st i st', i ∈ l → Inv st → Q st → f st i = some st' → Q st')
    (hest : ∀ st st', Inv st → f st i0 = some st' → Q st') :
    ∀ st res, Inv st → l.foldlM f st = some res → Q res := by
  induction l with
  | nil => exact absurd hmem (List.not_mem_nil i0)
  | cons a l ih =>
    intro st res hst h
    rw [List.foldlM_cons] at h
    cases hfa : f st a with
    | none => rw [hfa] at h; cases h
    | some st1 =>
      rw [hfa] at h
      have hInv1 : Inv st1 := hInv st a st1 (List.mem_cons_self a l) hst hfa
      by_cases hq1 : Q st1
      · have := foldlM_keeps f (fun s => Inv s ∧ Q s) l
          (fun s i s' hi hs hf =>
            ⟨hInv s i s' (List.mem_cons_of_mem a hi) hs.1 hf,
             hQ s i s' (List.mem_cons_of_mem a hi) hs.1 hs.2 hf⟩)
          st1 res ⟨hInv1, hq1⟩ h
        exact this.2
      · rcases List.mem_cons.mp hmem with heq | hin
        · subst heq
          exact absurd (hest st st1 hst hfa) hq1
        · exact ih hin (fun s i s' hi => hInv s i s' (List.mem_cons_of_mem a hi))
            (fun s i s' hi => hQ s i s' (List.mem_cons_of_mem a hi)) st1 res hInv1 h

/-- A loop stops with an error when it visits an index at which the step fails in every
state that the successful steps can lead to. -/
theorem foldlM_fails {σ ι : Type} (f : σ → ι → Option σ) (Inv : σ → Prop)
    (l : List ι) (i0 : ι) (hmem : i0 ∈ l)
    (hInv : ∀ st i st', i ∈ l → Inv st → f st i = some st' → Inv st')
    (hfail : ∀ st, Inv st → f st i0 = none) :
    ∀ st, Inv st → l.foldlM f st = none := by
  induction l with
  | nil => exact absurd hmem (List.not_mem_nil i0)
  | cons a l ih =>
    intro st hst
    rw [List.foldlM_cons]
    cases hfa : f st a with
    | none => rfl
    | some st1 =>
      have hInv1 : Inv st1 := hInv st a st1 (List.mem_cons_self a l) hst hfa
      rcases List.mem_cons.mp hmem with heq | hin
      · subst heq
        rw [hfail st hst] at hfa
        cases hfa
      · exact ih hin (fun s i s' hi => hInv s i s' (List.mem_cons_of_mem a hi)) st1 hInv1

/-- A loop completes when every step succeeds in every state that the successful steps can
lead to. -/
theorem foldlM_completes {σ ι : Type} (f : σ → ι → Option σ) (Inv : σ → Prop)
    (l : List ι)
    (hstep : ∀ st i, i ∈ l → Inv st → ∃ st', f st i = some st' ∧ Inv st') :
    ∀ st, Inv st → ∃ res, l.foldlM f st = some res ∧ Inv res := by
  induction l with
  | nil =>
    intro st hst
    exact ⟨st, rfl, hst⟩
  | cons a l ih =>
    intro st hst
    obtain ⟨st1, hfa, hInv1⟩ := hstep st a (List.mem_cons_self a l) hst
    obtain ⟨res, hres, hInvr⟩ :=
      ih (fun s i hi => hstep s i (List.mem_cons_of_mem a hi)) st1 hInv1
    refine ⟨res, ?_, hInvr⟩
    rw [List.foldlM_cons, hfa]
    exact hres

/-- The body of the integration point loop of `ContactForces` when the master element is
there and has its shape functions: what it stores and what it assembles. -/
theorem forcePoint_eq (sqrt : ℚ → ℚ) (pb : FEPeriodicBoundary2O) (mesh : List FEMeshNode)
    (sel : FESurfaceElement) (st : FEPeriodicSurface × List ForceAssembly) (n : Nat)
    (mel : FESurfaceElement) (N : List ℚ)
    (hpme : st.1.m_pme.getD (sel.m_lnode.getD n 0) none = some mel)
    (hN : masterShape mel.Nodes (st.1.m_rs.getD (sel.m_lnode.getD n 0) (0, 0)).1
      (st.1.m_rs.getD (sel.m_lnode.getD n 0) (0, 0)).2 = some N) :
    forcePoint sqrt pb mesh sel st n =
      some ({ st.1 with
              m_Tn := st.1.m_Tn.set (sel.m_lnode.getD n 0)
                (traction pb st.1 (sel.m_lnode.getD n 0)),
              m_Fr := st.1.m_Fr.set (sel.m_lnode.getD n 0)
                ⟨(st.1.m_Fr.getD (sel.m_lnode.getD n 0) vec3d.zero).x +
                    (elementForce (pointJacobian sqrt mesh sel n) (sel.GaussWeights.getD n 0)
                      (traction pb st.1 (sel.m_lnode.getD n 0)) N mel.Nodes).getD 0 0,
                 (st.1.m_Fr.getD (sel.m_lnode.getD n 0) vec3d.zero).y +
                    (elementForce (pointJacobian sqrt mesh sel n) (sel.GaussWeights.getD n 0)
                      (traction pb st.1 (sel.m_lnode.getD n 0)) N mel.Nodes).getD 1 0,
                 (st.1.m_Fr.getD (sel.m_lnode.getD n 0) vec3d.zero).z +
                    (elementForce (pointJacobian sqrt mesh sel n) (sel.GaussWeights.getD n 0)
                      (traction pb st.1 (sel.m_lnode.getD n 0)) N mel.Nodes).getD 2 0⟩ },
            st.2 ++ [⟨elementNodes sel mel n mel.Nodes,
              elementLM (UnpackLM mesh sel) (UnpackLM mesh mel) n mel.Nodes,
              elementForce (pointJacobian sqrt mesh sel n) (sel.GaussWeights.getD n 0)
                (traction pb st.1 (sel.m_lnode.getD n 0)) N mel.Nodes⟩]) := by
  unfold forcePoint
  dsimp only
  rw [hpme]
  dsimp only
  rw [hN]

/-- A successful run of the body of the integration point loop of `ContactForces` had a
master element with shape functions, left multipliers, gaps and projection data alone and
stored the traction of the node in `m_Tn`. -/
theorem forcePoint_data (sqrt : ℚ → ℚ) (pb : FEPeriodicBoundary2O) (mesh : List FEMeshNode)
    (sel : FESurfaceElement) (st st' : FEPeriodicSurface × List ForceAssembly) (n : Nat)
    (h : forcePoint sqrt pb mesh sel st n = some st') :
    st'.1.m_Lm = st.1.m_Lm ∧ st'.1.m_gap = st.1.m_gap ∧ st'.1.m_pme = st.1.m_pme ∧
      st'.1.m_rs = st.1.m_rs ∧
      st'.1.m_Tn = st.1.m_Tn.set (sel.m_lnode.getD n 0)
        (traction pb st.1 (sel.m_lnode.getD n 0)) := by
  cases hpme : st.1.m_pme.getD (sel.m_lnode.getD n 0) none with
  | none =>
    have : forcePoint sqrt pb mesh sel st n = none := by
      unfold forcePoint
      dsimp only
      rw [hpme]
    rw [this] at h
    cases h
  | some mel =>
    cases hN : masterShape mel.Nodes (st.1.m_rs.getD (sel.m_lnode.getD n 0) (0, 0)).1
        (st.1.m_rs.getD (sel.m_lnode.getD n 0) (0, 0)).2 with
    | none =>
      have : forcePoint sqrt pb mesh sel st n = none := by
        unfold forcePoint
        dsimp only
        rw [hpme]
        dsimp only
        rw [hN]
      rw [this] at h
      cases h
    | some N =>
      rw [forcePoint_eq sqrt pb mesh sel st n mel N hpme hN] at h
      cases h
      exact ⟨rfl, rfl, rfl, rfl, rfl⟩

/-- The traction of a node depends on the multipliers and gaps only. -/
theorem traction_congr (pb : FEPeriodicBoundary2O) (s t : FEPeriodicSurface) (m : Nat)
    (hL : s.m_Lm = t.m_Lm) (hg : s.m_gap = t.m_gap) : traction pb s m = traction pb t m := by
  unfold traction
  rw [hL, hg]

/-- After the loops of `ContactForces` over one slave surface have completed, multipliers
and gaps are as before and every node visited carries its traction in `m_Tn`. -/
theorem forceSurface_tractions (sqrt : ℚ → ℚ) (pb : FEPeriodicBoundary2O)
    (mesh : List FEMeshNode) (ss : FEPeriodicSurface) (R : List ForceAssembly)
    (res : FEPeriodicSurface × List ForceAssembly)
    (h : forceSurface sqrt pb mesh ss R = some res) :
    res.1.m_Lm = ss.m_Lm ∧ res.1.m_gap = ss.m_gap ∧
    ∀ sel ∈ ss.m_el, ∀ n : Nat, n < sel.Nodes → sel.m_lnode.getD n 0 < ss.m_Tn.length →
      res.1.m_Tn.getD (sel.m_lnode.getD n 0) vec3d.zero =
        traction pb ss (sel.m_lnode.getD n 0) := by
  have hInvP : ∀ (sel : FESurfaceElement) (st : FEPeriodicSurface × List ForceAssembly)
      (i : Nat) (st' : FEPeriodicSurface × List ForceAssembly),
      (st.1.m_Lm = ss.m_Lm ∧ st.1.m_gap = ss.m_gap ∧ st.1.m_Tn.length = ss.m_Tn.length) →
      forcePoint sqrt pb mesh sel st i = some st' →
      (st'.1.m_Lm = ss.m_Lm ∧ st'.1.m_gap = ss.m_gap ∧
        st'.1.m_Tn.length = ss.m_Tn.length) := by
    intro sel st i st' hst hf
    obtain ⟨h1, h2, _, _, h5⟩ := forcePoint_data sqrt pb mesh sel st st' i hf
    refine ⟨h1.trans hst.1, h2.trans hst.2.1, ?_⟩
    rw [h5, List.length_set]
    exact hst.2.2
  have hInvF : ∀ (st : FEPeriodicSurface × List ForceAssembly) (sel : FESurfaceElement)
      (st' : FEPeriodicSurface × List ForceAssembly),
      (st.1.m_Lm = ss.m_Lm ∧ st.1.m_gap = ss.m_gap ∧ st.1.m_Tn.length = ss.m_Tn.length) →
      (List.range sel.Nodes).foldlM (forcePoint sqrt pb mesh sel) st = some st' →
      (st'.1.m_Lm = ss.m_Lm ∧ st'.1.m_gap = ss.m_gap ∧
        st'.1.m_Tn.length = ss.m_Tn.length) := by
    intro st sel st' hst hf
    exact foldlM_keeps (forcePoint sqrt pb mesh sel) _ (List.range sel.Nodes)
      (fun s i s' _ hs hfs => hInvP sel s i s' hs hfs) st st' hst hf
  have hinit : (({ ss with m_Fr := List.replicate ss.m_Fr.length vec3d.zero } :
      FEPeriodicSurface), R).1.m_Lm = ss.m_Lm ∧
      (({ ss with m_Fr := List.replicate ss.m_Fr.length vec3d.zero } :
        FEPeriodicSurface), R).1.m_gap = ss.m_gap ∧
      (({ ss with m_Fr := List.replicate ss.m_Fr.length vec3d.zero } :
        FEPeriodicSurface), R).1.m_Tn.length = ss.m_Tn.length := ⟨rfl, rfl, rfl⟩
  have h' : ss.m_el.foldlM
      (fun (st : FEPeriodicSurface × List ForceAssembly) (sel : FESurfaceElement) =>
        (List.range sel.Nodes).foldlM (forcePoint sqrt pb mesh sel) st)
      (({ ss with m_Fr := List.replicate ss.m_Fr.length vec3d.zero } : FEPeriodicSurface), R) =
      some res := h
  have hfinal := foldlM_keeps
    (fun (st : FEPeriodicSurface × List ForceAssembly) (sel : FESurfaceElement) =>
      (List.range sel.Nodes).foldlM (forcePoint sqrt pb mesh sel) st)
    (fun st => st.1.m_Lm = ss.m_Lm ∧ st.1.m_gap = ss.m_gap ∧
      st.1.m_Tn.length = ss.m_Tn.length) ss.m_el
    (fun s sel s' _ hs hfs => hInvF s sel s' hs hfs) _ res hinit h'
  refine ⟨hfinal.1, hfinal.2.1, ?_⟩
  intro sel0 hsel0 n0 hn0 hm0
  -- the traction of the node, once stored, stays
  have hQP : ∀ (sel : FESurfaceElement) (st : FEPeriodicSurface × List ForceAssembly)
      (i : Nat) (st' : FEPeriodicSurface × List ForceAssembly),
      (st.1.m_Lm = ss.m_Lm ∧ st.1.m_gap = ss.m_gap ∧ st.1.m_Tn.length = ss.m_Tn.length) →
      st.1.m_Tn.getD (sel0.m_lnode.getD n0 0) vec3d.zero =
        traction pb ss (sel0.m_lnode.getD n0 0) →
      forcePoint sqrt pb mesh sel st i = some st' →
      st'.1.m_Tn.getD (sel0.m_lnode.getD n0 0) vec3d.zero =
        traction pb ss (sel0.m_lnode.getD n0 0) := by
    intro sel st i st' hst hq hf
    obtain ⟨_, _, _, _, h5⟩ := forcePoint_data sqrt pb mesh sel st st' i hf
    rw [h5, getD_set_any]
    split_ifs with hc
    · rw [hc.1]
      exact traction_congr pb st.1 ss _ hst.1 hst.2.1
    · exact hq
  have hestP : ∀ (st st' : FEPeriodicSurface × List ForceAssembly),
      (st.1.m_Lm = ss.m_Lm ∧ st.1.m_gap = ss.m_gap ∧ st.1.m_Tn.length = ss.m_Tn.length) →
      forcePoint sqrt pb mesh sel0 st n0 = some st' →
      st'.1.m_Tn.getD (sel0.m_lnode.getD n0 0) vec3d.zero =
        traction pb ss (sel0.m_lnode.getD n0 0) := by
    intro st st' hst hf
    obtain ⟨_, _, _, _, h5⟩ := forcePoint_data sqrt pb mesh sel0 st st' n0 hf
    rw [h5, getD_set_any, if_pos ⟨rfl, by rw [hst.2.2]; exact hm0⟩]
    exact traction_congr pb st.1 ss _ hst.1 hst.2.1
  exact foldlM_establishes
    (fun (st : FEPeriodicSurface × List ForceAssembly) (sel : FESurfaceElement) =>
      (List.range sel.Nodes).foldlM (forcePoint sqrt pb mesh sel) st)
    (fun st => st.1.m_Lm = ss.m_Lm ∧ st.1.m_gap = ss.m_gap ∧
      st.1.m_Tn.length = ss.m_Tn.length)
    (fun st => st.1.m_Tn.getD (sel0.m_lnode.getD n0 0) vec3d.zero =
      traction pb ss (sel0.m_lnode.getD n0 0))
    ss.m_el sel0 hsel0
    (fun s sel s' _ hs hfs => hInvF s sel s' hs hfs)
    (fun s sel s' _ hs hq hfs =>
      (foldlM_keeps (forcePoint sqrt pb mesh sel)
        (fun t => (t.1.m_Lm = ss.m_Lm ∧ t.1.m_gap = ss.m_gap ∧
          t.1.m_Tn.length = ss.m_Tn.length) ∧
          t.1.m_Tn.getD (sel0.m_lnode.getD n0 0) vec3d.zero =
            traction pb ss (sel0.m_lnode.getD n0 0))
        (List.range sel.Nodes)
        (fun t i t' _ ht hft => ⟨hInvP sel t i t' ht.1 hft, hQP sel t i t' ht.1 ht.2 hft⟩)
        s s' ⟨hs, hq⟩ hfs).2)
    (fun s s' hs hfs =>
      foldlM_establishes (forcePoint sqrt pb mesh sel0) _ _ (List.range sel0.Nodes) n0
        (List.mem_range.mpr hn0)
        (fun t i t' _ ht hft => hInvP sel0 t i t' ht hft)
        (fun t i t' _ ht hq hft => hQP sel0 t i t' ht hq hft)
        hestP s s' hs hfs)
    _ res hinit h'

/-- A call of `ContactForces` that completes has completed the loops over the slave surface
`m_ss` and, in two-pass mode, over `m_ms`; each surface is left as its loops made it. -/
theorem ContactForces_passes (sqrt : ℚ → ℚ) (pb : FEPeriodicBoundary2O)
    (mesh : List FEMeshNode) (R : List ForceAssembly)
    (res : FEPeriodicBoundary2O × List ForceAssembly)
    (h : pb.ContactForces sqrt mesh R = some res) :
    ∃ r1, forceSurface sqrt pb mesh pb.m_ss R = some r1 ∧ res.1.m_ss = r1.1 ∧
      (pb.m_btwo_pass = true →
        ∃ r2, forceSurface sqrt pb mesh pb.m_ms r1.2 = some r2 ∧ res.1.m_ms = r2.1) := by
  unfold FEPeriodicBoundary2O.ContactForces at h
  cases h1 : forceSurface sqrt pb mesh pb.m_ss R with
  | none =>
    rw [h1] at h
    cases h
  | some r1 =>
    rw [h1] at h
    obtain ⟨ss, R1⟩ := r1
    dsimp only at h
    cases htp : pb.m_btwo_pass with
    | false =>
      rw [htp] at h
      simp only [Bool.false_eq_true, if_false] at h
      cases h
      exact ⟨(ss, R1), rfl, rfl, fun hc => Bool.noConfusion hc⟩
    | true =>
      rw [htp] at h
      simp only [if_true] at h
      cases h2 : forceSurface sqrt pb mesh pb.m_ms R1 with
      | none =>
        rw [h2] at h
        cases h
      | some r2 =>
        rw [h2] at h
        obtain ⟨ms, R2⟩ := r2
        dsimp only at h
        cases h
        exact ⟨(ss, R1), rfl, rfl, fun _ => ⟨(ms, R2), h2, rfl⟩⟩

/-- C18: in `ContactForces`, the body run for the `n`-th node of a slave facet whose node
`m` has a master element with three or four nodes completes, stores the traction
`t = m_Lm[m] + m_eps * m_gap[m]` (componentwise) in `m_Tn[m]`, and assembles one force
vector with `-detJ*w*t` on the slave node and `detJ*w*N_l*t` on the `l`-th node of the master
element, where `N_l` are the bilinear (four nodes) or linear (three nodes) shape functions at
the stored projection coordinates. After a call of `ContactForces` that completes, every node
`m` of every facet of the slave surface (and, in two-pass mode, of the master surface)
carries this traction in `m_Tn[m]`. -/
theorem contact_force_traction (sqrt : ℚ → ℚ) (pb : FEPeriodicBoundary2O)
    (mesh : List FEMeshNode) :
    (∀ (sel mel : FESurfaceElement) (st : FEPeriodicSurface × List ForceAssembly) (n : Nat),
      st.1.m_pme.getD (sel.m_lnode.getD n 0) none = some mel →
      (mel.Nodes = 3 ∨ mel.Nodes = 4) →
      ∃ (N : List ℚ) (st' : FEPeriodicSurface × List ForceAssembly) (rec : ForceAssembly),
        masterShape mel.Nodes (st.1.m_rs.getD (sel.m_lnode.getD n 0) (0, 0)).1
          (st.1.m_rs.getD (sel.m_lnode.getD n 0) (0, 0)).2 = some N ∧
        forcePoint sqrt pb mesh sel st n = some st' ∧
        st'.1.m_Tn = st.1.m_Tn.set (sel.m_lnode.getD n 0)
          (traction pb st.1 (sel.m_lnode.getD n 0)) ∧
        st'.2 = st.2 ++ [rec] ∧
        rec.fe.length = 3 * (mel.Nodes + 1) ∧
        rec.en.getD 0 0 = sel.m_node.getD n 0 ∧
        rec.fe.getD 0 0 = -pointJacobian sqrt mesh sel n * sel.GaussWeights.getD n 0 *
          (traction pb st.1 (sel.m_lnode.getD n 0)).x ∧
        rec.fe.getD 1 0 = -pointJacobian sqrt mesh sel n * sel.GaussWeights.getD n 0 *
          (traction pb st.1 (sel.m_lnode.getD n 0)).y ∧
        rec.fe.getD 2 0 = -pointJacobian sqrt mesh sel n * sel.GaussWeights.getD n 0 *
          (traction pb st.1 (sel.m_lnode.getD n 0)).z ∧
        ∀ l : Nat, l < mel.Nodes →
          rec.en.getD (l + 1) 0 = mel.m_node.getD l 0 ∧
          rec.fe.getD (3 * (l + 1)) 0 =
            pointJacobian sqrt mesh sel n * sel.GaussWeights.getD n 0 *
              (traction pb st.1 (sel.m_lnode.getD n 0)).x * N.getD l 0 ∧
          rec.fe.getD (3 * (l + 1) + 1) 0 =
            pointJacobian sqrt mesh sel n * sel.GaussWeights.getD n 0 *
              (traction pb st.1 (sel.m_lnode.getD n 0)).y * N.getD l 0 ∧
          rec.fe.getD (3 * (l + 1) + 2) 0 =
            pointJacobian sqrt mesh sel n * sel.GaussWeights.getD n 0 *
              (traction pb st.1 (sel.m_lnode.getD n 0)).z * N.getD l 0) ∧
    (∀ (ss : FEPeriodicSurface) (m : Nat),
      traction pb ss m =
        ⟨(ss.m_Lm.getD m vec3d.zero).x + (ss.m_gap.getD m vec3d.zero).x * pb.m_eps,
         (ss.m_Lm.getD m vec3d.zero).y + (ss.m_gap.getD m vec3d.zero).y * pb.m_eps,
         (ss.m_Lm.getD m vec3d.zero).z + (ss.m_gap.getD m vec3d.zero).z * pb.m_eps⟩) ∧
    (∀ r s : ℚ,
      masterShape 4 r s =
        some [0.25 * (1 - r) * (1 - s), 0.25 * (1 + r) * (1 - s), 0.25 * (1 + r) * (1 + s),
          0.25 * (1 - r) * (1 + s)] ∧
      masterShape 3 r s = some [1 - r - s, r, s]) ∧
    (∀ (R : List ForceAssembly) (res : FEPeriodicBoundary2O × List ForceAssembly),
      pb.ContactForces sqrt mesh R = some res →
      (∀ sel ∈ pb.m_ss.m_el, ∀ n : Nat, n < sel.Nodes →
        sel.m_lnode.getD n 0 < pb.m_ss.m_Tn.length →
        res.1.m_ss.m_Tn.getD (sel.m_lnode.getD n 0) vec3d.zero =
          traction pb pb.m_ss (sel.m_lnode.getD n 0)) ∧
      (pb.m_btwo_pass = true →
        ∀ sel ∈ pb.m_ms.m_el, ∀ n : Nat, n < sel.Nodes →
          sel.m_lnode.getD n 0 < pb.m_ms.m_Tn.length →
          res.1.m_ms.m_Tn.getD (sel.m_lnode.getD n 0) vec3d.zero =
            traction pb pb.m_ms (sel.m_lnode.getD n 0))) := by
  refine ⟨?_, fun _ _ => rfl, fun _ _ => ⟨rfl, rfl⟩, ?_⟩
  · intro sel mel st n hpme hn
    have hN : ∃ N, masterShape mel.Nodes (st.1.m_rs.getD (sel.m_lnode.getD n 0) (0, 0)).1
        (st.1.m_rs.getD (sel.m_lnode.getD n 0) (0, 0)).2 = some N := by
      rcases hn with h | h
      · rw [h]; exact ⟨_, rfl⟩
      · rw [h]; exact ⟨_, rfl⟩
    obtain ⟨N, hN⟩ := hN
    obtain ⟨hlen, h0, h1, h2, hl⟩ :=
      elementForce_entries (pointJacobian sqrt mesh sel n) (sel.GaussWeights.getD n 0)
        (traction pb st.1 (sel.m_lnode.getD n 0)) N mel.Nodes hn
    obtain ⟨he0, hel⟩ := elementNodes_entries sel mel n mel.Nodes hn
    refine ⟨N, _, _, hN, forcePoint_eq sqrt pb mesh sel st n mel N hpme hN, rfl, rfl, hlen,
      he0, h0, h1, h2, ?_⟩
    intro l hlt
    exact ⟨hel l hlt, hl l hlt⟩
  · intro R res h
    obtain ⟨r1, h1, hs1, h2⟩ := ContactForces_passes sqrt pb mesh R res h
    constructor
    · intro sel hsel n hn hm
      rw [hs1]
      exact (forceSurface_tractions sqrt pb mesh pb.m_ss R r1 h1).2.2 sel hsel n hn hm
    · intro htp sel hsel n hn hm
      obtain ⟨r2, h3, hs2⟩ := h2 htp
      rw [hs2]
      exact (forceSurface_tractions sqrt pb mesh pb.m_ms r1.2 r2 h3).2.2 sel hsel n hn hm

/-- Witness for C18: on the sample boundary `ContactForces` completes and the first slave
node carries the traction `(1,0,0) + 2 * (1/2,0,0) = (2,0,0)`. -/
theorem contact_force_traction_witness :
    ∃ res, contactBoundary.ContactForces sampleSqrt sampleMesh [] = some res ∧
      res.1.m_ss.m_Tn.getD 0 vec3d.zero = traction contactBoundary sampleSlave 0 := by
  cases h : contactBoundary.ContactForces sampleSqrt sampleMesh [] with
  | none =>
    have hs : (contactBoundary.ContactForces sampleSqrt sampleMesh []).isSome = true := by
      decide!
    rw [h] at hs
    cases hs
  | some res =>
    exact ⟨res, rfl,
      ((contact_force_traction sampleSqrt contactBoundary sampleMesh).2.2.2 [] res h).1
        (triangle 0 1 2) (List.mem_cons_self _ _) 0 (by decide) (by decide)⟩

/-! ## The stiffness of the periodic boundary as linearization of its force -/

/-- The displacement-like quantity of a moved node. -/
theorem nodalW_moveNode (pb : FEPeriodicBoundary2O) (node : FEMeshNode) (d : vec3d) :
    nodalW pb (moveNode node d) = (nodalW pb node).add d := by
  unfold nodalW moveNode vec3d.add vec3d.sub vec3d.scale
  simp only [vec3d.mk.injEq]
  refine ⟨?_, ?_, ?_⟩ <;> ring

/-- The body of the node loop of `Update` when the master element is there: the gap stored
is `pointGap` of the slave node and the master element nodes. -/
theorem updateGap_eq (pb : FEPeriodicBoundary2O) (mesh : List FEMeshNode)
    (ms ss : FEPeriodicSurface) (i : Nat) (pme : FESurfaceElement)
    (hpme : ss.m_pme.getD i none = some pme) :
    updateGap pb mesh ms ss i =
      some { ss with
        m_gap := ss.m_gap.set i
          (pointGap pb (ss.Node mesh i)
            ((List.range pme.Nodes).map (fun j => ms.Node mesh (pme.m_lnode.getD j 0))) pme
            (ss.m_rs.getD i (0, 0)).1 (ss.m_rs.getD i (0, 0)).2) } := by
  unfold updateGap
  rw [hpme]

/-- The body of the integration point loop of `ContactStiffness` when the master element is
there and has its shape functions: the matrix assembled is `elementStiffness`, with the same
weight, Jacobian and shape function values as the force of `ContactForces`. -/
theorem stiffnessPoint_eq (sqrt : ℚ → ℚ) (pb : FEPeriodicBoundary2O) (mesh : List FEMeshNode)
    (ss : FEPeriodicSurface) (se : FESurfaceElement) (K : List StiffnessAssembly) (n : Nat)
    (me : FESurfaceElement) (H : List ℚ)
    (hpme : ss.m_pme.getD (se.m_lnode.getD n 0) none = some me)
    (hH : masterShape me.Nodes (ss.m_rs.getD (se.m_lnode.getD n 0) (0, 0)).1
      (ss.m_rs.getD (se.m_lnode.getD n 0) (0, 0)).2 = some H) :
    stiffnessPoint sqrt pb mesh ss se K n =
      some (K ++ [⟨elementNodes se me n me.Nodes,
        elementLM (UnpackLM mesh se) (UnpackLM mesh me) n me.Nodes, 3 * (1 + me.Nodes),
        elementStiffness (se.GaussWeights.getD n 0) (pointJacobian sqrt mesh se n) pb.m_eps H
          me.Nodes⟩]) := by
  unfold stiffnessPoint
  dsimp only
  rw [hpme]
  dsimp only
  rw [hH]

/-- The linearization for a master element with three nodes, row by row. -/
theorem linearization_three (pb : FEPeriodicBoundary2O) (detJ w : ℚ) (Lm : vec3d)
    (mel : FESurfaceElement) (r s : ℚ) (slave : FEMeshNode) (masters : List FEMeshNode)
    (ds : vec3d) (dm : List vec3d) (hn : mel.Nodes = 3) (i : Nat) (hi : i < 12) :
    (elementForceAt pb detJ w Lm mel r s (moveNode slave ds) (moveNodes 3 masters dm)).getD
        i 0 =
      (elementForceAt pb detJ w Lm mel r s slave masters).getD i 0 -
        ∑ j ∈ Finset.range 12,
          elementStiffness w detJ pb.m_eps (mel.H r s) 3 i j *
            (positionChange 3 ds dm).getD j 0 := by
  unfold elementForceAt
  rw [hn, elementForce_three, elementForce_three]
  interval_cases i
  all_goals
    simp [Finset.sum_range_succ, elementStiffness, stiffnessSlaveMaster, stiffnessMasterMaster,
      matrixSet, positionChange, pointGap, FESurfaceElement.eval, hn, moveNodes,
      nodalW_moveNode, vec3d.add, vec3d.sub, vec3d.scale, vec3d.zero, List.range_succ]
    ring

set_option maxHeartbeats 1000000 in
/-- The linearization for a master element with four nodes, row by row. -/
theorem linearization_four (pb : FEPeriodicBoundary2O) (detJ w : ℚ) (Lm : vec3d)
    (mel : FESurfaceElement) (r s : ℚ) (slave : FEMeshNode) (masters : List FEMeshNode)
    (ds : vec3d) (dm : List vec3d) (hn : mel.Nodes = 4) (i : Nat) (hi : i < 15) :
    (elementForceAt pb detJ w Lm mel r s (moveNode slave ds) (moveNodes 4 masters dm)).getD
        i 0 =
      (elementForceAt pb detJ w Lm mel r s slave masters).getD i 0 -
        ∑ j ∈ Finset.range 15,
          elementStiffness w detJ pb.m_eps (mel.H r s) 4 i j *
            (positionChange 4 ds dm).getD j 0 := by
  unfold elementForceAt
  rw [hn, elementForce_four, elementForce_four]
  interval_cases i
  all_goals
    simp [Finset.sum_range_succ, elementStiffness, stiffnessSlaveMaster, stiffnessMasterMaster,
      matrixSet, positionChange, pointGap, FESurfaceElement.eval, hn, moveNodes,
      nodalW_moveNode, vec3d.add, vec3d.sub, vec3d.scale, vec3d.zero, List.range_succ]
    ring

/-- C19: for a slave node whose master element has three or four nodes and interpolates
with the shape functions that `ContactForces` and `ContactStiffness` use, with projection
coordinates, multiplier, penalty and macroscopic tensors fixed, the element stiffness `ke` is
the exact linearization of the element force `fe` (gap from `Update`, force from
`ContactForces`): for every change `d` of the current positions of the slave node and of the
master element nodes, `fe(x + d) = fe(x) - ke * d` in every one of the `3(n+1)` rows. -/
theorem stiffness_is_linearization (pb : FEPeriodicBoundary2O) (detJ w : ℚ) (Lm : vec3d)
    (mel : FESurfaceElement) (r s : ℚ) (slave : FEMeshNode) (masters : List FEMeshNode)
    (ds : vec3d) (dm : List vec3d)
    (hH : masterShape mel.Nodes r s = some (mel.H r s))
    (i : Nat) (hi : i < 3 * (mel.Nodes + 1)) :
    (elementForceAt pb detJ w Lm mel r s (moveNode slave ds)
        (moveNodes mel.Nodes masters dm)).getD i 0 =
      (elementForceAt pb detJ w Lm mel r s slave masters).getD i 0 -
        ∑ j ∈ Finset.range (3 * (mel.Nodes + 1)),
          elementStiffness w detJ pb.m_eps (mel.H r s) mel.Nodes i j *
            (positionChange mel.Nodes ds dm).getD j 0 := by
  have hn : mel.Nodes = 3 ∨ mel.Nodes = 4 := by
    unfold masterShape at hH
    by_cases h4 : mel.Nodes = 4
    · exact Or.inr h4
    · by_cases h3 : mel.Nodes = 3
      · exact Or.inl h3
      · rw [if_neg h4, if_neg h3] at hH
        cases hH
  rcases hn with hn | hn
  · have hi' : i < 12 := by rw [hn] at hi; exact hi
    have h := linearization_three pb detJ w Lm mel r s slave masters ds dm hn i hi'
    rw [hn]
    exact h
  · have hi' : i < 15 := by rw [hn] at hi; exact hi
    have h := linearization_four pb detJ w Lm mel r s slave masters ds dm hn i hi'
    rw [hn]
    exact h

/-- Witness for C19: the first row of the linearization on the sample triangle, for a unit
move of the slave node in direction `x`. -/
theorem stiffness_is_linearization_witness :
    (elementForceAt contactBoundary 1 (1/6) ⟨1, 0, 0⟩ (triangle 3 4 5) 0 0
        (moveNode (meshNode sampleMesh 0) ⟨1, 0, 0⟩)
        (moveNodes (triangle 3 4 5).Nodes
          [meshNode sampleMesh 3, meshNode sampleMesh 4, meshNode sampleMesh 5]
          [vec3d.zero, vec3d.zero, vec3d.zero])).getD 0 0 =
      (elementForceAt contactBoundary 1 (1/6) ⟨1, 0, 0⟩ (triangle 3 4 5) 0 0
        (meshNode sampleMesh 0)
        [meshNode sampleMesh 3, meshNode sampleMesh 4, meshNode sampleMesh 5]).getD 0 0 -
        ∑ j ∈ Finset.range (3 * ((triangle 3 4 5).Nodes + 1)),
          elementStiffness (1/6) 1 contactBoundary.m_eps ((triangle 3 4 5).H 0 0)
            (triangle 3 4 5).Nodes 0 j *
            (positionChange (triangle 3 4 5).Nodes ⟨1, 0, 0⟩
              [vec3d.zero, vec3d.zero, vec3d.zero]).getD j 0 :=
  stiffness_is_linearization contactBoundary 1 (1/6) ⟨1, 0, 0⟩ (triangle 3 4 5) 0 0
    (meshNode sampleMesh 0)
    [meshNode sampleMesh 3, meshNode sampleMesh 4, meshNode sampleMesh 5] ⟨1, 0, 0⟩
    [vec3d.zero, vec3d.zero, vec3d.zero] (by decide!) 0 (by decide)

/-! ## Slave nodes without a master element -/

/-- The body of the node loop of `Update` stops at a null master element pointer. -/
theorem updateGap_none (pb : FEPeriodicBoundary2O) (mesh : List FEMeshNode)
    (ms ss : FEPeriodicSurface) (i : Nat) (hpme : ss.m_pme.getD i none = none) :
    updateGap pb mesh ms ss i = none := by
  unfold updateGap
  rw [hpme]

/-- A successful run of the body of the node loop of `Update` leaves the projection data
alone. -/
theorem updateGap_data (pb : FEPeriodicBoundary2O) (mesh : List FEMeshNode)
    (ms ss ss' : FEPeriodicSurface) (i : Nat) (h : updateGap pb mesh ms ss i = some ss') :
    ss'.m_pme = ss.m_pme := by
  cases hpme : ss.m_pme.getD i none with
  | none =>
    rw [updateGap_none pb mesh ms ss i hpme] at h
    cases h
  | some pme =>
    rw [updateGap_eq pb mesh ms ss i pme hpme] at h
    cases h
    rfl

/-- The node loop of `Update` does not complete when a node of the slave surface has a null
master element pointer. -/
theorem updateGaps_none (pb : FEPeriodicBoundary2O) (mesh : List FEMeshNode)
    (ss ms : FEPeriodicSurface) (i : Nat) (hi : i < ss.Nodes)
    (hpme : ss.m_pme.getD i none = none) : updateGaps pb mesh ss ms = none := by
  unfold updateGaps
  exact foldlM_fails (updateGap pb mesh ms) (fun st => st.m_pme = ss.m_pme)
    (List.range ss.Nodes) i (List.mem_range.mpr hi)
    (fun st j st' _ hst hf => (updateGap_data pb mesh ms st st' j hf).trans hst)
    (fun st hst => updateGap_none pb mesh ms st i (by rw [hst]; exact hpme)) ss rfl

/-- The node loop of `Update` completes when every node of the slave surface has a master
element. -/
theorem updateGaps_some (pb : FEPeriodicBoundary2O) (mesh : List FEMeshNode)
    (ss ms : FEPeriodicSurface)
    (hall : ∀ i : Nat, i < ss.Nodes → ss.m_pme.getD i none ≠ none) :
    ∃ res, updateGaps pb mesh ss ms = some res ∧ res.m_pme = ss.m_pme := by
  unfold updateGaps
  apply foldlM_completes (updateGap pb mesh ms) (fun st => st.m_pme = ss.m_pme)
    (List.range ss.Nodes) _ ss rfl
  intro st i hi hst
  cases hpme : st.m_pme.getD i none with
  | none =>
    rw [hst] at hpme
    exact absurd hpme (hall i (List.mem_range.mp hi))
  | some pme =>
    exact ⟨_, updateGap_eq pb mesh ms st i pme hpme, hst⟩

/-- The body of the integration point loop of `ContactForces` stops at a null master element
pointer. -/
theorem forcePoint_none (sqrt : ℚ → ℚ) (pb : FEPeriodicBoundary2O) (mesh : List FEMeshNode)
    (sel : FESurfaceElement) (st : FEPeriodicSurface × List ForceAssembly) (n : Nat)
    (hpme : st.1.m_pme.getD (sel.m_lnode.getD n 0) none = none) :
    forcePoint sqrt pb mesh sel st n = none := by
  unfold forcePoint
  dsimp only
  rw [hpme]

/-- The loops of `ContactForces` over a slave surface do not complete when a node of one of
its facets has a null master element pointer. -/
theorem forceSurface_none (sqrt : ℚ → ℚ) (pb : FEPeriodicBoundary2O) (mesh : List FEMeshNode)
    (ss : FEPeriodicSurface) (R : List ForceAssembly) (sel0 : FESurfaceElement)
    (hsel : sel0 ∈ ss.m_el) (n0 : Nat) (hn : n0 < sel0.Nodes)
    (hpme : ss.m_pme.getD (sel0.m_lnode.getD n0 0) none = none) :
    forceSurface sqrt pb mesh ss R = none := by
  have hInvP : ∀ (sel : FESurfaceElement) (st : FEPeriodicSurface × List ForceAssembly)
      (i : Nat) (st' : FEPeriodicSurface × List ForceAssembly),
      st.1.m_pme = ss.m_pme → forcePoint sqrt pb mesh sel st i = some st' →
      st'.1.m_pme = ss.m_pme := by
    intro sel st i st' hst hf
    exact (forcePoint_data sqrt pb mesh sel st st' i hf).2.2.1.trans hst
  have h := foldlM_fails
    (fun (st : FEPeriodicSurface × List ForceAssembly) (sel : FESurfaceElement) =>
      (List.range sel.Nodes).foldlM (forcePoint sqrt pb mesh sel) st)
    (fun st => st.1.m_pme = ss.m_pme) ss.m_el sel0 hsel
    (fun st sel st' _ hst hf =>
      foldlM_keeps (forcePoint sqrt pb mesh sel) (fun t => t.1.m_pme = ss.m_pme)
        (List.range sel.Nodes) (fun t i t' _ ht hft => hInvP sel t i t' ht hft) st st' hst hf)
    (fun st hst =>
      foldlM_fails (forcePoint sqrt pb mesh sel0) (fun t => t.1.m_pme = ss.m_pme)
        (List.range sel0.Nodes) n0 (List.mem_range.mpr hn)
        (fun t i t' _ ht hft => hInvP sel0 t i t' ht hft)
        (fun t ht => forcePoint_none sqrt pb mesh sel0 t n0 (by rw [ht]; exact hpme)) st hst)
    (({ ss with m_Fr := List.replicate ss.m_Fr.length vec3d.zero } : FEPeriodicSurface), R)
    rfl
  exact h

/-- The body of the integration point loop of `ContactStiffness` stops at a null master
element pointer. -/
theorem stiffnessPoint_none (sqrt : ℚ → ℚ) (pb : FEPeriodicBoundary2O)
    (mesh : List FEMeshNode) (ss : FEPeriodicSurface) (se : FESurfaceElement)
    (K : List StiffnessAssembly) (n : Nat)
    (hpme : ss.m_pme.getD (se.m_lnode.getD n 0) none = none) :
    stiffnessPoint sqrt pb mesh ss se K n = none := by
  unfold stiffnessPoint
  dsimp only
  rw [hpme]

/-- The loops of `ContactStiffness` over a slave surface do not complete when a node of one
of its elements has a null master element pointer. -/
theorem stiffnessSurface_none (sqrt : ℚ → ℚ) (pb : FEPeriodicBoundary2O)
    (mesh : List FEMeshNode) (ss : FEPeriodicSurface) (K : List StiffnessAssembly)
    (se0 : FESurfaceElement) (hsel : se0 ∈ ss.m_el) (n0 : Nat) (hn : n0 < se0.Nodes)
    (hpme : ss.m_pme.getD (se0.m_lnode.getD n0 0) none = none) :
    stiffnessSurface sqrt pb mesh ss K = none := by
  have h := foldlM_fails
    (fun (K : List StiffnessAssembly) (se : FESurfaceElement) =>
      (List.range se.Nodes).foldlM (stiffnessPoint sqrt pb mesh ss se) K)
    (fun _ => True) ss.m_el se0 hsel
    (fun _ _ _ _ _ _ => trivial)
    (fun K1 _ =>
      foldlM_fails (stiffnessPoint sqrt pb mesh ss se0) (fun _ => True)
        (List.range se0.Nodes) n0 (List.mem_range.mpr hn)
        (fun _ _ _ _ _ _ => trivial)
        (fun K2 _ => stiffnessPoint_none sqrt pb mesh ss se0 K2 n0 hpme) K1 trivial)
    K trivial
  exact h

/-- The routine `ProjectSurface` stops at its assertion when the search finds no master
element for a slave node. -/
theorem ProjectSurface_none (project3 : vec3d → Option (FESurfaceElement × ℚ × ℚ))
    (mesh : List FEMeshNode) (ss : FEPeriodicSurface) (i : Nat) (hi : i < ss.Nodes)
    (hnone : project3 (ss.Node mesh i).m_r0 = none) :
    ProjectSurface project3 mesh ss = none := by
  unfold ProjectSurface
  refine foldlM_fails _ (fun st => st.m_node = ss.m_node) (List.range ss.Nodes) i
    (List.mem_range.mpr hi) ?_ ?_ ss rfl
  · intro st j st' _ hst hf
    cases hp : project3 (st.Node mesh j).m_r0 with
    | none =>
      rw [hp] at hf
      cases hf
    | some v =>
      rw [hp] at hf
      obtain ⟨pme, r, s⟩ := v
      dsimp only at hf
      cases hf
      exact hst
  · intro st hst
    have hnode : st.Node mesh i = ss.Node mesh i := by
      unfold FEPeriodicSurface.Node
      rw [hst]
    rw [hnode, hnone]

/-- C20 (as stated, refuted): on the sample boundary whose second slave node has a null
`m_pme` entry, `Update`, `ContactForces` and `ContactStiffness` do not complete, and
`ProjectSurface` does not complete when the search finds no master element for a node. -/
theorem null_master_element_stops :
    (brokenBoundary.m_ss.m_pme.getD 1 none).isNone = true ∧
    (brokenBoundary.Update sampleMesh).isNone = true ∧
    (brokenBoundary.ContactForces sampleSqrt sampleMesh []).isNone = true ∧
    (brokenBoundary.ContactStiffness sampleSqrt sampleMesh []).isNone = true ∧
    (ProjectSurface partialProject3 sampleMesh sampleSlave).isNone = true := by
  decide!

/-- C20 (amended): a slave node without a master element is not supported. `ProjectSurface`
stops at its assertion when the search finds no master element for a slave node, and
`Update`, `ContactForces` and `ContactStiffness` dereference the `m_pme` entry of every node
they visit without a check, so none of them completes when a node of the slave surface (a
node of one of its facets, for the force and the stiffness) has a null entry; `Update`
completes when every node of the slave surface, and in two-pass mode of the master surface,
has a master element. -/
theorem null_master_element_not_supported (sqrt : ℚ → ℚ) (pb : FEPeriodicBoundary2O)
    (mesh : List FEMeshNode) :
    (∀ (project3 : vec3d → Option (FESurfaceElement × ℚ × ℚ)) (ss : FEPeriodicSurface)
      (i : Nat), i < ss.Nodes → project3 (ss.Node mesh i).m_r0 = none →
      ProjectSurface project3 mesh ss = none) ∧
    (∀ i : Nat, i < pb.m_ss.Nodes → pb.m_ss.m_pme.getD i none = none →
      pb.Update mesh = none) ∧
    (∀ sel ∈ pb.m_ss.m_el, ∀ n : Nat, n < sel.Nodes →
      pb.m_ss.m_pme.getD (sel.m_lnode.getD n 0) none = none →
      (∀ R, pb.ContactForces sqrt mesh R = none) ∧
      (∀ K, pb.ContactStiffness sqrt mesh K = none)) ∧
    ((∀ i : Nat, i < pb.m_ss.Nodes → pb.m_ss.m_pme.getD i none ≠ none) →
      (pb.m_btwo_pass = true →
        ∀ i : Nat, i < pb.m_ms.Nodes → pb.m_ms.m_pme.getD i none ≠ none) →
      ∃ pb', pb.Update mesh = some pb') := by
  refine ⟨?_, ?_, ?_, ?_⟩
  · intro project3 ss i hi hnone
    exact ProjectSurface_none project3 mesh ss i hi hnone
  · intro i hi hpme
    unfold FEPeriodicBoundary2O.Update
    rw [updateGaps_none pb mesh pb.m_ss pb.m_ms i hi hpme]
  · intro sel hsel n hn hpme
    constructor
    · intro R
      unfold FEPeriodicBoundary2O.ContactForces
      rw [forceSurface_none sqrt pb mesh pb.m_ss R sel hsel n hn hpme]
    · intro K
      unfold FEPeriodicBoundary2O.ContactStiffness
      rw [stiffnessSurface_none sqrt pb mesh pb.m_ss K sel hsel n hn hpme]
  · intro hss hms
    obtain ⟨ss', h1, _⟩ := updateGaps_some pb mesh pb.m_ss pb.m_ms hss
    unfold FEPeriodicBoundary2O.Update
    rw [h1]
    dsimp only
    cases htp : pb.m_btwo_pass with
    | false =>
      simp only [Bool.false_eq_true, if_false]
      exact ⟨_, rfl⟩
    | true =>
      simp only [if_true]
      obtain ⟨ms', h2, _⟩ := updateGaps_some pb mesh pb.m_ms ss' (hms htp)
      rw [h2]
      exact ⟨_, rfl⟩

/-- Witness for the amended C20: `Update` completes on the sample boundary, where every
slave node has its master element, and stops on the one with the null entry. -/
theorem null_master_element_not_supported_witness :
    (∃ pb', contactBoundary.Update sampleMesh = some pb') ∧
      brokenBoundary.Update sampleMesh = none :=
  ⟨(null_master_element_not_supported sampleSqrt contactBoundary sampleMesh).2.2.2
      (by
        intro i hi
        have hi' : i < 3 := hi
        interval_cases i
        · show (some (triangle 3 4 5) : Option FESurfaceElement) ≠ none
          exact fun h => Option.noConfusion h
        · show (some (triangle 3 4 5) : Option FESurfaceElement) ≠ none
          exact fun h => Option.noConfusion h
        · show (some (triangle 3 4 5) : Option FESurfaceElement) ≠ none
          exact fun h => Option.noConfusion h)
      (fun h => absurd h (by decide)),
   (null_master_element_not_supported sampleSqrt brokenBoundary sampleMesh).2.1 1
      (by decide) rfl⟩

/-! ## The time integration parameters -/

/-- A successful `Init` (base class succeeding) had non-negative tolerances and an
admissible `rhoi`. -/
theorem Init_true_iff_tolerances (S : FEPolarFluidSolver) (gatherUt : List ℚ → List ℚ) :
    (S.Init true gatherUt).1 = true ↔
      (0 ≤ S.m_Vtol ∧ 0 ≤ S.m_Gtol ∧ 0 ≤ S.m_Ftol ∧ 0 ≤ S.m_Etol ∧ 0 ≤ S.m_Rtol) ∧
      (S.m_rhoi = -1 ∨ (0 ≤ S.m_rhoi ∧ S.m_rhoi ≤ 1)) := by
  unfold FEPolarFluidSolver.Init
  by_cases hV : S.m_Vtol < 0
  · simp [hV]
  by_cases hG : S.m_Gtol < 0
  · simp [hV, hG]
  by_cases hF : S.m_Ftol < 0
  · simp [hV, hG, hF]
  by_cases hE : S.m_Etol < 0
  · simp [hV, hG, hF, hE]
  by_cases hR : S.m_Rtol < 0
  · simp [hV, hG, hF, hE, hR]
  by_cases h1 : S.m_rhoi = -1
  · simp [hV, hG, hF, hE, hR, h1, not_lt.mp hV, not_lt.mp hG, not_lt.mp hF, not_lt.mp hE,
      not_lt.mp hR]
  by_cases h2 : 0 ≤ S.m_rhoi ∧ S.m_rhoi ≤ 1
  · simp [hV, hG, hF, hE, hR, h1, h2, not_lt.mp hV, not_lt.mp hG, not_lt.mp hF,
      not_lt.mp hE, not_lt.mp hR]
  · simp [hV, hG, hF, hE, hR, h1, h2, not_lt.mp hV, not_lt.mp hG, not_lt.mp hF,
      not_lt.mp hE, not_lt.mp hR]

/-- The outcome of `Init` when the base class succeeds, the tolerances are non-negative and
`rhoi` lies in `[0, 1]`: the four parameters are computed from `rhoi` and `order`. -/
theorem Init_params_of_rhoi (S : FEPolarFluidSolver) (gatherUt : List ℚ → List ℚ)
    (hV : 0 ≤ S.m_Vtol) (hG : 0 ≤ S.m_Gtol) (hF : 0 ≤ S.m_Ftol) (hE : 0 ≤ S.m_Etol)
    (hR : 0 ≤ S.m_Rtol) (h0 : 0 ≤ S.m_rhoi) (h1 : S.m_rhoi ≤ 1) :
    (S.Init true gatherUt).1 = true ∧
    (S.Init true gatherUt).2.m_alphaf = 1 / (1 + S.m_rhoi) ∧
    (S.Init true gatherUt).2.m_alpham =
      (if S.m_order = 1 then (3 - S.m_rhoi) / (1 + S.m_rhoi) / 2
        else (2 - S.m_rhoi) / (1 + S.m_rhoi)) ∧
    (S.Init true gatherUt).2.m_beta =
      (1 + (if S.m_order = 1 then (3 - S.m_rhoi) / (1 + S.m_rhoi) / 2
        else (2 - S.m_rhoi) / (1 + S.m_rhoi)) - 1 / (1 + S.m_rhoi)) ^ 2 / 4 ∧
    (S.Init true gatherUt).2.m_gamma =
      1 / 2 + (if S.m_order = 1 then (3 - S.m_rhoi) / (1 + S.m_rhoi) / 2
        else (2 - S.m_rhoi) / (1 + S.m_rhoi)) - 1 / (1 + S.m_rhoi) ∧
    (S.Init true gatherUt).2.m_rhoi = S.m_rhoi := by
  have hne : ¬ S.m_rhoi = -1 := by
    intro h
    rw [h] at h0
    exact absurd h0 (by norm_num)
  unfold FEPolarFluidSolver.Init
  simp [not_lt.mpr hV, not_lt.mpr hG, not_lt.mpr hF, not_lt.mpr hE, not_lt.mpr hR, hne, h0, h1]

/-- The outcome of `Init` when the base class succeeds, the tolerances are non-negative and
`rhoi = -1`: the four parameters are set to `1`. -/
theorem Init_params_of_minus_one (S : FEPolarFluidSolver) (gatherUt : List ℚ → List ℚ)
    (hV : 0 ≤ S.m_Vtol) (hG : 0 ≤ S.m_Gtol) (hF : 0 ≤ S.m_Ftol) (hE : 0 ≤ S.m_Etol)
    (hR : 0 ≤ S.m_Rtol) (h1 : S.m_rhoi = -1) :
    (S.Init true gatherUt).1 = true ∧
    (S.Init true gatherUt).2.m_alphaf = 1 ∧ (S.Init true gatherUt).2.m_alpham = 1 ∧
    (S.Init true gatherUt).2.m_beta = 1 ∧ (S.Init true gatherUt).2.m_gamma = 1 := by
  unfold FEPolarFluidSolver.Init
  simp [not_lt.mpr hV, not_lt.mpr hG, not_lt.mpr hF, not_lt.mpr hE, not_lt.mpr hR, h1]

/-- C23: the constructor's defaults `alphaf = 1`, `alpham = 1.5`, `beta = 0.5625`,
`gamma = 1` are the values of `1/(1+rhoi)`, `(3-rhoi)/(2(1+rhoi))`, `(1+alpham-alphaf)²/4`
and `1/2+alpham-alphaf` at the default `rhoi = 0`, `order = 1`; `Init` succeeds on a freshly
constructed solver (when the base class does) and leaves the four parameters unchanged, and
so does every successful `Init` on a solver that carries these defaults. -/
theorem constructor_defaults_fixed_by_Init (neq : Nat) (LStol LSmin : ℚ) (b : Bool)
    (gatherUt : List ℚ → List ℚ) :
    ((FEPolarFluidSolver.construct neq LStol LSmin b).m_rhoi = 0 ∧
      (FEPolarFluidSolver.construct neq LStol LSmin b).m_order = 1 ∧
      (FEPolarFluidSolver.construct neq LStol LSmin b).m_alphaf = 1 ∧
      (FEPolarFluidSolver.construct neq LStol LSmin b).m_alpham = 3 / 2 ∧
      (FEPolarFluidSolver.construct neq LStol LSmin b).m_beta = 9 / 16 ∧
      (FEPolarFluidSolver.construct neq LStol LSmin b).m_gamma = 1) ∧
    ((1 : ℚ) = 1 / (1 + 0) ∧ (3 / 2 : ℚ) = (3 - 0) / (2 * (1 + 0)) ∧
      (9 / 16 : ℚ) = (1 + 3 / 2 - 1) ^ 2 / 4 ∧ (1 : ℚ) = 1 / 2 + 3 / 2 - 1) ∧
    (((FEPolarFluidSolver.construct neq LStol LSmin b).Init true gatherUt).1 = true ∧
      ((FEPolarFluidSolver.construct neq LStol LSmin b).Init true gatherUt).2.m_alphaf =
        (FEPolarFluidSolver.construct neq LStol LSmin b).m_alphaf ∧
      ((FEPolarFluidSolver.construct neq LStol LSmin b).Init true gatherUt).2.m_alpham =
        (FEPolarFluidSolver.construct neq LStol LSmin b).m_alpham ∧
      ((FEPolarFluidSolver.construct neq LStol LSmin b).Init true gatherUt).2.m_beta =
        (FEPolarFluidSolver.construct neq LStol LSmin b).m_beta ∧
      ((FEPolarFluidSolver.construct neq LStol LSmin b).Init true gatherUt).2.m_gamma =
        (FEPolarFluidSolver.construct neq LStol LSmin b).m_gamma) ∧
    (∀ S : FEPolarFluidSolver, S.m_rhoi = 0 → S.m_order = 1 → S.m_alphaf = 1 →
      S.m_alpham = 3 / 2 → S.m_beta = 9 / 16 → S.m_gamma = 1 →
      (S.Init true gatherUt).1 = true →
      (S.Init true gatherUt).2.m_alphaf = S.m_alphaf ∧
      (S.Init true gatherUt).2.m_alpham = S.m_alpham ∧
      (S.Init true gatherUt).2.m_beta = S.m_beta ∧
      (S.Init true gatherUt).2.m_gamma = S.m_gamma) := by
  have key : ∀ S : FEPolarFluidSolver, S.m_rhoi = 0 → S.m_order = 1 →
      (S.Init true gatherUt).1 = true →
      (S.Init true gatherUt).2.m_alphaf = 1 ∧ (S.Init true gatherUt).2.m_alpham = 3 / 2 ∧
      (S.Init true gatherUt).2.m_beta = 9 / 16 ∧ (S.Init true gatherUt).2.m_gamma = 1 := by
    intro S hr ho hok
    obtain ⟨⟨hV, hG, hF, hE, hR⟩, _⟩ := (Init_true_iff_tolerances S gatherUt).mp hok
    obtain ⟨_, ha, ham, hb, hg, _⟩ := Init_params_of_rhoi S gatherUt hV hG hF hE hR
      (by rw [hr]) (by rw [hr]; norm_num)
    rw [ha, ham, hb, hg, hr, ho]
    norm_num
  have hC : ((FEPolarFluidSolver.construct neq LStol LSmin b).Init true gatherUt).1 = true := by
    refine (Init_params_of_rhoi _ gatherUt ?_ ?_ ?_ ?_ ?_ ?_ ?_).1 <;>
      simp [FEPolarFluidSolver.construct] <;> norm_num
  refine ⟨⟨rfl, rfl, rfl, ?_, ?_, rfl⟩, ?_, ?_, ?_⟩
  · simp [FEPolarFluidSolver.construct]; norm_num
  · simp [FEPolarFluidSolver.construct]; norm_num
  · norm_num
  · obtain ⟨h1, h2, h3, h4⟩ := key _ rfl rfl hC
    refine ⟨hC, ?_, ?_, ?_, ?_⟩
    · rw [h1]; rfl
    · rw [h2]; simp [FEPolarFluidSolver.construct]; norm_num
    · rw [h3]; simp [FEPolarFluidSolver.construct]; norm_num
    · rw [h4]; rfl
  · intro S hr ho ha ham hb hg hok
    obtain ⟨h1, h2, h3, h4⟩ := key S hr ho hok
    exact ⟨by rw [h1, ha], by rw [h2, ham], by rw [h3, hb], by rw [h4, hg]⟩

/-- C25 (as stated): for the admissible `rhoi = -1` a successful `Init` sets `beta = 1` and
`gamma = 1`, while `(gamma + 1/2)²/4 = 9/16`: the relation between `beta` and `gamma` does
not hold on that branch. -/
theorem beta_relation_fails_at_minus_one :
    backwardEulerSolver.m_rhoi = -1 ∧
    (backwardEulerSolver.Init true id).1 = true ∧
    (backwardEulerSolver.Init true id).2.m_beta = 1 ∧
    (backwardEulerSolver.Init true id).2.m_gamma = 1 ∧
    (backwardEulerSolver.Init true id).2.m_beta ≠
      ((backwardEulerSolver.Init true id).2.m_gamma + 1 / 2) ^ 2 / 4 := by
  decide!

/-- C25 (amended): after a successful `Init` (base class succeeding) `1/2 ≤ alphaf ≤ 1` and
`1/2 ≤ gamma ≤ 3/2` for every admissible `rhoi` and every `order`, so `gamma` and `gamma*dt`
(for `dt ≠ 0`) are non-zero divisors; when `rhoi` lies in `[0, 1]` the divisor `1 + rhoi` is
at least `1` and `beta = (gamma + 1/2)²/4`; when `rhoi = -1` no division takes place and
`alphaf = alpham = beta = gamma = 1`. -/
theorem Init_parameter_ranges (S : FEPolarFluidSolver) (gatherUt : List ℚ → List ℚ)
    (hok : (S.Init true gatherUt).1 = true) :
    (1 / 2 ≤ (S.Init true gatherUt).2.m_alphaf ∧ (S.Init true gatherUt).2.m_alphaf ≤ 1) ∧
    (1 / 2 ≤ (S.Init true gatherUt).2.m_gamma ∧ (S.Init true gatherUt).2.m_gamma ≤ 3 / 2) ∧
    (S.Init true gatherUt).2.m_gamma ≠ 0 ∧
    (∀ dt : ℚ, dt ≠ 0 → (S.Init true gatherUt).2.m_gamma * dt ≠ 0) ∧
    (S.m_rhoi ≠ -1 → 1 ≤ 1 + S.m_rhoi ∧
      (S.Init true gatherUt).2.m_beta = ((S.Init true gatherUt).2.m_gamma + 1 / 2) ^ 2 / 4) ∧
    (S.m_rhoi = -1 → (S.Init true gatherUt).2.m_alphaf = 1 ∧
      (S.Init true gatherUt).2.m_alpham = 1 ∧ (S.Init true gatherUt).2.m_beta = 1 ∧
      (S.Init true gatherUt).2.m_gamma = 1) := by
  obtain ⟨⟨hV, hG, hF, hE, hR⟩, hrho⟩ := (Init_true_iff_tolerances S gatherUt).mp hok
  have main : (1 / 2 ≤ (S.Init true gatherUt).2.m_alphaf ∧
      (S.Init true gatherUt).2.m_alphaf ≤ 1) ∧
      (1 / 2 ≤ (S.Init true gatherUt).2.m_gamma ∧ (S.Init true gatherUt).2.m_gamma ≤ 3 / 2) ∧
      (S.m_rhoi ≠ -1 → 1 ≤ 1 + S.m_rhoi ∧
        (S.Init true gatherUt).2.m_beta =
          ((S.Init true gatherUt).2.m_gamma + 1 / 2) ^ 2 / 4) ∧
      (S.m_rhoi = -1 → (S.Init true gatherUt).2.m_alphaf = 1 ∧
        (S.Init true gatherUt).2.m_alpham = 1 ∧ (S.Init true gatherUt).2.m_beta = 1 ∧
        (S.Init true gatherUt).2.m_gamma = 1) := by
    rcases hrho with h1 | ⟨h0, h1⟩
    · obtain ⟨_, ha, ham, hb, hg⟩ := Init_params_of_minus_one S gatherUt hV hG hF hE hR h1
      refine ⟨?_, ?_, fun h => absurd h1 h, fun _ => ⟨ha, ham, hb, hg⟩⟩
      · rw [ha]; norm_num
      · rw [hg]; norm_num
    · obtain ⟨_, ha, ham, hb, hg, _⟩ := Init_params_of_rhoi S gatherUt hV hG hF hE hR h0 h1
      have hpos : (0 : ℚ) < 1 + S.m_rhoi := by linarith
      have hne : S.m_rhoi ≠ -1 := by
        intro h
        rw [h] at h0
        exact absurd h0 (by norm_num)
      have hA : (1 / 2 : ℚ) ≤ 1 / (1 + S.m_rhoi) ∧ 1 / (1 + S.m_rhoi) ≤ 1 := by
        constructor
        · rw [div_le_div_iff₀ (by norm_num) hpos]; linarith
        · rw [div_le_one hpos]; linarith
      have hD : (0 : ℚ) ≤ (1 - S.m_rhoi) / (1 + S.m_rhoi) ∧
          (1 - S.m_rhoi) / (1 + S.m_rhoi) ≤ 1 := by
        constructor
        · exact div_nonneg (by linarith) hpos.le
        · rw [div_le_one hpos]; linarith
      have hG1 : (3 - S.m_rhoi) / (1 + S.m_rhoi) / 2 - 1 / (1 + S.m_rhoi) =
          (1 - S.m_rhoi) / (1 + S.m_rhoi) / 2 := by
        field_simp
        ring
      have hG2 : (2 - S.m_rhoi) / (1 + S.m_rhoi) - 1 / (1 + S.m_rhoi) =
          (1 - S.m_rhoi) / (1 + S.m_rhoi) := by
        field_simp
        ring
      refine ⟨?_, ?_, fun _ => ⟨by linarith, ?_⟩, fun h => absurd h hne⟩
      · rw [ha]; exact hA
      · rw [hg]
        by_cases ho : S.m_order = 1
        · rw [if_pos ho]
          constructor <;> linarith [hD.1, hD.2]
        · rw [if_neg ho]
          constructor <;> linarith [hD.1, hD.2]
      · rw [hb, hg]
        ring
  obtain ⟨hA, hGm, hB, hM⟩ := main
  have hg0 : (S.Init true gatherUt).2.m_gamma ≠ 0 := by
    intro h
    rw [h] at hGm
    exact absurd hGm.1 (by norm_num)
  exact ⟨hA, hGm, hg0, fun dt hdt => mul_ne_zero hg0 hdt, hB, hM⟩

/-- The amended C25 on the sample solver, whose `rhoi` is `0`. -/
theorem Init_parameter_ranges_witness :
    ((sampleSolver true).Init true id).1 = true ∧
    (1 / 2 ≤ ((sampleSolver true).Init true id).2.m_alphaf ∧
      ((sampleSolver true).Init true id).2.m_alphaf ≤ 1) ∧
    (1 / 2 ≤ ((sampleSolver true).Init true id).2.m_gamma ∧
      ((sampleSolver true).Init true id).2.m_gamma ≤ 3 / 2) ∧
    ((sampleSolver true).Init true id).2.m_beta =
      (((sampleSolver true).Init true id).2.m_gamma + 1 / 2) ^ 2 / 4 := by
  have hok : ((sampleSolver true).Init true id).1 = true := by decide!
  have h := Init_parameter_ranges (sampleSolver true) id hok
  exact ⟨hok, h.1, h.2.1, (h.2.2.2.2.1 (by decide!)).2⟩

/-! ## The first pass after `PrepStep` -/

/-- The update loop keeps the size of the accumulated vector. -/
theorem addScaled_length (n : Nat) (s : ℚ) (U u : List ℚ) :
    (addScaled n s U u).length = U.length := by
  unfold addScaled
  induction n with
  | zero => rfl
  | succ n ih =>
    rw [List.range_succ, List.foldl_append, List.foldl_cons, List.foldl_nil, List.length_set, ih]

/-- The entries of the accumulated vector after the update loop. -/
theorem addScaled_getD (n : Nat) (s : ℚ) (U u : List ℚ) (i : Nat) :
    (addScaled n s U u).getD i 0 =
      if i < n ∧ i < U.length then U.getD i 0 + s * u.getD i 0 else U.getD i 0 := by
  induction n generalizing i with
  | zero => simp [addScaled]
  | succ n ih =>
    have hstep : addScaled (n + 1) s U u =
        (addScaled n s U u).set n ((addScaled n s U u).getD n 0 + s * u.getD n 0) := by
      unfold addScaled
      rw [List.range_succ, List.foldl_append, List.foldl_cons, List.foldl_nil]
    rw [hstep, getD_set_eq, addScaled_length]
    by_cases h1 : n = i
    · subst h1
      by_cases h2 : n < U.length
      · rw [if_pos ⟨rfl, h2⟩, ih n, if_neg (fun h => absurd h.1 (lt_irrefl n)),
          if_pos ⟨Nat.lt_succ_self n, h2⟩]
      · rw [if_neg (fun h => h2 h.2), ih n, if_neg (fun h => h2 h.2),
          if_neg (fun h => h2 h.2)]
    · rw [if_neg (fun h => h1 h.1), ih i]
      by_cases h3 : i < n ∧ i < U.length
      · rw [if_pos h3, if_pos ⟨Nat.lt_succ_of_lt h3.1, h3.2⟩]
      · rw [if_neg h3, if_neg]
        intro h
        exact h3 ⟨lt_of_le_of_ne (Nat.lt_succ_iff.mp h.1) (fun e => h1 e.symm), h.2⟩

/-- Starting from a zeroed vector of the size of the increment, the update loop over the
whole size leaves the scaled increment. -/
theorem addScaled_from_zero (s : ℚ) (U u : List ℚ) (hU : U.length = u.length) :
    addScaled u.length s (zero U) u = u.map (fun x => s * x) := by
  have hlen : (addScaled u.length s (zero U) u).length = (u.map (fun x => s * x)).length := by
    rw [addScaled_length, List.length_map]
    simp [zero, hU]
  apply List.ext_getElem hlen
  intro i h1 h2
  have hi : i < u.length := by
    rw [List.length_map] at h2
    exact h2
  have e1 : (addScaled u.length s (zero U) u)[i] = (addScaled u.length s (zero U) u).getD i 0 :=
    (List.getD_eq_getElem _ 0 h1).symm
  have hz : (zero U).length = u.length := by simp [zero, hU]
  rw [e1, addScaled_getD, if_pos ⟨hi, by rw [hz]; exact hi⟩,
    getD_of_all_zero (zero U) (zero_all_zero U), zero_add, List.getElem_map,
    List.getD_eq_getElem u 0 hi]

/-- The dot product of a scaled vector with itself. -/
theorem dot_scaled_self (s : ℚ) (u : List ℚ) :
    dot (u.map (fun x => s * x)) (u.map (fun x => s * x)) = dot u u * (s * s) := by
  unfold dot
  induction u with
  | nil => simp
  | cons a u ih =>
    simp only [List.map_cons, List.zipWith_cons_cons, List.sum_cons]
    rw [ih]
    ring

/-- The dot product of a vector with itself is non-negative. -/
theorem dot_self_nonneg (u : List ℚ) : 0 ≤ dot u u := by
  unfold dot
  induction u with
  | nil => simp
  | cons a u ih =>
    simp only [List.zipWith_cons_cons, List.sum_cons]
    exact add_nonneg (mul_self_nonneg a) ih

/-- The dot product of a vector with a non-zero entry with itself is positive. -/
theorem dot_self_pos (u : List ℚ) (h : ∃ x ∈ u, x ≠ 0) : 0 < dot u u := by
  induction u with
  | nil =>
    obtain ⟨x, hx, _⟩ := h
    exact absurd hx (List.not_mem_nil x)
  | cons a u ih =>
    have hcons : dot (a :: u) (a :: u) = a * a + dot u u := by
      simp [dot]
    rw [hcons]
    obtain ⟨x, hx, hne⟩ := h
    rcases List.mem_cons.mp hx with hxa | hxu
    · subst hxa
      exact add_pos_of_pos_of_nonneg (mul_self_pos.mpr hne) (dot_self_nonneg u)
    · exact add_pos_of_nonneg_of_pos (mul_self_nonneg a) (ih ⟨x, hxu, hne⟩)

/-- One block of the extraction methods keeps the size of the output. -/
theorem gatherDof_length (ui : List ℚ) (st : List ℚ × Nat) (nid : Int) :
    (gatherDof ui st nid).1.length = st.1.length := by
  unfold gatherDof
  split_ifs
  · simp
  · rfl

/-- A run of extraction blocks keeps the size of the output. -/
theorem foldl_gatherDof_length (ui : List ℚ) (l : List Int) (st : List ℚ × Nat) :
    (l.foldl (gatherDof ui) st).1.length = st.1.length := by
  induction l generalizing st with
  | nil => rfl
  | cons a l ih => rw [List.foldl_cons, ih, gatherDof_length]

/-- The extraction loop over the nodes keeps the size of the output. -/
theorem foldl_nodes_gather_length (ui : List ℚ) (ids : FENode → List Int)
    (nodes : List FENode) (st : List ℚ × Nat) :
    (nodes.foldl (fun st n => (ids n).foldl (gatherDof ui) st) st).1.length = st.1.length := by
  induction nodes generalizing st with
  | nil => rfl
  | cons a l ih => rw [List.foldl_cons, ih, foldl_gatherDof_length]

/-- The method `GetVelocityData` keeps the size of its output argument. -/
theorem GetVelocityData_length (fem : FEModel) (vi ui : List ℚ) :
    (GetVelocityData fem vi ui).length = vi.length := by
  unfold GetVelocityData
  rw [foldl_nodes_gather_length ui (fun n => [n.idW0, n.idW1, n.idW2])]
  simp [zero]

/-- The method `GetAngularVelocityData` keeps the size of its output argument. -/
theorem GetAngularVelocityData_length (fem : FEModel) (xi ui : List ℚ) :
    (GetAngularVelocityData fem xi ui).length = xi.length := by
  unfold GetAngularVelocityData
  rw [foldl_nodes_gather_length ui (fun n => [n.idG0, n.idG1, n.idG2])]
  simp [zero]

/-- The method `GetDilatationData` keeps the size of its output argument. -/
theorem GetDilatationData_length (fem : FEModel) (ei ui : List ℚ) :
    (GetDilatationData fem ei ui).length = ei.length := by
  unfold GetDilatationData
  have h := foldl_nodes_gather_length ui (fun n => [n.idEF]) fem.nodes (zero ei, 0)
  simp only [List.foldl_cons, List.foldl_nil] at h
  rw [h]
  simp [zero]

/-- A family whose accumulated increment was zeroed and whose vectors have the size of the
family: after the update loop the squared norm of the accumulated increment is the scaled
squared norm of the increment. -/
theorem first_pass_family_norm (n : Nat) (s : ℚ) (V v : List ℚ) (hV : V.length = n)
    (hv : v.length = n) :
    dot (addScaled n s (zero V) v) (addScaled n s (zero V) v) = dot v v * (s * s) := by
  subst hv
  rw [addScaled_from_zero s V v hV, dot_scaled_self]

/-- A pass that ends accepted has its convergence flag set. -/
theorem QuasinPass_done_true (fem : FEModel) (S : FEPolarFluidSolver) (N : RefNorms)
    (q : QNData) (h : (QuasinPass fem S N q).exit = PassExit.done true) :
    passConverged fem S N q = true := by
  by_contra hc
  have hf : passConverged fem S N q = false := by
    cases hp : passConverged fem S N q
    · rfl
    · exact absurd hp hc
  unfold QuasinPass at h
  simp only [hf] at h
  split_ifs at h
  all_goals simp at h

/-- The norms of the three families in a pass run right after `PrepStep`, the vectors of
each family having the size of the family: the scaled increment norm and the accumulated
norm coincide. -/
theorem first_pass_norms (fem : FEModel) (S : FEPolarFluidSolver) (q : QNData)
    (hvi : S.m_vi.length = S.m_nveq) (hVi : S.m_Vi.length = S.m_nveq)
    (hgi : S.m_gi.length = S.m_ngeq) (hGi : S.m_Gi.length = S.m_ngeq)
    (hfi : S.m_fi.length = S.m_nfeq) (hFi : S.m_Fi.length = S.m_nfeq) :
    (passNorms fem (PrepStep fem S) q).normV =
      dot (GetVelocityData fem S.m_vi q.ui) (GetVelocityData fem S.m_vi q.ui) * (q.s * q.s) ∧
    (passNorms fem (PrepStep fem S) q).normv =
      dot (GetVelocityData fem S.m_vi q.ui) (GetVelocityData fem S.m_vi q.ui) * (q.s * q.s) ∧
    (passNorms fem (PrepStep fem S) q).normG =
      dot (GetAngularVelocityData fem S.m_gi q.ui) (GetAngularVelocityData fem S.m_gi q.ui) *
        (q.s * q.s) ∧
    (passNorms fem (PrepStep fem S) q).normg =
      dot (GetAngularVelocityData fem S.m_gi q.ui) (GetAngularVelocityData fem S.m_gi q.ui) *
        (q.s * q.s) ∧
    (passNorms fem (PrepStep fem S) q).normF =
      dot (GetDilatationData fem S.m_fi q.ui) (GetDilatationData fem S.m_fi q.ui) *
        (q.s * q.s) ∧
    (passNorms fem (PrepStep fem S) q).normf =
      dot (GetDilatationData fem S.m_fi q.ui) (GetDilatationData fem S.m_fi q.ui) *
        (q.s * q.s) := by
  refine ⟨?_, rfl, ?_, rfl, ?_, rfl⟩
  · exact first_pass_family_norm S.m_nveq q.s S.m_Vi (GetVelocityData fem S.m_vi q.ui) hVi
      (by rw [GetVelocityData_length, hvi])
  · exact first_pass_family_norm S.m_ngeq q.s S.m_Gi (GetAngularVelocityData fem S.m_gi q.ui)
      hGi (by rw [GetAngularVelocityData_length, hgi])
  · exact first_pass_family_norm S.m_nfeq q.s S.m_Fi (GetDilatationData fem S.m_fi q.ui) hFi
      (by rw [GetDilatationData_length, hfi])

/-- A positive norm exceeds its product with the square of a tolerance below one. -/
theorem tol_sq_mul_lt (tol x : ℚ) (h0 : 0 < tol) (h1 : tol < 1) (hx : 0 < x) :
    x > tol * tol * x := by
  have h2 : tol * tol < 1 := by nlinarith
  nlinarith

/-- A pass whose seven checks fail is accepted only through the minimum-residual
override. -/
theorem accepted_only_by_override (fem : FEModel) (S : FEPolarFluidSolver) (N : RefNorms)
    (q : QNData) (hc : passChecks fem S N q = false)
    (h : (QuasinPass fem S N q).exit = PassExit.done true) :
    (passNorms fem S q).normR1 < (passSolver fem S q).m_Rmin := by
  have hconv := QuasinPass_done_true fem S N q h
  unfold passConverged minResidualOverride at hconv
  rw [hc] at hconv
  by_contra hlt
  rw [if_neg (fun hh => hlt hh.2)] at hconv
  exact absurd hconv (by decide)

/-- A failing velocity, angular velocity or dilatation check clears the convergence flag. -/
theorem convChecks_false_of_family (S : FEPolarFluidSolver) (N : RefNorms) (n : PassNorms)
    (s : ℚ) (h : failsV S n = true ∨ failsG S n = true ∨ failsF S n = true) :
    convChecks S N n s = false := by
  cases hc : convChecks S N n s
  · rfl
  · have h2 := (convChecks_eq_true_iff S N n s).mp hc
    rcases h with h | h | h
    · rw [h2.2.1] at h; exact absurd h (by decide)
    · rw [h2.2.2.1] at h; exact absurd h (by decide)
    · rw [h2.2.2.2.1] at h; exact absurd h (by decide)

/-- The first pass after `PrepStep` for one family of increments: with a tolerance strictly
between `0` and `1`, a non-zero step and a non-zero increment the scaled increment norm
exceeds the tolerance bound on the accumulated norm. -/
theorem first_pass_family_fails (tol s : ℚ) (v : List ℚ) (h0 : 0 < tol) (h1 : tol < 1)
    (hs : s ≠ 0) (hv : ∃ x ∈ v, x ≠ 0) :
    tol > 0 ∧ dot v v * (s * s) > tol * tol * (dot v v * (s * s)) :=
  ⟨h0, tol_sq_mul_lt tol _ h0 h1 (mul_pos (dot_self_pos v hv) (mul_self_pos.mpr hs))⟩

/-- C26: in the first pass after `PrepStep` (the vectors of each family having the size of
the family) the accumulated increments start from zero, so `normv = normV`, `normg = normG`
and `normf = normF`; hence for `0 < Vtol < 1` and `s ≠ 0` the velocity check fails whenever
the velocity increment is non-zero, the seven checks do not pass, and the pass can end
accepted only with `normR1 < Rmin`; likewise for the angular velocity and the dilatation
families. -/
theorem first_pass_rejects_nonzero_increment (fem : FEModel) (S : FEPolarFluidSolver)
    (N : RefNorms) (q : QNData)
    (hvi : S.m_vi.length = S.m_nveq) (hVi : S.m_Vi.length = S.m_nveq)
    (hgi : S.m_gi.length = S.m_ngeq) (hGi : S.m_Gi.length = S.m_ngeq)
    (hfi : S.m_fi.length = S.m_nfeq) (hFi : S.m_Fi.length = S.m_nfeq) :
    (PrepStep fem S).m_Vi = zero S.m_Vi ∧ (PrepStep fem S).m_Gi = zero S.m_Gi ∧
    (PrepStep fem S).m_Fi = zero S.m_Fi ∧
    (passNorms fem (PrepStep fem S) q).normv = (passNorms fem (PrepStep fem S) q).normV ∧
    (passNorms fem (PrepStep fem S) q).normg = (passNorms fem (PrepStep fem S) q).normG ∧
    (passNorms fem (PrepStep fem S) q).normf = (passNorms fem (PrepStep fem S) q).normF ∧
    (0 < S.m_Vtol → S.m_Vtol < 1 → q.s ≠ 0 →
      (∃ x ∈ (passSolver fem (PrepStep fem S) q).m_vi, x ≠ 0) →
      failsV (passSolver fem (PrepStep fem S) q) (passNorms fem (PrepStep fem S) q) = true ∧
      passChecks fem (PrepStep fem S) N q = false ∧
      ((QuasinPass fem (PrepStep fem S) N q).exit = PassExit.done true →
        (passNorms fem (PrepStep fem S) q).normR1 < S.m_Rmin)) ∧
    (0 < S.m_Gtol → S.m_Gtol < 1 → q.s ≠ 0 →
      (∃ x ∈ (passSolver fem (PrepStep fem S) q).m_gi, x ≠ 0) →
      failsG (passSolver fem (PrepStep fem S) q) (passNorms fem (PrepStep fem S) q) = true ∧
      passChecks fem (PrepStep fem S) N q = false ∧
      ((QuasinPass fem (PrepStep fem S) N q).exit = PassExit.done true →
        (passNorms fem (PrepStep fem S) q).normR1 < S.m_Rmin)) ∧
    (0 < S.m_Ftol → S.m_Ftol < 1 → q.s ≠ 0 →
      (∃ x ∈ (passSolver fem (PrepStep fem S) q).m_fi, x ≠ 0) →
      failsF (passSolver fem (PrepStep fem S) q) (passNorms fem (PrepStep fem S) q) = true ∧
      passChecks fem (PrepStep fem S) N q = false ∧
      ((QuasinPass fem (PrepStep fem S) N q).exit = PassExit.done true →
        (passNorms fem (PrepStep fem S) q).normR1 < S.m_Rmin)) := by
  obtain ⟨hV, hv, hG, hg, hF, hf⟩ := first_pass_norms fem S q hvi hVi hgi hGi hfi hFi
  refine ⟨rfl, rfl, rfl, by rw [hv, hV], by rw [hg, hG], by rw [hf, hF], ?_, ?_, ?_⟩
  · intro h0 h1 hs hne
    have hne' : ∃ x ∈ GetVelocityData fem S.m_vi q.ui, x ≠ 0 := hne
    have hfail : failsV (passSolver fem (PrepStep fem S) q)
        (passNorms fem (PrepStep fem S) q) = true := by
      unfold failsV
      rw [hv, hV]
      exact decide_eq_true (first_pass_family_fails S.m_Vtol q.s _ h0 h1 hs hne')
    have hc : passChecks fem (PrepStep fem S) N q = false :=
      convChecks_false_of_family _ _ _ _ (Or.inl hfail)
    exact ⟨hfail, hc, fun hd => accepted_only_by_override fem (PrepStep fem S) N q hc hd⟩
  · intro h0 h1 hs hne
    have hne' : ∃ x ∈ GetAngularVelocityData fem S.m_gi q.ui, x ≠ 0 := hne
    have hfail : failsG (passSolver fem (PrepStep fem S) q)
        (passNorms fem (PrepStep fem S) q) = true := by
      unfold failsG
      rw [hg, hG]
      exact decide_eq_true (first_pass_family_fails S.m_Gtol q.s _ h0 h1 hs hne')
    have hc : passChecks fem (PrepStep fem S) N q = false :=
      convChecks_false_of_family _ _ _ _ (Or.inr (Or.inl hfail))
    exact ⟨hfail, hc, fun hd => accepted_only_by_override fem (PrepStep fem S) N q hc hd⟩
  · intro h0 h1 hs hne
    have hne' : ∃ x ∈ GetDilatationData fem S.m_fi q.ui, x ≠ 0 := hne
    have hfail : failsF (passSolver fem (PrepStep fem S) q)
        (passNorms fem (PrepStep fem S) q) = true := by
      unfold failsF
      rw [hf, hF]
      exact decide_eq_true (first_pass_family_fails S.m_Ftol q.s _ h0 h1 hs hne')
    have hc : passChecks fem (PrepStep fem S) N q = false :=
      convChecks_false_of_family _ _ _ _ (Or.inr (Or.inr hfail))
    exact ⟨hfail, hc, fun hd => accepted_only_by_override fem (PrepStep fem S) N q hc hd⟩

/-- C26 on the constrained sample: the first pass has the velocity increment `[1]` and a
unit step, the velocity tolerance is `0.001`, and the velocity check fails. -/
theorem first_pass_rejects_nonzero_increment_witness :
    (passSolver constrainedModel (PrepStep constrainedModel constrainedSolver)
      constrainedFirstPass).m_vi = [1] ∧
    (passNorms constrainedModel (PrepStep constrainedModel constrainedSolver)
      constrainedFirstPass).normv = 1 ∧
    (passNorms constrainedModel (PrepStep constrainedModel constrainedSolver)
      constrainedFirstPass).normV = 1 ∧
    failsV (passSolver constrainedModel (PrepStep constrainedModel constrainedSolver)
        constrainedFirstPass)
      (passNorms constrainedModel (PrepStep constrainedModel constrainedSolver)
        constrainedFirstPass) = true ∧
    passChecks constrainedModel (PrepStep constrainedModel constrainedSolver)
      RefNorms.initial constrainedFirstPass = false := by
  have h := (first_pass_rejects_nonzero_increment constrainedModel constrainedSolver
    RefNorms.initial constrainedFirstPass rfl rfl rfl rfl rfl rfl).2.2.2.2.2.2.1
    (by decide!) (by decide!) (by decide!) ⟨1, by decide!, by decide!⟩
  exact ⟨by decide!, by decide!, by decide!, h.1, h.2.1⟩

/-! ## Equilibrium of the contact forces -/

/-- The master shape functions exist only for three or four nodes, and they sum to one. -/
theorem masterShape_sum (nmeln : Nat) (r s : ℚ) (N : List ℚ)
    (h : masterShape nmeln r s = some N) :
    (nmeln = 3 ∨ nmeln = 4) ∧ ((List.range nmeln).map (fun l => N.getD l 0)).sum = 1 := by
  unfold masterShape at h
  split_ifs at h with h4 h3
  · subst h4
    cases h
    refine ⟨Or.inr rfl, ?_⟩
    simp [List.range_succ]
    ring
  · subst h3
    cases h
    refine ⟨Or.inl rfl, ?_⟩
    simp [List.range_succ]

/-- The element force vector built from master shape functions has a vanishing resultant in
each coordinate. -/
theorem elementForce_equilibrated (detJ w : ℚ) (tc : vec3d) (nmeln : Nat) (r s : ℚ)
    (N : List ℚ) (h : masterShape nmeln r s = some N) (c : Nat) (hc : c < 3) :
    nodalForceSum (elementForce detJ w tc N nmeln) c = 0 := by
  unfold masterShape at h
  split_ifs at h with h4 h3
  · subst h4
    cases h
    rw [elementForce_four]
    interval_cases c
    · simp [nodalForceSum, List.range_succ]
      ring
    · simp [nodalForceSum, List.range_succ]
      ring
    · simp [nodalForceSum, List.range_succ]
      ring
  · subst h3
    cases h
    rw [elementForce_three]
    interval_cases c
    · simp [nodalForceSum, List.range_succ]
      ring
    · simp [nodalForceSum, List.range_succ]
      ring
    · simp [nodalForceSum, List.range_succ]
      ring

/-- The body of the integration point loop of `ContactForces` appends only force vectors
with a vanishing resultant. -/
theorem forcePoint_equilibrated (sqrt : ℚ → ℚ) (pb : FEPeriodicBoundary2O)
    (mesh : List FEMeshNode) (sel : FESurfaceElement)
    (st st' : FEPeriodicSurface × List ForceAssembly) (n : Nat)
    (hst : ∀ rec ∈ st.2, ∀ c : Nat, c < 3 → nodalForceSum rec.fe c = 0)
    (h : forcePoint sqrt pb mesh sel st n = some st') :
    ∀ rec ∈ st'.2, ∀ c : Nat, c < 3 → nodalForceSum rec.fe c = 0 := by
  cases hpme : st.1.m_pme.getD (sel.m_lnode.getD n 0) none with
  | none =>
    rw [forcePoint_none sqrt pb mesh sel st n hpme] at h
    cases h
  | some mel =>
    cases hN : masterShape mel.Nodes (st.1.m_rs.getD (sel.m_lnode.getD n 0) (0, 0)).1
        (st.1.m_rs.getD (sel.m_lnode.getD n 0) (0, 0)).2 with
    | none =>
      unfold forcePoint at h
      dsimp only at h
      rw [hpme] at h
      dsimp only at h
      rw [hN] at h
      cases h
    | some N =>
      rw [forcePoint_eq sqrt pb mesh sel st n mel N hpme hN] at h
      cases h
      intro rec hrec c hc
      rcases List.mem_append.mp hrec with hold | hnew
      · exact hst rec hold c hc
      · rw [List.mem_singleton.mp hnew]
        exact elementForce_equilibrated _ _ _ _ _ _ N hN c hc

/-- The loops of `ContactForces` over one surface append only force vectors with a
vanishing resultant. -/
theorem forceSurface_equilibrated (sqrt : ℚ → ℚ) (pb : FEPeriodicBoundary2O)
    (mesh : List FEMeshNode) (ss : FEPeriodicSurface) (R : List ForceAssembly)
    (res : FEPeriodicSurface × List ForceAssembly)
    (hR : ∀ rec ∈ R, ∀ c : Nat, c < 3 → nodalForceSum rec.fe c = 0)
    (h : forceSurface sqrt pb mesh ss R = some res) :
    ∀ rec ∈ res.2, ∀ c : Nat, c < 3 → nodalForceSum rec.fe c = 0 := by
  unfold forceSurface at h
  have h' : ss.m_el.foldlM
      (fun (st : FEPeriodicSurface × List ForceAssembly) (sel : FESurfaceElement) =>
        (List.range sel.Nodes).foldlM (forcePoint sqrt pb mesh sel) st)
      (({ ss with m_Fr := List.replicate ss.m_Fr.length vec3d.zero } : FEPeriodicSurface), R) =
      some res := h
  exact foldlM_keeps
    (fun (st : FEPeriodicSurface × List ForceAssembly) (sel : FESurfaceElement) =>
      (List.range sel.Nodes).foldlM (forcePoint sqrt pb mesh sel) st)
    (fun st => ∀ rec ∈ st.2, ∀ c : Nat, c < 3 → nodalForceSum rec.fe c = 0) ss.m_el
    (fun st sel st' _ hs hf =>
      foldlM_keeps (forcePoint sqrt pb mesh sel)
        (fun st => ∀ rec ∈ st.2, ∀ c : Nat, c < 3 → nodalForceSum rec.fe c = 0)
        (List.range sel.Nodes)
        (fun s i s' _ hs' hf' => forcePoint_equilibrated sqrt pb mesh sel s s' i hs' hf')
        st st' hs hf)
    _ res hR h'

/-- C27: every element force vector `ContactForces` assembles is self-equilibrated. The
shape functions of a master element with three or four nodes sum to one; the body run for a
slave node with such a master element completes and assembles a force vector whose slave
node force and master node forces sum to zero in each of the three coordinates; and after a
call of `ContactForces` that completes, every assembled force vector has this property. -/
theorem contact_forces_self_equilibrated (sqrt : ℚ → ℚ) (pb : FEPeriodicBoundary2O)
    (mesh : List FEMeshNode) :
    (∀ (nmeln : Nat) (r s : ℚ), nmeln = 3 ∨ nmeln = 4 →
      ∃ N, masterShape nmeln r s = some N ∧
        ((List.range nmeln).map (fun l => N.getD l 0)).sum = 1) ∧
    (∀ (sel mel : FESurfaceElement) (st : FEPeriodicSurface × List ForceAssembly) (n : Nat),
      st.1.m_pme.getD (sel.m_lnode.getD n 0) none = some mel →
      (mel.Nodes = 3 ∨ mel.Nodes = 4) →
      ∃ (st' : FEPeriodicSurface × List ForceAssembly) (rec : ForceAssembly),
        forcePoint sqrt pb mesh sel st n = some st' ∧ st'.2 = st.2 ++ [rec] ∧
        rec.fe.length = 3 * (mel.Nodes + 1) ∧
        ∀ c : Nat, c < 3 →
          rec.fe.getD c 0 +
            ((List.range mel.Nodes).map (fun l => rec.fe.getD (3 * (l + 1) + c) 0)).sum = 0) ∧
    (∀ res : FEPeriodicBoundary2O × List ForceAssembly,
      pb.ContactForces sqrt mesh [] = some res →
      ∀ rec ∈ res.2, ∀ c : Nat, c < 3 → nodalForceSum rec.fe c = 0) := by
  have hshape : ∀ (nmeln : Nat) (r s : ℚ), nmeln = 3 ∨ nmeln = 4 →
      ∃ N, masterShape nmeln r s = some N ∧
        ((List.range nmeln).map (fun l => N.getD l 0)).sum = 1 := by
    intro nmeln r s hn
    have hsome : ∃ N, masterShape nmeln r s = some N := by
      rcases hn with h | h
      · subst h
        exact ⟨_, rfl⟩
      · subst h
        exact ⟨_, rfl⟩
    obtain ⟨N, hN⟩ := hsome
    exact ⟨N, hN, (masterShape_sum nmeln r s N hN).2⟩
  refine ⟨hshape, ?_, ?_⟩
  · intro sel mel st n hpme hn
    obtain ⟨N, hN, _⟩ := hshape mel.Nodes (st.1.m_rs.getD (sel.m_lnode.getD n 0) (0, 0)).1
      (st.1.m_rs.getD (sel.m_lnode.getD n 0) (0, 0)).2 hn
    refine ⟨_, _, forcePoint_eq sqrt pb mesh sel st n mel N hpme hN, rfl, ?_, ?_⟩
    · exact (elementForce_entries _ _ _ N mel.Nodes hn).1
    · intro c hc
      have heq := elementForce_equilibrated (pointJacobian sqrt mesh sel n)
        (sel.GaussWeights.getD n 0) (traction pb st.1 (sel.m_lnode.getD n 0)) mel.Nodes _ _ N
        hN c hc
      have hlen := (elementForce_entries (pointJacobian sqrt mesh sel n)
        (sel.GaussWeights.getD n 0) (traction pb st.1 (sel.m_lnode.getD n 0)) N mel.Nodes
        hn).1
      unfold nodalForceSum at heq
      rw [hlen, Nat.mul_div_cancel_left _ (by norm_num : 0 < 3), List.range_succ_eq_map,
        List.map_cons, List.sum_cons, List.map_map] at heq
      simp only [Function.comp_def, Nat.succ_eq_add_one, mul_zero, zero_add] at heq
      exact heq
  · intro res h
    unfold FEPeriodicBoundary2O.ContactForces at h
    cases h1 : forceSurface sqrt pb mesh pb.m_ss [] with
    | none =>
      rw [h1] at h
      cases h
    | some r1 =>
      have e1 := forceSurface_equilibrated sqrt pb mesh pb.m_ss [] r1
        (fun rec hrec => absurd hrec (List.not_mem_nil rec)) h1
      rw [h1] at h
      obtain ⟨ss, R1⟩ := r1
      dsimp only at h
      cases htp : pb.m_btwo_pass with
      | false =>
        rw [htp] at h
        simp only [Bool.false_eq_true, if_false] at h
        cases h
        exact e1
      | true =>
        rw [htp] at h
        simp only [if_true] at h
        cases h2 : forceSurface sqrt pb mesh pb.m_ms R1 with
        | none =>
          rw [h2] at h
          cases h
        | some r2 =>
          have e2 := forceSurface_equilibrated sqrt pb mesh pb.m_ms R1 r2 e1 h2
          rw [h2] at h
          obtain ⟨ms, R2⟩ := r2
          dsimp only at h
          cases h
          exact e2

/-- C27 on the contact sample: the call completes and the first force vector it assembles
has a vanishing resultant in each coordinate. -/
theorem contact_forces_self_equilibrated_witness :
    ∃ res rec, contactBoundary.ContactForces sampleSqrt sampleMesh [] = some res ∧
      res.2.head? = some rec ∧ nodalForceSum rec.fe 0 = 0 ∧ nodalForceSum rec.fe 1 = 0 ∧
      nodalForceSum rec.fe 2 = 0 := by
  cases h : contactBoundary.ContactForces sampleSqrt sampleMesh [] with
  | none =>
    have hs : (contactBoundary.ContactForces sampleSqrt sampleMesh []).isSome = true := by
      decide!
    rw [h] at hs
    exact absurd hs (by decide)
  | some res =>
    have hne : ((contactBoundary.ContactForces sampleSqrt sampleMesh []).map
        (fun r => r.2.length)) = some 3 := by decide!
    rw [h, Option.map_some'] at hne
    have hall := (contact_forces_self_equilibrated sampleSqrt contactBoundary sampleMesh).2.2
      res h
    cases hr : res.2 with
    | nil =>
      rw [hr] at hne
      exact absurd hne (by decide)
    | cons rec tl =>
      have hmem : rec ∈ res.2 := by
        rw [hr]
        exact List.mem_cons_self rec tl
      exact ⟨res, rec, rfl, by rw [hr]; rfl, hall rec hmem 0 (by decide),
        hall rec hmem 1 (by decide), hall rec hmem 2 (by decide)⟩

/-! ## Numbering of the multiplier equations -/

/-- The range of an active constraint at the head of the list. -/
theorem consecutiveRanges_active (c : FELagrangeConstraint) (cs : List FELagrangeConstraint)
    (neq : Nat) (hc : c.active = true) :
    consecutiveRanges neq (c :: cs) =
      ⟨c, neq, c.InitEquations neq⟩ :: consecutiveRanges (neq + c.InitEquations neq) cs := by
  rw [consecutiveRanges, if_pos hc]

/-- An inactive constraint at the head of the list receives no range. -/
theorem consecutiveRanges_inactive (c : FELagrangeConstraint)
    (cs : List FELagrangeConstraint) (neq : Nat) (hc : ¬ c.active = true) :
    consecutiveRanges neq (c :: cs) = consecutiveRanges neq cs := by
  rw [consecutiveRanges, if_neg hc]

/-- Either constraint loop of `InitEquations`, from any count and any calls made so far. -/
theorem foldl_addMultipliers (cs : List FELagrangeConstraint) (neq : Nat)
    (log : List EquationRange) :
    cs.foldl addMultipliers (neq, log) =
      (neq + ((consecutiveRanges neq cs).map (fun e => e.count)).sum,
        log ++ consecutiveRanges neq cs) := by
  induction cs generalizing neq log with
  | nil => simp [consecutiveRanges]
  | cons c cs ih =>
    rw [List.foldl_cons]
    by_cases hc : c.active = true
    · have hstep : addMultipliers (neq, log) c =
          (neq + c.InitEquations neq, log ++ [⟨c, neq, c.InitEquations neq⟩]) := by
        unfold addMultipliers
        rw [if_pos hc]
      rw [hstep, ih, consecutiveRanges_active c cs neq hc, List.map_cons, List.sum_cons,
        List.append_assoc, List.singleton_append, Nat.add_assoc]
    · have hstep : addMultipliers (neq, log) c = (neq, log) := by
        unfold addMultipliers
        rw [if_neg hc]
      rw [hstep, ih, consecutiveRanges_inactive c cs neq hc]

/-- The ranges of a concatenation of constraint lists. -/
theorem consecutiveRanges_append (cs ds : List FELagrangeConstraint) (neq : Nat) :
    consecutiveRanges neq (cs ++ ds) =
      consecutiveRanges neq cs ++
        consecutiveRanges (neq + ((consecutiveRanges neq cs).map (fun e => e.count)).sum)
          ds := by
  induction cs generalizing neq with
  | nil => simp [consecutiveRanges]
  | cons c cs ih =>
    rw [List.cons_append]
    by_cases hc : c.active = true
    · rw [consecutiveRanges_active c (cs ++ ds) neq hc, consecutiveRanges_active c cs neq hc,
        ih, List.map_cons, List.sum_cons, List.cons_append, Nat.add_assoc]
    · rw [consecutiveRanges_inactive c (cs ++ ds) neq hc,
        consecutiveRanges_inactive c cs neq hc, ih]

/-- The constraints that receive a range are the active ones, in order. -/
theorem consecutiveRanges_constraints (cs : List FELagrangeConstraint) (neq : Nat) :
    (consecutiveRanges neq cs).map (fun e => e.constraint) =
      cs.filter (fun c => c.active) := by
  induction cs generalizing neq with
  | nil => rfl
  | cons c cs ih =>
    by_cases hc : c.active = true
    · rw [consecutiveRanges_active c cs neq hc, List.map_cons, ih,
        List.filter_cons_of_pos hc]
    · rw [consecutiveRanges_inactive c cs neq hc, ih, List.filter_cons_of_neg hc]

/-- Every range starts at or after the count the loops started from and has the size the
constraint returned for its start. -/
theorem consecutiveRanges_mem (cs : List FELagrangeConstraint) (neq : Nat) :
    ∀ e ∈ consecutiveRanges neq cs,
      neq ≤ e.first ∧ e.count = e.constraint.InitEquations e.first ∧
        e.constraint.active = true ∧ e.constraint ∈ cs := by
  induction cs generalizing neq with
  | nil =>
    intro e he
    exact absurd he (List.not_mem_nil e)
  | cons c cs ih =>
    intro e he
    by_cases hc : c.active = true
    · rw [consecutiveRanges_active c cs neq hc] at he
      rcases List.mem_cons.mp he with h | h
      · subst h
        exact ⟨le_refl _, rfl, hc, List.mem_cons_self _ _⟩
      · obtain ⟨h1, h2, h3, h4⟩ := ih _ e h
        exact ⟨le_trans (Nat.le_add_right _ _) h1, h2, h3, List.mem_cons_of_mem _ h4⟩
    · rw [consecutiveRanges_inactive c cs neq hc] at he
      obtain ⟨h1, h2, h3, h4⟩ := ih _ e he
      exact ⟨h1, h2, h3, List.mem_cons_of_mem _ h4⟩

/-- The ranges are consecutive: each starts at the initial count plus the sizes of the ranges
before it. -/
theorem consecutiveRanges_first (cs : List FELagrangeConstraint) (neq : Nat) :
    ∀ (i : Nat) (e : EquationRange), (consecutiveRanges neq cs).get? i = some e →
      e.first = neq + (((consecutiveRanges neq cs).take i).map (fun a => a.count)).sum := by
  induction cs generalizing neq with
  | nil =>
    intro i e he
    simp [consecutiveRanges] at he
  | cons c cs ih =>
    intro i e he
    by_cases hc : c.active = true
    · rw [consecutiveRanges_active c cs neq hc] at he ⊢
      cases i with
      | zero =>
        simp only [List.get?_cons_zero, Option.some.injEq] at he
        subst he
        simp
      | succ i =>
        rw [List.get?_cons_succ] at he
        rw [ih _ i e he, List.take_succ_cons, List.map_cons, List.sum_cons, Nat.add_assoc]
    · rw [consecutiveRanges_inactive c cs neq hc] at he ⊢
      exact ih neq i e he

/-- The ranges are pairwise disjoint: an earlier range ends at or before the start of every
later one. -/
theorem consecutiveRanges_pairwise (cs : List FELagrangeConstraint) (neq : Nat) :
    List.Pairwise (fun a b => a.first + a.count ≤ b.first) (consecutiveRanges neq cs) := by
  induction cs generalizing neq with
  | nil => exact List.Pairwise.nil
  | cons c cs ih =>
    by_cases hc : c.active = true
    · rw [consecutiveRanges_active c cs neq hc]
      exact List.Pairwise.cons (fun e he => (consecutiveRanges_mem cs _ e he).1) (ih _)
    · rw [consecutiveRanges_inactive c cs neq hc]
      exact ih neq

/-- C21: `InitEquations` (base class succeeding with `neq` nodal equations) appends the
multiplier equations after the nodal ones: the active nonlinear constraints first and the
active surface pair constraints second, each list in model order, and no inactive
constraint; every call receives the current equation count as its first index and the count
grows by the number the call returns. So the ranges are consecutive, each starts at or after
the nodal count, they are pairwise disjoint, and the final `m_neq` is the nodal count plus
the sum of the returned counts. -/
theorem multiplier_equations_appended (S : FEPolarFluidSolver) (fem : FEModel) (neq : Nat)
    (nlc spc : List FELagrangeConstraint) :
    (S.InitEquations fem (some neq) nlc spc).1 = true ∧
    (S.InitEquations fem (some neq) nlc spc).2.2 = consecutiveRanges neq (nlc ++ spc) ∧
    (S.InitEquations fem (some neq) nlc spc).2.2.map (fun e => e.constraint) =
      nlc.filter (fun c => c.active) ++ spc.filter (fun c => c.active) ∧
    (∀ e ∈ (S.InitEquations fem (some neq) nlc spc).2.2,
      neq ≤ e.first ∧ e.count = e.constraint.InitEquations e.first) ∧
    (∀ (i : Nat) (e : EquationRange),
      (S.InitEquations fem (some neq) nlc spc).2.2.get? i = some e →
      e.first = neq + (((S.InitEquations fem (some neq) nlc spc).2.2.take i).map
        (fun a => a.count)).sum) ∧
    List.Pairwise (fun a b => a.first + a.count ≤ b.first)
      (S.InitEquations fem (some neq) nlc spc).2.2 ∧
    (S.InitEquations fem (some neq) nlc spc).2.1.m_neq =
      neq + ((S.InitEquations fem (some neq) nlc spc).2.2.map (fun e => e.count)).sum := by
  have hlog : (S.InitEquations fem (some neq) nlc spc).2.2 =
      consecutiveRanges neq (nlc ++ spc) := by
    show (spc.foldl addMultipliers (nlc.foldl addMultipliers (neq, []))).2 = _
    rw [foldl_addMultipliers nlc, foldl_addMultipliers spc, consecutiveRanges_append,
      List.nil_append]
  have hneq : (S.InitEquations fem (some neq) nlc spc).2.1.m_neq =
      neq + ((consecutiveRanges neq (nlc ++ spc)).map (fun e => e.count)).sum := by
    show (spc.foldl addMultipliers (nlc.foldl addMultipliers (neq, []))).1 = _
    rw [foldl_addMultipliers nlc, foldl_addMultipliers spc, consecutiveRanges_append,
      List.map_append, List.sum_append, Nat.add_assoc]
  refine ⟨rfl, hlog, ?_, ?_, ?_, ?_, ?_⟩
  · rw [hlog, consecutiveRanges_constraints, List.filter_append]
  · intro e he
    rw [hlog] at he
    obtain ⟨h1, h2, _, _⟩ := consecutiveRanges_mem _ _ e he
    exact ⟨h1, h2⟩
  · intro i e he
    rw [hlog] at he ⊢
    exact consecutiveRanges_first _ _ i e he
  · rw [hlog]
    exact consecutiveRanges_pairwise _ _
  · rw [hneq, hlog]

/-! ## The extraction methods fill their outputs -/

/-- A loop over the nodes with an inner loop over equation numbers is one loop over all the
equation numbers in order. -/
theorem foldl_nodes_flat {σ : Type} (g : σ → Int → σ) (ids : FENode → List Int)
    (nodes : List FENode) (st : σ) :
    nodes.foldl (fun st n => (ids n).foldl g st) st = (nodes.flatMap ids).foldl g st := by
  induction nodes generalizing st with
  | nil => rfl
  | cons a l ih => rw [List.foldl_cons, ih, List.flatMap_cons, List.foldl_append]

/-- Writing at a position inside a vector splits it around that position. -/
theorem set_eq_take_drop (V : List ℚ) (m : Nat) (x : ℚ) (hm : m < V.length) :
    V.set m x = V.take m ++ x :: V.drop (m + 1) := by
  induction V generalizing m with
  | nil => exact absurd hm (Nat.not_lt_zero m)
  | cons a V ih =>
    cases m with
    | zero => rfl
    | succ m =>
      rw [List.set_cons_succ, ih m (Nat.lt_of_succ_lt_succ hm)]
      rfl

/-- A run of extraction blocks from counter `m` writes the specified entries to the
positions `m, m+1, ...` and advances the counter by their number, when the output is large
enough. -/
theorem foldl_gatherDof_eq (ui : List ℚ) (l : List Int) (V : List ℚ) (m : Nat)
    (h : m + (extracted ui l).length ≤ V.length) :
    l.foldl (gatherDof ui) (V, m) =
      (V.take m ++ extracted ui l ++ V.drop (m + (extracted ui l).length),
        m + (extracted ui l).length) := by
  induction l generalizing V m with
  | nil =>
    simp [extracted]
  | cons a l ih =>
    rw [List.foldl_cons]
    by_cases ha : a = -1
    · have hstep : gatherDof ui (V, m) a = (V, m) := by
        unfold gatherDof
        rw [if_neg (fun hh => hh ha)]
      have hex : extracted ui (a :: l) = extracted ui l := by
        unfold extracted
        rw [List.filter_cons_of_neg (by simp [ha])]
      rw [hex] at h ⊢
      rw [hstep]
      exact ih V m h
    · have hstep : gatherDof ui (V, m) a =
          (V.set m (ui.getD (dataIndex a).toNat 0), m + 1) := by
        unfold gatherDof
        rw [if_pos ha]
      have hex : extracted ui (a :: l) =
          ui.getD (dataIndex a).toNat 0 :: extracted ui l := by
        unfold extracted
        rw [List.filter_cons_of_pos (by simp [ha]), List.map_cons]
      rw [hex, List.length_cons] at h ⊢
      have hm : m < V.length := by omega
      rw [hstep, ih _ (m + 1) (by rw [List.length_set]; omega),
        set_eq_take_drop V m _ hm]
      have hlen : (V.take m).length = m := by
        rw [List.length_take]
        omega
      have e1 : (V.take m ++ ui.getD (dataIndex a).toNat 0 :: V.drop (m + 1)).take (m + 1) =
          V.take m ++ [ui.getD (dataIndex a).toNat 0] := by
        rw [List.take_append_eq_append_take, hlen, List.take_of_length_le (by omega)]
        simp
      have e2 : (V.take m ++ ui.getD (dataIndex a).toNat 0 :: V.drop (m + 1)).drop
          (m + 1 + (extracted ui l).length) = V.drop (m + ((extracted ui l).length + 1)) := by
        rw [List.drop_append_eq_append_drop, hlen, List.drop_of_length_le (by omega),
          List.nil_append]
        have e3 : m + 1 + (extracted ui l).length - m = (extracted ui l).length + 1 := by omega
        rw [e3, List.drop_succ_cons, List.drop_drop]
        congr 1
        omega
      rw [e1, e2]
      have e4 : m + 1 + (extracted ui l).length = m + ((extracted ui l).length + 1) := by omega
      rw [e4]
      simp

/-- The counter of a run of extraction blocks advances by the number of entries written. -/
theorem foldl_gatherDof_counter (ui : List ℚ) (l : List Int) (V : List ℚ) (m : Nat) :
    (l.foldl (gatherDof ui) (V, m)).2 = m + (extracted ui l).length := by
  induction l generalizing V m with
  | nil => simp [extracted]
  | cons a l ih =>
    rw [List.foldl_cons]
    by_cases ha : a = -1
    · have hstep : gatherDof ui (V, m) a = (V, m) := by
        unfold gatherDof
        rw [if_neg (fun hh => hh ha)]
      have hex : extracted ui (a :: l) = extracted ui l := by
        unfold extracted
        rw [List.filter_cons_of_neg (by simp [ha])]
      rw [hstep, hex]
      exact ih V m
    · have hstep : gatherDof ui (V, m) a =
          (V.set m (ui.getD (dataIndex a).toNat 0), m + 1) := by
        unfold gatherDof
        rw [if_pos ha]
      have hex : extracted ui (a :: l) =
          ui.getD (dataIndex a).toNat 0 :: extracted ui l := by
        unfold extracted
        rw [List.filter_cons_of_pos (by simp [ha]), List.map_cons]
      rw [hstep, hex, ih, List.length_cons]
      omega

/-- The number of specified entries of a prefix of the equation numbers is at most that of
the whole list. -/
theorem extracted_take_length (ui : List ℚ) (l : List Int) (k : Nat) :
    (extracted ui (l.take k)).length ≤ (extracted ui l).length := by
  unfold extracted
  rw [List.length_map, List.length_map]
  exact List.Sublist.length_le (List.Sublist.filter _ (List.take_sublist k l))

/-- The counting statements of `InitEquations` count the equation numbers other than `-1`. -/
theorem foldl_countFree (ui : List ℚ) (l : List Int) (c : Nat) :
    l.foldl countFree c = c + (extracted ui l).length := by
  induction l generalizing c with
  | nil => simp [extracted]
  | cons a l ih =>
    rw [List.foldl_cons, ih]
    unfold countFree extracted
    by_cases ha : a = -1
    · rw [if_neg (fun hh => hh ha), List.filter_cons_of_neg (by simp [ha])]
    · rw [if_pos ha, List.filter_cons_of_pos (by simp [ha]), List.map_cons, List.length_cons]
      omega

/-- An extraction method on an output of the size of its family: the loop over the nodes
delivers exactly the specified entries, and the counter never exceeds the size. -/
theorem gather_fills (ui : List ℚ) (ids : FENode → List Int) (nodes : List FENode)
    (vi : List ℚ) (hv : vi.length = (extracted ui (nodes.flatMap ids)).length) :
    (nodes.foldl (fun st n => (ids n).foldl (gatherDof ui) st) (zero vi, 0)).1 =
      extracted ui (nodes.flatMap ids) ∧
    ∀ k : Nat, (((nodes.flatMap ids).take k).foldl (gatherDof ui) (zero vi, 0)).2 ≤
      vi.length := by
  have hz : (zero vi).length = vi.length := by simp [zero]
  constructor
  · rw [foldl_nodes_flat, foldl_gatherDof_eq ui _ (zero vi) 0 (by rw [hz, hv]; omega)]
    dsimp only
    rw [List.take_zero, List.nil_append, List.drop_of_length_le (by rw [hz, hv]; omega),
      List.append_nil]
  · intro k
    rw [foldl_gatherDof_counter, hv, Nat.zero_add]
    exact extracted_take_length ui _ k

/-- The node loop of `InitEquations` counts, for each family, the equation numbers other
than `-1`. -/
theorem foldl_countEquations (ui : List ℚ) (nodes : List FENode) (c : Nat × Nat × Nat) :
    nodes.foldl countEquations c =
      (c.1 + (extracted ui (nodes.flatMap (fun n => [n.idW0, n.idW1, n.idW2]))).length,
       c.2.1 + (extracted ui (nodes.flatMap (fun n => [n.idG0, n.idG1, n.idG2]))).length,
       c.2.2 + (extracted ui (nodes.flatMap (fun n => [n.idEF]))).length) := by
  induction nodes generalizing c with
  | nil => simp [extracted]
  | cons a l ih =>
    have hstep : countEquations c a =
        ([a.idW0, a.idW1, a.idW2].foldl countFree c.1,
         [a.idG0, a.idG1, a.idG2].foldl countFree c.2.1,
         [a.idEF].foldl countFree c.2.2) := rfl
    have happ : ∀ (x y : List Int),
        (extracted ui (x ++ y)).length = (extracted ui x).length + (extracted ui y).length := by
      intro x y
      unfold extracted
      rw [List.filter_append, List.map_append, List.length_append]
    rw [List.foldl_cons, ih, hstep, foldl_countFree ui, foldl_countFree ui, foldl_countFree ui,
      List.flatMap_cons, List.flatMap_cons, List.flatMap_cons, happ, happ, happ]
    dsimp only
    simp only [Nat.add_assoc]

/-- An admissible equation number other than `-1` decodes to an index below `neq`. -/
theorem dataIndex_range (neq : Nat) (id : Int) (hne : id ≠ -1)
    (hid : id = -1 ∨ (0 ≤ id ∧ id < neq) ∨ ∃ k : Int, 0 ≤ k ∧ k < neq ∧ id = encodePrescribed k) :
    0 ≤ dataIndex id ∧ dataIndex id < neq ∧ (dataIndex id).toNat < neq := by
  have h : 0 ≤ dataIndex id ∧ dataIndex id < neq := by
    unfold dataIndex decodePrescribed
    rcases hid with h | ⟨h0, h1⟩ | ⟨k, h0, h1, hk⟩
    · exact absurd h hne
    · rw [if_neg (by omega)]
      exact ⟨h0, h1⟩
    · unfold encodePrescribed at hk
      rw [if_pos (by omega)]
      constructor <;> omega
  refine ⟨h.1, h.2, ?_⟩
  omega

/-- C24: let every equation number of the mesh be `-1`, lie in `[0, neq)`, or be the
sentinel `-(k+2)` of some `k` in `[0, neq)`, and let the outputs have the sizes `m_nveq`,
`m_ngeq`, `m_nfeq` that `InitEquations` counted on the same table. Then these counts are the
numbers of equation numbers other than `-1` in each family; `GetVelocityData`,
`GetAngularVelocityData` and `GetDilatationData` deliver exactly one entry per such number,
in node order and then component order, so every entry of the output is overwritten; each
entry is read from `ui` at an index in `[0, neq)`; and the counter `m` never exceeds the size
of the output, so the assertions hold. -/
theorem extraction_fills_outputs (S : FEPolarFluidSolver) (fem : FEModel) (nodal neq : Nat)
    (nlc spc : List FELagrangeConstraint) (ui vi gi fi : List ℚ)
    (hid : ∀ n ∈ fem.nodes, ∀ id ∈ n.ids,
      id = -1 ∨ (0 ≤ id ∧ id < neq) ∨ ∃ k : Int, 0 ≤ k ∧ k < neq ∧ id = encodePrescribed k)
    (hv : vi.length = (S.InitEquations fem (some nodal) nlc spc).2.1.m_nveq)
    (hg : gi.length = (S.InitEquations fem (some nodal) nlc spc).2.1.m_ngeq)
    (hf : fi.length = (S.InitEquations fem (some nodal) nlc spc).2.1.m_nfeq) :
    ((S.InitEquations fem (some nodal) nlc spc).2.1.m_nveq =
        ((velocityIDs fem).filter (fun id => decide (id ≠ -1))).length ∧
      (S.InitEquations fem (some nodal) nlc spc).2.1.m_ngeq =
        ((angularVelocityIDs fem).filter (fun id => decide (id ≠ -1))).length ∧
      (S.InitEquations fem (some nodal) nlc spc).2.1.m_nfeq =
        ((dilatationIDs fem).filter (fun id => decide (id ≠ -1))).length) ∧
    (GetVelocityData fem vi ui = extracted ui (velocityIDs fem) ∧
      GetAngularVelocityData fem gi ui = extracted ui (angularVelocityIDs fem) ∧
      GetDilatationData fem fi ui = extracted ui (dilatationIDs fem)) ∧
    ((GetVelocityData fem vi ui).length = vi.length ∧
      (GetAngularVelocityData fem gi ui).length = gi.length ∧
      (GetDilatationData fem fi ui).length = fi.length) ∧
    (∀ id ∈ velocityIDs fem ++ angularVelocityIDs fem ++ dilatationIDs fem, id ≠ -1 →
      0 ≤ dataIndex id ∧ dataIndex id < neq ∧ (dataIndex id).toNat < neq) ∧
    (∀ k : Nat,
      (((velocityIDs fem).take k).foldl (gatherDof ui) (zero vi, 0)).2 ≤ vi.length ∧
      (((angularVelocityIDs fem).take k).foldl (gatherDof ui) (zero gi, 0)).2 ≤ gi.length ∧
      (((dilatationIDs fem).take k).foldl (gatherDof ui) (zero fi, 0)).2 ≤ fi.length) := by
  have hcnt := foldl_countEquations ui fem.nodes (0, 0, 0)
  have hnv : (S.InitEquations fem (some nodal) nlc spc).2.1.m_nveq =
      (extracted ui (velocityIDs fem)).length := by
    show (fem.nodes.foldl countEquations (0, 0, 0)).1 = _
    rw [hcnt]
    exact Nat.zero_add _
  have hng : (S.InitEquations fem (some nodal) nlc spc).2.1.m_ngeq =
      (extracted ui (angularVelocityIDs fem)).length := by
    show (fem.nodes.foldl countEquations (0, 0, 0)).2.1 = _
    rw [hcnt]
    exact Nat.zero_add _
  have hnf : (S.InitEquations fem (some nodal) nlc spc).2.1.m_nfeq =
      (extracted ui (dilatationIDs fem)).length := by
    show (fem.nodes.foldl countEquations (0, 0, 0)).2.2 = _
    rw [hcnt]
    exact Nat.zero_add _
  have hlen : ∀ l : List Int,
      (extracted ui l).length = (l.filter (fun id => decide (id ≠ -1))).length := by
    intro l
    unfold extracted
    rw [List.length_map]
  have hV := gather_fills ui (fun n => [n.idW0, n.idW1, n.idW2]) fem.nodes vi
    (by rw [hv, hnv]; rfl)
  have hG := gather_fills ui (fun n => [n.idG0, n.idG1, n.idG2]) fem.nodes gi
    (by rw [hg, hng]; rfl)
  have hF := gather_fills ui (fun n => [n.idEF]) fem.nodes fi (by rw [hf, hnf]; rfl)
  refine ⟨⟨?_, ?_, ?_⟩, ⟨hV.1, hG.1, hF.1⟩,
    ⟨GetVelocityData_length fem vi ui, GetAngularVelocityData_length fem gi ui,
      GetDilatationData_length fem fi ui⟩, ?_, fun k => ⟨hV.2 k, hG.2 k, hF.2 k⟩⟩
  · rw [hnv, hlen]
  · rw [hng, hlen]
  · rw [hnf, hlen]
  · intro id hmem hne
    have hnode : ∃ n ∈ fem.nodes, id ∈ n.ids := by
      unfold velocityIDs angularVelocityIDs dilatationIDs at hmem
      simp only [List.mem_append, List.mem_flatMap] at hmem
      rcases hmem with (⟨n, hn, h⟩ | ⟨n, hn, h⟩) | ⟨n, hn, h⟩
      · refine ⟨n, hn, ?_⟩
        unfold FENode.ids
        simp only [List.mem_cons, List.mem_singleton, List.not_mem_nil, or_false] at h ⊢
        rcases h with h | h | h
        · exact Or.inl h
        · exact Or.inr (Or.inl h)
        · exact Or.inr (Or.inr (Or.inl h))
      · refine ⟨n, hn, ?_⟩
        unfold FENode.ids
        simp only [List.mem_cons, List.mem_singleton, List.not_mem_nil, or_false] at h ⊢
        rcases h with h | h | h
        · exact Or.inr (Or.inr (Or.inr (Or.inl h)))
        · exact Or.inr (Or.inr (Or.inr (Or.inr (Or.inl h))))
        · exact Or.inr (Or.inr (Or.inr (Or.inr (Or.inr (Or.inl h)))))
      · refine ⟨n, hn, ?_⟩
        unfold FENode.ids
        simp only [List.mem_cons, List.mem_singleton, List.not_mem_nil, or_false] at h ⊢
        exact Or.inr (Or.inr (Or.inr (Or.inr (Or.inr (Or.inr h)))))
    obtain ⟨n, hn, hin⟩ := hnode
    exact dataIndex_range neq id hne (hid n hn id hin)

/-- C24 on the mixed sample: with `ui = [10, 20, 30, 40]` the velocity output of size two
becomes `[10, 20]`, the angular velocity output `[30]` and the dilatation output `[40]`. -/
theorem extraction_fills_outputs_witness :
    ((sampleSolver true).InitEquations mixedModel (some 4) [] []).2.1.m_nveq = 2 ∧
    GetVelocityData mixedModel [7, 7] [10, 20, 30, 40] = [10, 20] ∧
    GetAngularVelocityData mixedModel [7] [10, 20, 30, 40] = [30] ∧
    GetDilatationData mixedModel [7] [10, 20, 30, 40] = [40] ∧
    extracted [10, 20, 30, 40] (velocityIDs mixedModel) = [10, 20] := by
  have hid : ∀ n ∈ mixedModel.nodes, ∀ id ∈ n.ids,
      id = -1 ∨ (0 ≤ id ∧ id < (4 : Nat)) ∨
        ∃ k : Int, 0 ≤ k ∧ k < (4 : Nat) ∧ id = encodePrescribed k := by
    intro n hn id hin
    have hn' := List.mem_singleton.mp hn
    subst hn'
    simp only [FENode.ids, List.mem_cons, List.mem_singleton, List.not_mem_nil,
      or_false] at hin
    rcases hin with h | h | h | h | h | h | h
    · exact Or.inr (Or.inl ⟨by rw [h], by rw [h]; norm_num⟩)
    · exact Or.inr (Or.inr ⟨1, by norm_num, by norm_num, h⟩)
    · exact Or.inl h
    · exact Or.inr (Or.inl ⟨by rw [h]; norm_num, by rw [h]; norm_num⟩)
    · exact Or.inl h
    · exact Or.inl h
    · exact Or.inr (Or.inr ⟨3, by norm_num, by norm_num, h⟩)
  have h := extraction_fills_outputs (sampleSolver true) mixedModel 4 4 [] []
    [10, 20, 30, 40] [7, 7] [7] [7] hid rfl rfl rfl
  exact ⟨rfl, h.2.1.1.trans (by decide!), h.2.1.2.1.trans (by decide!),
    h.2.1.2.2.trans (by decide!), by decide!⟩

/-! ## Serialization of the solver -/

/-- Saving an `int` appends it. -/
theorem serializeInt_save (d : List ArchiveItem) (n : Int) :
    serializeInt ⟨true, d⟩ n = some (⟨true, d ++ [ArchiveItem.int n]⟩, n) := rfl

/-- Loading an `int` that is next in the archive. -/
theorem serializeInt_load (d : List ArchiveItem) (n m : Int) :
    serializeInt ⟨false, ArchiveItem.int n :: d⟩ m = some (⟨false, d⟩, n) := rfl

/-- Saving a `double` appends it. -/
theorem serializeDouble_save (d : List ArchiveItem) (x : ℚ) :
    serializeDouble ⟨true, d⟩ x = some (⟨true, d ++ [ArchiveItem.double x]⟩, x) := rfl

/-- Loading a `double` that is next in the archive. -/
theorem serializeDouble_load (d : List ArchiveItem) (x y : ℚ) :
    serializeDouble ⟨false, ArchiveItem.double x :: d⟩ y = some (⟨false, d⟩, x) := rfl

/-- Saving a vector appends it. -/
theorem serializeVector_save (d : List ArchiveItem) (v : List ℚ) :
    serializeVector ⟨true, d⟩ v = some (⟨true, d ++ [ArchiveItem.vector v]⟩, v) := rfl

/-- Loading a vector that is next in the archive. -/
theorem serializeVector_load (d : List ArchiveItem) (v w : List ℚ) :
    serializeVector ⟨false, ArchiveItem.vector v :: d⟩ w = some (⟨false, d⟩, v) := rfl

/-- The items `FEPolarFluidSolver::Serialize` writes after those of the base class. -/
theorem Serialize_save
    (base : DumpStream → FEPolarFluidSolver → Option (DumpStream × FEPolarFluidSolver))
    (S : FEPolarFluidSolver) (pre d : List ArchiveItem)
    (hsave : base ⟨true, pre⟩ S = some (⟨true, pre ++ d⟩, S)) :
    S.Serialize base ⟨true, pre⟩ =
      some (⟨true, pre ++ d ++
        [ArchiveItem.int S.m_nveq, ArchiveItem.int S.m_ngeq, ArchiveItem.int S.m_nfeq,
         ArchiveItem.double S.m_rhoi, ArchiveItem.double S.m_alphaf,
         ArchiveItem.double S.m_alpham, ArchiveItem.double S.m_beta,
         ArchiveItem.double S.m_gamma, ArchiveItem.int S.m_pred,
         ArchiveItem.vector S.m_Fn, ArchiveItem.vector S.m_Ui, ArchiveItem.vector S.m_Ut,
         ArchiveItem.vector S.m_Fr, ArchiveItem.vector S.m_vi, ArchiveItem.vector S.m_Vi,
         ArchiveItem.vector S.m_gi, ArchiveItem.vector S.m_Gi, ArchiveItem.vector S.m_fi,
         ArchiveItem.vector S.m_Fi]⟩, S) := by
  unfold FEPolarFluidSolver.Serialize
  rw [hsave]
  simp only [serializeCounts, serializeParameters, serializeSolution, serializeIncrements,
    Option.some_bind, serializeInt_save, serializeDouble_save, serializeVector_save,
    List.append_assoc, List.singleton_append, List.nil_append, List.cons_append,
    Int.toNat_ofNat]

/-- Reading back the items `FEPolarFluidSolver::Serialize` writes: the solver afterwards is
the one the base class left, with the nineteen members replaced by the stored values. -/
theorem Serialize_load
    (base : DumpStream → FEPolarFluidSolver → Option (DumpStream × FEPolarFluidSolver))
    (T T0 : FEPolarFluidSolver) (d rest : List ArchiveItem)
    (nveq ngeq nfeq : Nat) (rhoi alphaf alpham beta gamma : ℚ) (pred : Int)
    (Fn Ui Ut Fr vi Vi gi Gi fi Fi : List ℚ)
    (hload : base ⟨false, d ++
        ([ArchiveItem.int nveq, ArchiveItem.int ngeq, ArchiveItem.int nfeq,
         ArchiveItem.double rhoi, ArchiveItem.double alphaf,
         ArchiveItem.double alpham, ArchiveItem.double beta,
         ArchiveItem.double gamma, ArchiveItem.int pred,
         ArchiveItem.vector Fn, ArchiveItem.vector Ui, ArchiveItem.vector Ut,
         ArchiveItem.vector Fr, ArchiveItem.vector vi, ArchiveItem.vector Vi,
         ArchiveItem.vector gi, ArchiveItem.vector Gi, ArchiveItem.vector fi,
         ArchiveItem.vector Fi] ++ rest)⟩ T =
      some (⟨false, [ArchiveItem.int nveq, ArchiveItem.int ngeq, ArchiveItem.int nfeq,
         ArchiveItem.double rhoi, ArchiveItem.double alphaf,
         ArchiveItem.double alpham, ArchiveItem.double beta,
         ArchiveItem.double gamma, ArchiveItem.int pred,
         ArchiveItem.vector Fn, ArchiveItem.vector Ui, ArchiveItem.vector Ut,
         ArchiveItem.vector Fr, ArchiveItem.vector vi, ArchiveItem.vector Vi,
         ArchiveItem.vector gi, ArchiveItem.vector Gi, ArchiveItem.vector fi,
         ArchiveItem.vector Fi] ++ rest⟩, T0)) :
    T.Serialize base ⟨false, d ++
        ([ArchiveItem.int nveq, ArchiveItem.int ngeq, ArchiveItem.int nfeq,
         ArchiveItem.double rhoi, ArchiveItem.double alphaf,
         ArchiveItem.double alpham, ArchiveItem.double beta,
         ArchiveItem.double gamma, ArchiveItem.int pred,
         ArchiveItem.vector Fn, ArchiveItem.vector Ui, ArchiveItem.vector Ut,
         ArchiveItem.vector Fr, ArchiveItem.vector vi, ArchiveItem.vector Vi,
         ArchiveItem.vector gi, ArchiveItem.vector Gi, ArchiveItem.vector fi,
         ArchiveItem.vector Fi] ++ rest)⟩ =
      some (⟨false, rest⟩,
        { T0 with
          m_nveq := nveq, m_ngeq := ngeq, m_nfeq := nfeq,
          m_rhoi := rhoi, m_alphaf := alphaf, m_alpham := alpham, m_beta := beta,
          m_gamma := gamma, m_pred := pred,
          m_Fn := Fn, m_Ui := Ui, m_Ut := Ut, m_Fr := Fr,
          m_vi := vi, m_Vi := Vi, m_gi := gi, m_Gi := Gi, m_fi := fi, m_Fi := Fi }) := by
  unfold FEPolarFluidSolver.Serialize
  rw [hload]
  simp only [serializeCounts, serializeParameters, serializeSolution, serializeIncrements,
    Option.some_bind, serializeInt_load, serializeDouble_load, serializeVector_load,
    List.cons_append, List.nil_append, Int.toNat_ofNat]

/-- C22: `Serialize` round-trips the solver state. When the base class writes its items `d`
and reads them back, saving a solver `S` leaves `S` as it is, and loading the saved archive
into any solver `T` consumes exactly what was saved and restores `nveq`, `ngeq`, `nfeq`,
`rhoi`, `alphaf`, `alpham`, `beta`, `gamma`, the predictor and the vectors `Fn`, `Ui`, `Ut`,
`Fr`, `vi`, `Vi`, `gi`, `Gi`, `fi`, `Fi` of `S`: the members go through the same statements,
in the same order, in both directions. -/
theorem Serialize_round_trip
    (base : DumpStream → FEPolarFluidSolver → Option (DumpStream × FEPolarFluidSolver))
    (S T : FEPolarFluidSolver) (d : List ArchiveItem)
    (hsave : base ⟨true, []⟩ S = some (⟨true, d⟩, S))
    (hload : ∀ rest, ∃ T0, base ⟨false, d ++ rest⟩ T = some (⟨false, rest⟩, T0)) :
    ∃ ar, S.Serialize base ⟨true, []⟩ = some (ar, S) ∧ ar.saving = true ∧
      ∀ rest, ∃ T', T.Serialize base ⟨false, ar.data ++ rest⟩ = some (⟨false, rest⟩, T') ∧
        T'.m_nveq = S.m_nveq ∧ T'.m_ngeq = S.m_ngeq ∧ T'.m_nfeq = S.m_nfeq ∧
        T'.m_rhoi = S.m_rhoi ∧ T'.m_alphaf = S.m_alphaf ∧ T'.m_alpham = S.m_alpham ∧
        T'.m_beta = S.m_beta ∧ T'.m_gamma = S.m_gamma ∧ T'.m_pred = S.m_pred ∧
        T'.m_Fn = S.m_Fn ∧ T'.m_Ui = S.m_Ui ∧ T'.m_Ut = S.m_Ut ∧ T'.m_Fr = S.m_Fr ∧
        T'.m_vi = S.m_vi ∧ T'.m_Vi = S.m_Vi ∧ T'.m_gi = S.m_gi ∧ T'.m_Gi = S.m_Gi ∧
        T'.m_fi = S.m_fi ∧ T'.m_Fi = S.m_Fi := by
  have hs := Serialize_save base S [] d (by rw [List.nil_append]; exact hsave)
  rw [List.nil_append] at hs
  refine ⟨_, hs, rfl, ?_⟩
  intro rest
  obtain ⟨T0, hT0⟩ := hload
    ([ArchiveItem.int S.m_nveq, ArchiveItem.int S.m_ngeq, ArchiveItem.int S.m_nfeq,
      ArchiveItem.double S.m_rhoi, ArchiveItem.double S.m_alphaf,
      ArchiveItem.double S.m_alpham, ArchiveItem.double S.m_beta,
      ArchiveItem.double S.m_gamma, ArchiveItem.int S.m_pred,
      ArchiveItem.vector S.m_Fn, ArchiveItem.vector S.m_Ui, ArchiveItem.vector S.m_Ut,
      ArchiveItem.vector S.m_Fr, ArchiveItem.vector S.m_vi, ArchiveItem.vector S.m_Vi,
      ArchiveItem.vector S.m_gi, ArchiveItem.vector S.m_Gi, ArchiveItem.vector S.m_fi,
      ArchiveItem.vector S.m_Fi] ++ rest)
  have hl := Serialize_load base T T0 d rest S.m_nveq S.m_ngeq S.m_nfeq S.m_rhoi S.m_alphaf
    S.m_alpham S.m_beta S.m_gamma S.m_pred S.m_Fn S.m_Ui S.m_Ut S.m_Fr S.m_vi S.m_Vi S.m_gi
    S.m_Gi S.m_fi S.m_Fi hT0
  rw [← List.append_assoc] at hl
  exact ⟨_, hl, rfl, rfl, rfl, rfl, rfl, rfl, rfl, rfl, rfl, rfl, rfl, rfl, rfl, rfl, rfl,
    rfl, rfl, rfl, rfl⟩

/-- C22 on sample data: the constrained sample solver is saved and loaded into the plain
sample solver, with a base class that stores nothing. -/
theorem Serialize_round_trip_witness :
    ∃ ar T', constrainedSolver.Serialize plainSerialize ⟨true, []⟩ =
        some (ar, constrainedSolver) ∧
      (sampleSolver true).Serialize plainSerialize ⟨false, ar.data ++ []⟩ =
        some (⟨false, []⟩, T') ∧
      T'.m_nveq = 1 ∧ T'.m_Ut = [7, 3] ∧ T'.m_gamma = 1 := by
  obtain ⟨ar, h1, _, h2⟩ := Serialize_round_trip plainSerialize constrainedSolver
    (sampleSolver true) [] rfl (fun rest => ⟨sampleSolver true, rfl⟩)
  obtain ⟨T', h3, h4⟩ := h2 []
  exact ⟨ar, T', h1, h3, h4.1, h4.2.2.2.2.2.2.2.2.2.2.2.1, h4.2.2.2.2.2.2.2.1⟩

/-! ## Serialization and copy of linear constraints -/

/-- The cast `(int) size()` keeps a size below `2^31`. -/
theorem wrapInt32_size (n : Nat) (h : n < 2147483648) : (wrapInt32 n).toNat = n := by
  unfold wrapInt32
  omega

/-- The items the saving loop writes for one slave entry. -/
theorem saveSlave_data (b : Bool) (d : List ArchiveItem) (it : SlaveDOF) :
    saveSlave ⟨b, d⟩ it =
      ⟨b, d ++ [ArchiveItem.double it.val, ArchiveItem.int it.node, ArchiveItem.int it.bc,
        ArchiveItem.int it.neq]⟩ := by
  simp [saveSlave, DumpStream.put]

/-- The items the saving loop writes for a list of slave entries. -/
theorem foldl_saveSlave (b : Bool) (l : List SlaveDOF) (d : List ArchiveItem) :
    l.foldl saveSlave ⟨b, d⟩ =
      ⟨b, d ++ l.flatMap (fun it => [ArchiveItem.double it.val, ArchiveItem.int it.node,
        ArchiveItem.int it.bc, ArchiveItem.int it.neq])⟩ := by
  induction l generalizing d with
  | nil => simp
  | cons a l ih =>
    rw [List.foldl_cons, saveSlave_data, ih, List.flatMap_cons, List.append_assoc]

/-- The loading loop reads one slave entry from the four items written for it. -/
theorem loadSlave_data (it : SlaveDOF) (d : List ArchiveItem) (acc : List SlaveDOF)
    (i : Nat) :
    loadSlave (⟨false, [ArchiveItem.double it.val, ArchiveItem.int it.node,
        ArchiveItem.int it.bc, ArchiveItem.int it.neq] ++ d⟩, acc) i =
      some (⟨false, d⟩, acc ++ [it]) := by
  simp [loadSlave, DumpStream.getDouble, DumpStream.getInt]

/-- The loading loop, run as many times as entries were written, reads them all back in
order and leaves the rest of the archive. -/
theorem foldlM_loadSlave (l : List SlaveDOF) (idx : List Nat) (h : idx.length = l.length)
    (d : List ArchiveItem) (acc : List SlaveDOF) :
    idx.foldlM loadSlave
        (⟨false, l.flatMap (fun it => [ArchiveItem.double it.val, ArchiveItem.int it.node,
          ArchiveItem.int it.bc, ArchiveItem.int it.neq]) ++ d⟩, acc) =
      some (⟨false, d⟩, acc ++ l) := by
  induction l generalizing idx acc with
  | nil =>
    cases idx with
    | nil => simp
    | cons i idx => simp at h
  | cons a l ih =>
    cases idx with
    | nil => simp at h
    | cons i idx =>
      rw [List.foldlM_cons, List.flatMap_cons, List.append_assoc, loadSlave_data]
      simp only [Option.bind_eq_bind, Option.some_bind]
      rw [ih idx (by simpa using h), List.append_assoc, List.singleton_append]

/-- Saving a linear constraint with fewer than `2^31` slave entries writes the master, the
number of entries and the entries, and leaves the constraint as it is. -/
theorem constraint_save (LC : FELinearConstraint) (d : List ArchiveItem)
    (hn : LC.slave.length < 2147483648) :
    LC.Serialize ⟨true, d⟩ =
      some (⟨true, d ++ [ArchiveItem.dof LC.master.node LC.master.bc LC.master.neq,
          ArchiveItem.int LC.slave.length] ++
          LC.slave.flatMap (fun it => [ArchiveItem.double it.val, ArchiveItem.int it.node,
            ArchiveItem.int it.bc, ArchiveItem.int it.neq])⟩, LC) := by
  have hw : wrapInt32 LC.slave.length = LC.slave.length := by
    unfold wrapInt32
    omega
  unfold FELinearConstraint.Serialize
  rw [if_pos rfl]
  dsimp only
  rw [wrapInt32_size _ hn, List.take_of_length_le (le_refl _), hw]
  simp only [DumpStream.put, foldl_saveSlave, List.append_assoc, List.singleton_append]

/-- Loading what was saved for a linear constraint, into any constraint, yields the saved
constraint and leaves the rest of the archive. -/
theorem constraint_load (LC prior : FELinearConstraint) (rest : List ArchiveItem) :
    prior.Serialize ⟨false, [ArchiveItem.dof LC.master.node LC.master.bc LC.master.neq,
          ArchiveItem.int LC.slave.length] ++
          LC.slave.flatMap (fun it => [ArchiveItem.double it.val, ArchiveItem.int it.node,
            ArchiveItem.int it.bc, ArchiveItem.int it.neq]) ++ rest⟩ =
      some (⟨false, rest⟩, LC) := by
  unfold FELinearConstraint.Serialize
  rw [if_neg (by simp)]
  simp only [DumpStream.getDOF, DumpStream.getInt, List.cons_append, List.nil_append,
    Option.some_bind, Int.toNat_ofNat]
  rw [foldlM_loadSlave LC.slave (List.range LC.slave.length) (List.length_range _)]
  simp only [Option.some_bind, List.nil_append]

/-- C30: `FELinearConstraint::Serialize` round-trips a linear constraint (with fewer than
`2^31` slave entries): saving leaves the constraint as it is, and loading what was saved
into any constraint, whatever its slave entries were, yields a constraint with the same
master and the same slave entries in the same order; the entries held before the load are
discarded, and what follows in the archive is left unread. -/
theorem constraint_Serialize_round_trip (LC prior : FELinearConstraint)
    (rest : List ArchiveItem) (hn : LC.slave.length < 2147483648) :
    ∃ ar, LC.Serialize ⟨true, []⟩ = some (ar, LC) ∧ ar.saving = true ∧
      prior.Serialize ⟨false, ar.data ++ rest⟩ = some (⟨false, rest⟩, LC) := by
  refine ⟨_, constraint_save LC [] hn, rfl, ?_⟩
  dsimp only
  rw [List.nil_append]
  exact constraint_load LC prior rest

/-- C30 on the sample constraint, loaded into a constraint that holds three other slave
entries. -/
theorem constraint_Serialize_round_trip_witness :
    ∃ ar, sampleConstraint.Serialize ⟨true, []⟩ = some (ar, sampleConstraint) ∧
      ar.saving = true ∧
      ({ master := ⟨9, 9, 9⟩, slave := [{}, {}, {}] } : FELinearConstraint).Serialize
        ⟨false, ar.data ++ [ArchiveItem.int 4]⟩ =
        some (⟨false, [ArchiveItem.int 4]⟩, sampleConstraint) :=
  constraint_Serialize_round_trip sampleConstraint { master := ⟨9, 9, 9⟩, slave := [{}, {}, {}] }
    [ArchiveItem.int 4] (by show (2 : Nat) < 2147483648; norm_num)

/-- The copy constructor leaves as many copies of the first slave entry as the source has
slave entries. -/
theorem copy_slave (LC : FELinearConstraint) (hn : LC.slave.length < 2147483648) :
    LC.copy.master = LC.master ∧
    LC.copy.slave = List.replicate LC.slave.length (LC.slave.getD 0 {}) := by
  have key : ∀ (k : Nat) (x : SlaveDOF),
      (List.range k).foldl (fun (slave : List SlaveDOF) (_ : Nat) => slave ++ [x]) [] =
        List.replicate k x := by
    intro k x
    induction k with
    | zero => rfl
    | succ k ih =>
      rw [List.range_succ, List.foldl_append, ih, List.foldl_cons, List.foldl_nil,
        List.replicate_succ']
  unfold FELinearConstraint.copy
  dsimp only
  rw [wrapInt32_size _ hn, key]
  exact ⟨rfl, rfl⟩

/-- C28 (as stated) fails: the copy of the sample constraint, whose two slave entries
differ, holds the first slave entry twice, so it is not equal to the source, and its
coefficient for equation `7` is `0` where the source has `5`. -/
theorem copy_repeats_first_slave :
    sampleConstraint.copy.master = sampleConstraint.master ∧
    sampleConstraint.copy.slave =
      [{ node := 1, bc := 0, neq := 3, val := 2 }, { node := 1, bc := 0, neq := 3, val := 2 }] ∧
    sampleConstraint.copy ≠ sampleConstraint ∧
    sampleConstraint.FindDOF 7 = 5 ∧ sampleConstraint.copy.FindDOF 7 = 0 := by
  decide!

/-! ## Variables of a math object -/

/-- The search loop of `AddVariable` starts at the end of the list and finds nothing. -/
theorem searchFrom_end (mo : MathObject) (p : Nat → Bool) :
    searchFrom mo mo.m_Var.length p = none := by
  unfold searchFrom
  rw [List.drop_length]
  rfl

/-- What `AddVariable(var)` does: whatever the list holds, a new variable is created and
appended, with the size of the list as its index. -/
theorem AddVariable_appends (heap : VariableHeap) (mo : MathObject) (var : String) :
    (MathObject.AddVariable heap mo var).1 = heap.length ∧
    (MathObject.AddVariable heap mo var).2.2.m_Var = mo.m_Var ++ [heap.length] ∧
    (MathObject.AddVariable heap mo var).2.1 =
      heap ++ [⟨var, wrapInt32 mo.m_Var.length⟩] := by
  unfold MathObject.AddVariable
  rw [searchFrom_end]
  simp only [ite_self]
  refine ⟨trivial, trivial, ?_⟩
  simp [setIndex, deref]

/-- What the pointer overload of `AddVariable` does: whatever the list holds, the pointer
is appended and the variable it points to gets the size of the list as its index. -/
theorem AddVariablePtr_appends (heap : VariableHeap) (mo : MathObject) (pv : Nat) :
    (MathObject.AddVariablePtr heap mo pv).2.m_Var = mo.m_Var ++ [pv] ∧
    (MathObject.AddVariablePtr heap mo pv).1 = setIndex heap pv (wrapInt32 mo.m_Var.length) := by
  unfold MathObject.AddVariablePtr
  rw [searchFrom_end]
  simp only [ite_self]
  exact ⟨trivial, trivial⟩

/-- C29 (as stated) fails: a second call `AddVariable("x")` on a math object that already
holds a variable named `x` does not return that variable and does not leave the list
unchanged; it appends a second variable named `x`, so the names are not pairwise distinct,
although `FindVariable("x")` finds the first one. With the pointer overload, adding the same
variable twice lists it twice and leaves it with index `1` at position `0`. -/
theorem AddVariable_duplicates :
    (MathObject.AddVariable [] emptyMathObject "x").2.2.m_Var = [0] ∧
    MathObject.FindVariable (MathObject.AddVariable [] emptyMathObject "x").2.1
      (MathObject.AddVariable [] emptyMathObject "x").2.2 "x" = some 0 ∧
    addedTwice.1 = 1 ∧ addedTwice.2.2.m_Var = [0, 1] ∧
    addedTwice.2.2.names addedTwice.2.1 = ["x", "x"] ∧
    addedTwice.2.2.indices addedTwice.2.1 = [0, 1] ∧
    ¬ (addedTwice.2.2.names addedTwice.2.1).Nodup ∧
    addedPointerTwice.2.m_Var = [0, 0] ∧
    addedPointerTwice.2.indices addedPointerTwice.1 = [1, 1] := by
  decide!

end FEBio
